import Mathlib

/-!
Load_Balancing_Server: scheduling policies and their selector, balancer dispatch
core, LRU cache and client generator, worker supervisor, HTTP writers and reader.

A shallow embedding of the C++ sources under `src/LoadBalancer`.

Conventions of the embedding.
* `int` fields (`max_load`, `cur_load`, file descriptors) are `Int` values. The
  products of two loads in `SchedWLC.cpp` are 32-bit products: signed overflow
  is undefined behaviour in C++, and the machine multiplication keeps the low
  32 bits of the exact product, read in two's complement (`intMul`). Sums and
  differences of loads and counters are exact.
* A `std::unordered_map<int, RealServer>` is the list of its `(key, value)`
  pairs in iteration order (`begin()` is the head); keys are pairwise distinct.
* A `std::multimap<std::string, RequestInfo>` is the list of its pairs in
  iteration order (sorted by key, equal keys in insertion order).
* Undefined behaviour (dereferencing `end()`, `front()` of an empty list, a
  modulus by zero, `operator[]` outside a vector) and an exception nobody
  catches (`at()`, `substr()` outside the text) are the result `none`.
* A `std::vector<ChildInfo>` is the list of its elements; a message buffer
  `HTTPMessage` is the text it holds, assumed to fit its 4096 bytes.
* The outcome of a system call (`read`, `write`, `fork`, `open`, ..) is an input
  of the handler that makes the call.
* A data member or a local variable that is read before it was ever assigned
  holds an arbitrary value, which is an input of the model.
-/

set_option autoImplicit false

/-! ## Part I. Definitions -/

/-! ### SchedAlgorithms.h -/

/-- The struct `RealServer` of `SchedAlgorithms.h`. -/
structure RealServer where
  address : String
  port_num : String
  max_load : Int
  cur_load : Int
deriving DecidableEq, Repr, Inhabited

/-- The enumeration `SchedAlgorithm` of `SchedAlgorithms.h`. -/
inductive SchedAlgorithm where
  | Round_Robin
  | Weighted_Round_Robin
  | Least_Connection
  | Weighted_Least_Connection
  | Destination_Hashing
  | Source_Hashing
deriving DecidableEq, Repr, Inhabited

/-- The type `SchedMap = std::unordered_map<int, RealServer>`, in iteration order. -/
abbrev SchedMap := List (Int × RealServer)

/-- Constant `AbstractSchedAlgorithms::RESERVED_CAPACITY`. -/
def RESERVED_CAPACITY : Int := 1

/-- Constant `AbstractSchedAlgorithms::HASH_TAB_BITS`. -/
def HASH_TAB_BITS : Nat := 12

/-- Constant `AbstractSchedAlgorithms::HASH_TAB_SIZE`. -/
def HASH_TAB_SIZE : Nat := 1 <<< HASH_TAB_BITS

/-- Constant `AbstractSchedAlgorithms::HASH_TAB_MASK`. -/
def HASH_TAB_MASK : Nat := HASH_TAB_SIZE - 1

/-- The loop guard shared by the policies:
`it->second.cur_load >= it->second.max_load - RESERVED_CAPACITY`. -/
def lacksCapacity (s : RealServer) : Bool :=
  decide (s.cur_load ≥ s.max_load - RESERVED_CAPACITY)

/-- The capacity predicate of the specification:
`cur_load < max_load - RESERVED_CAPACITY`. -/
def hasCapacity (s : RealServer) : Prop :=
  s.cur_load < s.max_load - RESERVED_CAPACITY

instance (s : RealServer) : Decidable (hasCapacity s) := by
  unfold hasCapacity; infer_instance

/-! ### SchedRR.cpp -/

/-- The `while` loop of `SchedRR::selectServer`. `off` is the position of the
iterator `it`, `backup` the position of the iterator `backup`, `count` the
static counter. The result is the returned id and the counter left behind. -/
def SchedRR.loop (sched_map_ : SchedMap) (backup : Nat) :
    Nat → Nat → Nat → Option (Int × Nat)
  | 0, _, _ => none
  | fuel + 1, off, count =>
    match sched_map_.get? off with
    | none => none
    | some it =>
      if lacksCapacity it.2 then
        let offset := count % sched_map_.length
        if offset = backup then some (-1, count)
        else SchedRR.loop sched_map_ backup fuel offset (count + 1)
      else some (it.1, count)

/-- Model of `SchedRR::selectServer` of `SchedRR.cpp`, on the value `count` of its
`static int count` (a natural number here; it starts at 1). An empty map
(modulus by zero) gives `none`. -/
def SchedRR.selectServer (sched_map_ : SchedMap) (count : Nat) : Option (Int × Nat) :=
  if sched_map_.length = 0 then none
  else
    let offset := count % sched_map_.length
    SchedRR.loop sched_map_ offset (sched_map_.length + 1) offset (count + 1)

/-! ### SchedWRR.cpp -/

/-- The inner `for` loop of `SchedWRR::selectServer`: `it2` runs over the
servers after `it`. -/
def SchedWRR.inner : (Int × RealServer) → List (Int × RealServer) → (Int × RealServer)
  | it, [] => it
  | it, it2 :: rest =>
    if it2.2.max_load - it2.2.cur_load > it.2.max_load - it.2.cur_load then
      SchedWRR.inner it2 rest
    else SchedWRR.inner it rest

/-- Model of `SchedWRR::selectServer` of `SchedWRR.cpp`. -/
def SchedWRR.selectServer : SchedMap → Int
  | [] => -1
  | it :: rest =>
    if lacksCapacity it.2 then SchedWRR.selectServer rest
    else (SchedWRR.inner it rest).1

/-! ### SchedWLC.cpp -/

/-- The product `a * b` of two `int` values as the machine computes it: the low
32 bits of the exact product, read in two's complement. It is the exact
product when that lies in `-2^31 .. 2^31 - 1`. -/
def intMul (a b : Int) : Int := (a * b + 2 ^ 31) % 2 ^ 32 - 2 ^ 31

/-- The inner `for` loop of `SchedWLC::selectServer`: `it2` runs over the
servers after `it`; both products are products of `int`. -/
def SchedWLC.inner : (Int × RealServer) → List (Int × RealServer) → (Int × RealServer)
  | it, [] => it
  | it, it2 :: rest =>
    if intMul it2.2.max_load it.2.cur_load > intMul it2.2.cur_load it.2.max_load then
      SchedWLC.inner it2 rest
    else SchedWLC.inner it rest

/-- The outer `for` loop of `SchedWLC::selectServer`. -/
def SchedWLC.outer : SchedMap → Int
  | [] => -1
  | it :: rest =>
    if lacksCapacity it.2 then SchedWLC.outer rest
    else (SchedWLC.inner it rest).1

/-- Model of `SchedWLC::selectServer` of `SchedWLC.cpp`. On an empty map the read
`it->first` of `begin()` is undefined: `none`. -/
def SchedWLC.selectServer (sched_map_ : SchedMap) : Option Int :=
  match sched_map_ with
  | [] => none
  | _ :: _ => some (SchedWLC.outer sched_map_)

/-- The products that the comparison of `SchedWLC::selectServer` can form on a
pool, a `max_load` times a `cur_load` of two of its workers, all lie in the
range of `int`: the 32-bit product is then the exact one. -/
def productsFit (pool : SchedMap) : Prop :=
  ∀ u ∈ pool, ∀ v ∈ pool,
    -2 ^ 31 ≤ u.2.max_load * v.2.cur_load ∧ u.2.max_load * v.2.cur_load < 2 ^ 31

instance (pool : SchedMap) : Decidable (productsFit pool) := by
  unfold productsFit; infer_instance

/-! ### SchedSH.cpp -/

/-- The digits-and-dots scanner of the C library's `inet_pton(AF_INET, ..)`
(an external function): state is the octets finished so far, the octet being
read and whether a digit of it was seen. -/
def inet_pton4_scan : List Char → List Nat → Nat → Bool → Option (List Nat)
  | [], done, cur, saw => if saw && done.length = 3 then some (done ++ [cur]) else none
  | ch :: rest, done, cur, saw =>
    if ch.isDigit then
      let new := cur * 10 + (ch.toNat - 48)
      if saw && cur = 0 then none
      else if new > 255 then none
      else if !saw && done.length ≥ 4 then none
      else inet_pton4_scan rest done new true
    else if ch = '.' && saw then
      if done.length = 3 then none else inet_pton4_scan rest (done ++ [cur]) 0 false
    else none

/-- The call `inet_pton(AF_INET, s, &svaddr)`: `none` when it returns 0, else
`svaddr.s_addr` read as an unsigned 32-bit integer on a little-endian host
(the first octet is the low byte). -/
def inet_pton (s : String) : Option Nat :=
  match inet_pton4_scan s.toList [] 0 false with
  | some [a, b, c, d] => some (a + 256 * b + 65536 * c + 16777216 * d)
  | _ => none

/-- Model of `SchedSH::hashkey`: `(hashed_ip * 2654435761UL) & HASH_TAB_MASK`. The
product is taken modulo `2^32` or `2^64` by the machine; the low twelve bits
are the same. -/
def SchedSH.hashkey (hashed_ip : Nat) : Nat :=
  ((hashed_ip * 2654435761) % 2 ^ 32) &&& HASH_TAB_MASK

/-- The `while` loop of `SchedSH::selectServer`; `off` is the position of `it`. -/
def SchedSH.loop (sched_map_ : SchedMap) (backup : Nat) : Nat → Nat → Option Int
  | 0, _ => none
  | fuel + 1, off =>
    match sched_map_.get? off with
    | none => none
    | some it =>
      if lacksCapacity it.2 then
        let off1 := off + 1
        let off2 := if off1 = sched_map_.length then 0 else off1
        if off2 = backup then some (-1)
        else SchedSH.loop sched_map_ backup fuel off2
      else some it.1

/-- Model of `SchedSH::selectServer` of `SchedSH.cpp`. -/
def SchedSH.selectServer (sched_map_ : SchedMap) (source_ip_ : String) : Option Int :=
  match inet_pton source_ip_ with
  | none => some 0
  | some s_addr =>
    if sched_map_.length = 0 then none
    else
      let selected_server := SchedSH.hashkey s_addr % sched_map_.length
      SchedSH.loop sched_map_ selected_server (sched_map_.length + 1) selected_server

/-- The worker stored under id `fd` in a pool, if any. -/
def poolFind (pool : SchedMap) (fd : Int) : Option RealServer :=
  (pool.find? (fun p => p.1 == fd)).map Prod.snd

/-- The contract of section 8 for one answer of a policy: the answer is the id
of a worker of the pool that has capacity. -/
def selectsWithCapacity (pool : SchedMap) (id : Int) : Prop :=
  ∃ s, (id, s) ∈ pool ∧ hasCapacity s

/-- Some worker of the pool has capacity. -/
def anyCapacity (pool : SchedMap) : Prop :=
  ∃ p ∈ pool, hasCapacity p.2


/-! ### SchedLC.cpp, SchedDH.cpp (source files missing) -/

/-- Modelled from the spec: `SchedLC.cpp` (`SchedLC::selectServer`) is missing.
"Pick the worker minimizing `cur_load` among those with capacity"; -1 when no
worker has capacity; ties go to the first worker in iteration order. -/
def SchedLC.selectServer (sched_map_ : SchedMap) : Int :=
  match sched_map_.filter (fun p => !lacksCapacity p.2) with
  | [] => -1
  | it :: rest =>
    (rest.foldl (fun best x => if x.2.cur_load < best.2.cur_load then x else best) it).1

/-- Modelled from the spec: `SchedDH.cpp` (`SchedDH::selectServer`) is missing.
Destination Hashing is described together with Source Hashing: the same hash
walk, applied to the destination address `dest_ip_`. -/
def SchedDH.selectServer (sched_map_ : SchedMap) (dest_ip_ : String) : Option Int :=
  SchedSH.selectServer sched_map_ dest_ip_

/-! ### AlgorithmSelector.cpp -/

/-- Model of `AlgorithmSelector::selectServer`: the virtual call `sched_algo_->selectServer()`
on the policy object `sched_algo_` created by `selectAlgorithm`, given by its
dynamic type. `count` is the static counter of `SchedRR::selectServer`,
`handle_ip` the member `source_ip_` / `dest_ip_` of a hashing policy. The result
is the returned id and the counter afterwards. -/
def AlgorithmSelector.selectServer (sched_algo_ : SchedAlgorithm) (sched_map_ : SchedMap)
    (count : Nat) (handle_ip : String) : Option (Int × Nat) :=
  match sched_algo_ with
  | .Round_Robin => SchedRR.selectServer sched_map_ count
  | .Weighted_Round_Robin => some (SchedWRR.selectServer sched_map_, count)
  | .Least_Connection => some (SchedLC.selectServer sched_map_, count)
  | .Weighted_Least_Connection => (SchedWLC.selectServer sched_map_).map (fun id => (id, count))
  | .Destination_Hashing =>
    (SchedDH.selectServer sched_map_ handle_ip).map (fun id => (id, count))
  | .Source_Hashing => (SchedSH.selectServer sched_map_ handle_ip).map (fun id => (id, count))

/-! ### HTTPBasic.h, HTTPWriter.cpp, ResponseMessage.cpp -/

/-- Constant `StatusCode::ServerErrorStatusCode::HEAD500`. -/
def HEAD500 : String := "500 Internal Server Error"

/-- Constant `StatusCode::ServerErrorStatusCode::HEAD503`. -/
def HEAD503 : String := "503 Service Unavailable"

/-- The three protected members of `HTTPWriter`. -/
structure HTTPWriter where
  start_line_ : String
  header_ : String
  body_ : String
deriving DecidableEq, Repr, Inhabited

/-- The four-argument constructor
`ResponseMessage(version, status_code, target_ip, target_port)`. -/
def ResponseMessage.mk4 (version status_code target_ip target_port : String) : HTTPWriter :=
  { start_line_ := version ++ " " ++ status_code ++ " "
    header_ := "Target-IP: " ++ target_ip ++ "\r\n" ++ "Target-Port: " ++ target_port ++ "\r\n"
    body_ := "" }

/-- The constructor of `OptionsMethodWriter` (`HTTPWriter.h`). -/
def OptionsMethodWriter.mk (url version hostname accept_format source_ip source_port : String) :
    HTTPWriter :=
  { start_line_ := "" ++ ("OPTIONS " ++ url ++ " " ++ version ++ " ")
    header_ := "" ++ ("Host: " ++ hostname ++ "\r\n") ++ ("Accept: " ++ accept_format ++ "\r\n")
      ++ ("Source-IP: " ++ source_ip ++ "\r\n") ++ ("Source-Port: " ++ source_port ++ "\r\n")
    body_ := "" }

/-- The constructor of `ServerCheckMethodWriter` (`HTTPWriter.h`). -/
def ServerCheckMethodWriter.mk (url version hostname source_ip source_port : String) :
    HTTPWriter :=
  { start_line_ := "" ++ ("SERVERCHECK " ++ url ++ " " ++ version ++ " ")
    header_ := "" ++ ("Host: " ++ hostname ++ "\r\n" ++ "Source-IP: " ++ source_ip ++ "\r\n"
      ++ "Source-Port: " ++ source_port ++ "\r\n")
    body_ := "" }

/-- Model of `HTTPWriter::constructHTTPMsg`: the text `sprintf` leaves in the zeroed
buffer `http_msg.http_msg` (the text is assumed to fit the 4096 bytes). -/
def HTTPWriter.constructHTTPMsg (w : HTTPWriter) : String :=
  let start_line_ := w.start_line_ ++ "\r\n"
  let header_ := w.header_ ++ "\r\n"
  let body_ := if w.body_.length > 0 then w.body_ ++ "\r\n" else w.body_
  start_line_ ++ header_ ++ body_

/-! ### HTTPReader.h, LoadBalancer.h: free functions -/

/-- The characters `std::isspace` accepts in the "C" locale. -/
def isSpaceChar (c : Char) : Bool :=
  c = ' ' || c = '\t' || c = '\n' || c = '\x0b' || c = '\x0c' || c = '\r'

/-- Model of `convertStringToInt`: `int val; ss << s; ss >> val; return val` (C++11
stream extraction). The local `val` is declared without a value, and
`indeterminate` is what its storage holds then, an input of the model.
Leading white space is skipped. When no character is left after it (`s` is
empty or blank) the extraction gives up before it stores anything, and the
function returns `val` as it found it. Otherwise a sign and decimal digits
are read: a text that is no number stores 0, a value out of range stores the
nearest bound of `int`. -/
def convertStringToInt (s : String) (indeterminate : Int) : Int :=
  let cs := s.toList.dropWhile isSpaceChar
  let neg := cs.head? = some '-'
  let ds := match cs with
    | '-' :: r => r
    | '+' :: r => r
    | r => r
  let digs := ds.takeWhile Char.isDigit
  if cs = [] then indeterminate
  else if digs = [] then 0
  else
    let v : Int := (digs.foldl (fun a c => a * 10 + (c.toNat - 48)) 0 : Nat)
    if neg then (if v > 2147483648 then -2147483648 else -v)
    else (if v > 2147483647 then 2147483647 else v)

/-- The part of `received_msg` after the first occurrence of `target`
(`received_msg.find(target)`, then `index = found + target.size()`); `none`
when `find` returns `npos`. -/
def afterFirst (target : List Char) : List Char → Option (List Char)
  | [] => if target = [] then some [] else none
  | c :: cs =>
    if target.isPrefixOf (c :: cs) then some ((c :: cs).drop target.length)
    else afterFirst target cs

/-- The `for` loop of `getHeaderInfo` on the text from `index` on: the
characters before the first `"\r\n"`; `none` when the loop ends without
assigning `content`. -/
def lineBefore : List Char → Option (List Char)
  | [] => none
  | c :: rest =>
    match rest with
    | [] => none
    | d :: _ => if c = '\r' ∧ d = '\n' then some [] else (lineBefore rest).map (fun l => c :: l)

/-- The function `getHeaderInfo(msg, content, target)` of `LoadBalancer.h`; the
result is the value of the reference parameter `content` afterwards. -/
def getHeaderInfo (msg : String) (content : String) (target : String) : String :=
  match afterFirst target.toList msg.toList with
  | none => content
  | some rest =>
    match lineBefore rest with
    | none => content
    | some l => String.mk l

/-- Model of `getTargetIP(msg, target_ip)`. -/
def getTargetIP (msg : String) (target_ip : String) : String :=
  getHeaderInfo msg target_ip "Target-IP: "

/-- Model of `getTargetPort(msg, target_port)`. -/
def getTargetPort (msg : String) (target_port : String) : String :=
  getHeaderInfo msg target_port "Target-Port: "

/-- Model of `getBody(msg, body)`. -/
def getBody (msg : String) (body : String) : String :=
  getHeaderInfo msg body "\r\n\r\n"

/-! ### LoadBalancer.h, LoadBalancer.cpp -/

/-- The struct `RequestInfo`. -/
structure RequestInfo where
  client_addr : String
  client_fd : Int
deriving DecidableEq, Repr, Inhabited

/-- The enumeration `Status`. -/
inductive Status where
  | SUCCESS
  | MINOR_ERROR
  | FATAL_ERROR
deriving DecidableEq, Repr, Inhabited

/-- The type `RequestMap = std::multimap<std::string, RequestInfo>`, in iteration order. -/
abbrev RequestMap := List (String × RequestInfo)

/-- What a handler does to the outside: `write(fd, msg, HTTP_MSG_SIZE)` calls
and `close(fd)` calls, in program order. -/
inductive IOAction where
  | write (fd : Int) (msg : String)
  | close (fd : Int)
deriving DecidableEq, Repr

/-- The data members of `LoadBalancer` the handlers read or write, together
with the state of the policy object behind `algorithm_selector_`: its dynamic
type `sched_algo_`, the static counter `count` of `SchedRR::selectServer` and
the address member `handle_ip_` of a hashing policy. -/
structure LoadBalancer where
  server_pool_ : SchedMap
  request_map_ : RequestMap
  target_ip_ : String
  target_port_ : String
  sched_algo_ : SchedAlgorithm
  count : Nat
  handle_ip_ : String
deriving DecidableEq, Repr

/-- Model of `server_pool_.erase(fd)`. -/
def poolErase (pool : SchedMap) (fd : Int) : SchedMap :=
  pool.filter (fun p => p.1 ≠ fd)

/-- Model of `server_pool_[fd].cur_load += delta`: `operator[]` finds the worker stored
under `fd`, or first inserts a value-initialised `RealServer` under `fd`
(the place of a new key in the iteration order is implementation-defined; it
is put first here). -/
def poolAddLoad (pool : SchedMap) (fd : Int) (delta : Int) : SchedMap :=
  if pool.any (fun p => p.1 = fd) then
    pool.map (fun p => if p.1 = fd then (p.1, { p.2 with cur_load := p.2.cur_load + delta }) else p)
  else (fd, { address := "", port_num := "", max_load := 0, cur_load := 0 + delta }) :: pool

/-- The pool after `n` successive dispatches under Weighted Least Connection
whose forwarding succeeds: each one is the step
`server_pool_[handle_fd].cur_load += 1` of `handleRequestFromClient` on the
worker `SchedWLC::selectServer` returns (the run stops when it returns -1 or 0). -/
def wlcDispatches : Nat → SchedMap → SchedMap
  | 0, pool => pool
  | n + 1, pool =>
    match SchedWLC.selectServer pool with
    | some handle_fd =>
      if handle_fd = -1 ∨ handle_fd = 0 then pool
      else wlcDispatches n (poolAddLoad pool handle_fd 1)
    | none => pool

/-- Two workers on descriptors 4 and 5 with capacities 20 and 5 and the given
loads, in this iteration order. -/
def bigAndSmall (load4 load5 : Int) : SchedMap :=
  [(4, { address := "127.0.0.2", port_num := "50000", max_load := 20, cur_load := load4 }),
   (5, { address := "127.0.0.3", port_num := "50000", max_load := 5, cur_load := load5 })]

/-- Model of `server_pool_.insert(std::pair<int, RealServer>(cfd, real_server))`: nothing
happens when the key is present (a new key is put first, see `poolAddLoad`). -/
def poolInsert (pool : SchedMap) (cfd : Int) (real_server : RealServer) : SchedMap :=
  if pool.any (fun p => p.1 = cfd) then pool else (cfd, real_server) :: pool

/-- Model of `request_map_.insert(std::pair<std::string, RequestInfo>(service, request))`:
a multimap keeps its elements sorted by key and puts a new element after the
elements with an equal key. -/
def requestMapInsert (m : RequestMap) (service : String) (request : RequestInfo) : RequestMap :=
  match m with
  | [] => [(service, request)]
  | e :: rest =>
    if service < e.1 then (service, request) :: e :: rest
    else e :: requestMapInsert rest service request

/-- The search of `handleResultFromServer`: the `for` loop over
`request_map_.equal_range(target_port_)` with its `erase(it); break`. The
elements of the equal range are the elements with key `target_port_`, in
iteration order. The result is `target_fd` and the map afterwards; `none` when
the loop ends without a match (`target_fd` keeps its initial 0). -/
def findTarget (m : RequestMap) (target_port_ target_ip_ : String) : Option (Int × RequestMap) :=
  match m with
  | [] => none
  | e :: rest =>
    if e.1 = target_port_ ∧ e.2.client_addr = target_ip_ then some (e.2.client_fd, rest)
    else (findTarget rest target_port_ target_ip_).map (fun r => (r.1, e :: r.2))

/-- Constant `LoadBalancer::BIND_ADDRESS`. -/
def BIND_ADDRESS : String := "127.0.0.1"

/-- Constant `LoadBalancer::PORT_NUM`. -/
def PORT_NUM : String := "60000"

/-- Constant `LoadBalancer::SERVER_PORT_NUM`. -/
def SERVER_PORT_NUM : String := "50000"

/-- Constant `LoadBalancer::MAX_REAL_SERVER`. -/
def MAX_REAL_SERVER : Nat := 3

/-- Model of `LoadBalancer::getSourceInfo` on the outcome of `getnameinfo` (`none` when
it fails, else the host and service texts). -/
def getSourceInfo (nameinfo : Option (String × String)) : Option (String × String) :=
  match nameinfo with
  | some (host, service) => some (if host = "localhost" then "127.0.0.1" else host, service)
  | none => none

/-- What the operating system hands to one call of `handleRequestFromClient`. -/
structure ClientEvent where
  /-- Result of `accept`. -/
  cfd : Int
  /-- Result of `read(cfd, ..)`. -/
  num_read : Int
  /-- Text left in `recv_msg.http_msg`. -/
  http_msg : String
  /-- Result of `getnameinfo`. -/
  nameinfo : Option (String × String)
  /-- Whether `write(handle_fd, ..)` to the selected worker succeeds. -/
  write_ok : Bool
deriving Repr

/-- Model of `LoadBalancer::handleRequestFromClient`. The result is the balancer
afterwards, the returned `Status` and the writes and closes performed. -/
def handleRequestFromClient (lb : LoadBalancer) (ev : ClientEvent) :
    Option (LoadBalancer × Status × List IOAction) :=
  if ev.cfd = -1 then some (lb, .FATAL_ERROR, [])
  else if ev.num_read = -1 then some (lb, .MINOR_ERROR, [])
  else if ev.num_read = 0 then some (lb, .MINOR_ERROR, [])
  else
    match getSourceInfo ev.nameinfo with
    | none => some (lb, .MINOR_ERROR, [])
    | some (host, service) =>
      let request : RequestInfo := { client_addr := host, client_fd := ev.cfd }
      if lb.server_pool_.length > 0 then
        match AlgorithmSelector.selectServer lb.sched_algo_ lb.server_pool_ lb.count
            lb.handle_ip_ with
        | none => none
        | some (handle_fd, count') =>
          let lb1 := { lb with count := count' }
          if handle_fd = -1 ∨ handle_fd = 0 then
            let error_code := if handle_fd = -1 then HEAD503 else HEAD500
            let send_msg := (ResponseMessage.mk4 "HTTP/1.1" error_code host service).constructHTTPMsg
            some (lb1, .MINOR_ERROR, [.write ev.cfd send_msg])
          else if !ev.write_ok then
            some ({ lb1 with server_pool_ := poolErase lb.server_pool_ handle_fd },
              .MINOR_ERROR, [.close handle_fd])
          else
            some ({ lb1 with
                server_pool_ := poolAddLoad lb.server_pool_ handle_fd 1
                request_map_ := requestMapInsert lb.request_map_ service request },
              .SUCCESS, [.write handle_fd ev.http_msg])
      else some (lb, .FATAL_ERROR, [])

/-- What the operating system hands to one call of `handleResultFromServer`. -/
structure ServerEvent where
  /-- The argument `trigger_fd`. -/
  trigger_fd : Int
  /-- Result of `read(trigger_fd, ..)`. -/
  num_read : Int
  /-- Text left in `recv_msg.http_msg`. -/
  http_msg : String
  /-- Whether `write(target_fd, ..)` succeeds. -/
  write_ok : Bool
  /-- Whether `close(target_fd)` succeeds. -/
  close_ok : Bool
deriving Repr

/-- Model of `LoadBalancer::handleResultFromServer`. -/
def handleResultFromServer (lb : LoadBalancer) (ev : ServerEvent) :
    LoadBalancer × Status × List IOAction :=
  if ev.num_read = -1 ∨ ev.num_read = 0 then
    let pool := poolErase lb.server_pool_ ev.trigger_fd
    ({ lb with server_pool_ := pool },
      if pool.length ≤ 0 then .FATAL_ERROR else .MINOR_ERROR, [.close ev.trigger_fd])
  else
    let target_ip_ := getTargetIP ev.http_msg lb.target_ip_
    let target_port_ := getTargetPort ev.http_msg lb.target_port_
    let lb1 := { lb with target_ip_ := target_ip_, target_port_ := target_port_ }
    match findTarget lb.request_map_ target_port_ target_ip_ with
    | none => (lb1, .MINOR_ERROR, [])
    | some (target_fd, request_map_) =>
      let lb2 := { lb1 with request_map_ := request_map_ }
      if target_fd = 0 then (lb2, .MINOR_ERROR, [])
      else if !ev.write_ok then (lb2, .MINOR_ERROR, [])
      else if !ev.close_ok then (lb2, .MINOR_ERROR, [.write target_fd ev.http_msg])
      else
        ({ lb2 with server_pool_ := poolAddLoad lb.server_pool_ ev.trigger_fd (-1) },
          .SUCCESS, [.write target_fd ev.http_msg, .close target_fd])

/-- The `while` loop of `LoadBalancer::healthCheck` over the pool: `probe fd`
tells whether the `write` of the OPTIONS message to worker `fd` succeeds and
whether the `read` of its answer returns neither -1 nor 0. The result is the
pool afterwards and the writes and closes performed. -/
def healthCheckLoop (probe : Int → Bool × Bool) : SchedMap → SchedMap × List IOAction
  | [] => ([], [])
  | it :: rest =>
    let check_msg :=
      (OptionsMethodWriter.mk "*" "HTTP/1.1" it.2.address "*" BIND_ADDRESS PORT_NUM).constructHTTPMsg
    let r := healthCheckLoop probe rest
    if !(probe it.1).1 then (r.1, IOAction.close it.1 :: r.2)
    else if !(probe it.1).2 then (r.1, IOAction.write it.1 check_msg :: IOAction.close it.1 :: r.2)
    else (it :: r.1, IOAction.write it.1 check_msg :: r.2)

/-- Model of `LoadBalancer::healthCheck`. -/
def healthCheck (lb : LoadBalancer) (probe : Int → Bool × Bool) :
    LoadBalancer × Status × List IOAction :=
  if lb.request_map_.length > 0 then (lb, .MINOR_ERROR, [])
  else
    let r := healthCheckLoop probe lb.server_pool_
    ({ lb with server_pool_ := r.1 },
      if r.1.length ≤ 0 then .FATAL_ERROR else .SUCCESS, r.2)

/-- What one round of the `for` loop of `connectRealServers` meets. -/
inductive ConnectOutcome where
  /-- Case: `inetConnect` returns -1. -/
  | connect_fail
  /-- Case: `write` of the SERVERCHECK message returns -1. -/
  | write_fail
  /-- Case: `read` returns -1 or 0. -/
  | read_fail
  /-- The connection is `cfd`, `read` leaves `msg` in `recv_msg.http_msg`, and the
  storage that `convertStringToInt` takes for its local `val` holds `val`. -/
  | response (cfd : Int) (msg : String) (val : Int)
deriving DecidableEq, Repr

/-- The `for` loop of `LoadBalancer::connectRealServers`, with `rounds` rounds
left to run from round `i` on; `outcome i` is what round `i` meets. The
result is the pool when the loop is left and whether it was left by a
`return FATAL_ERROR` inside the loop. -/
def connectLoop (outcome : Nat → ConnectOutcome) : Nat → Nat → SchedMap → SchedMap × Bool
  | 0, _, pool => (pool, false)
  | rounds + 1, i, pool =>
    let host_buf := "127.0.0." ++ toString (i + 1)
    match outcome i with
    | .connect_fail => connectLoop outcome rounds (i + 1) pool
    | .write_fail => (pool, true)
    | .read_fail => (pool, true)
    | .response cfd msg val =>
      let msg_body := getBody msg ""
      let max_load := convertStringToInt msg_body val
      let real_server : RealServer :=
        { address := host_buf, port_num := SERVER_PORT_NUM, max_load := max_load, cur_load := 0 }
      connectLoop outcome rounds (i + 1) (poolInsert pool cfd real_server)

/-- Model of `LoadBalancer::connectRealServers`: the rounds
`i = 1 .. MAX_REAL_SERVER`, then the test for an empty pool. -/
def connectRealServers (lb : LoadBalancer) (outcome : Nat → ConnectOutcome) :
    LoadBalancer × Status :=
  let r := connectLoop outcome MAX_REAL_SERVER 1 lb.server_pool_
  ({ lb with server_pool_ := r.1 },
    if r.2 then .FATAL_ERROR else if r.1.length ≤ 0 then .FATAL_ERROR else .SUCCESS)

/-- The balancer right after its constructor and `selectAlgorithm`: empty pool
and request map, empty string members, the counter of Round Robin at 1. -/
def LoadBalancer.fresh (sched_algo_ : SchedAlgorithm) : LoadBalancer :=
  { server_pool_ := [], request_map_ := [], target_ip_ := "", target_port_ := "",
    sched_algo_ := sched_algo_, count := 1, handle_ip_ := "" }

/-! ### Runs of the balancer -/

/-- A bookkeeping function of a run: for each worker descriptor, the number
of requests written to it that it has not answered yet. -/
abbrev Outstanding := Int → Nat

/-- One more request written to worker `fd`. -/
def Outstanding.sent (out : Outstanding) (fd : Int) : Outstanding :=
  fun x => if x = fd then out x + 1 else out x

/-- One answer read from worker `fd`. -/
def Outstanding.answered (out : Outstanding) (fd : Int) : Outstanding :=
  fun x => if x = fd then out x - 1 else out x

/-- The states the event loop of `LoadBalancer::start` reaches from the state
`lb0` left by `connectRealServers`, by any sequence of calls of
`handleRequestFromClient` (a client connects), `handleResultFromServer`
(a registered worker's descriptor is readable) and `healthCheck` (the timer
fires). The second index counts the unanswered requests per worker.
With `answering = true` the workers only answer: a worker's descriptor
delivers a message only while a request written to it is unanswered. With
`answering = false` a worker may send a message at any time.
`healthCheck` writes one request to each worker and reads one answer from it,
which leaves the count as it is. -/
inductive Reach (answering : Bool) (lb0 : LoadBalancer) : LoadBalancer → Outstanding → Prop where
  | start : Reach answering lb0 lb0 (fun _ => 0)
  | client_forwarded (lb lb' : LoadBalancer) (out : Outstanding) (ev : ClientEvent)
      (fd : Int) (msg : String) :
      Reach answering lb0 lb out →
      handleRequestFromClient lb ev = some (lb', Status.SUCCESS, [IOAction.write fd msg]) →
      Reach answering lb0 lb' (out.sent fd)
  | client_other (lb lb' : LoadBalancer) (out : Outstanding) (ev : ClientEvent)
      (st : Status) (acts : List IOAction) :
      Reach answering lb0 lb out →
      handleRequestFromClient lb ev = some (lb', st, acts) →
      st ≠ Status.SUCCESS →
      Reach answering lb0 lb' out
  | server_message (lb : LoadBalancer) (out : Outstanding) (ev : ServerEvent) :
      Reach answering lb0 lb out →
      ev.trigger_fd ∈ lb.server_pool_.map Prod.fst →
      0 < ev.num_read →
      (answering = true → 0 < out ev.trigger_fd) →
      Reach answering lb0 (handleResultFromServer lb ev).1 (out.answered ev.trigger_fd)
  | server_lost (lb : LoadBalancer) (out : Outstanding) (ev : ServerEvent) :
      Reach answering lb0 lb out →
      ev.trigger_fd ∈ lb.server_pool_.map Prod.fst →
      ev.num_read = -1 ∨ ev.num_read = 0 →
      Reach answering lb0 (handleResultFromServer lb ev).1 out
  | health (lb : LoadBalancer) (out : Outstanding) (probe : Int → Bool × Bool) :
      Reach answering lb0 lb out →
      Reach answering lb0 (healthCheck lb probe).1 out

/-- The invariant of the specification: every worker of the pool has
`0 ≤ cur_load ≤ max_load`. -/
def loadInvariant (lb : LoadBalancer) : Prop :=
  ∀ p ∈ lb.server_pool_, 0 ≤ p.2.cur_load ∧ p.2.cur_load ≤ p.2.max_load

/-- The upper half of the invariant. -/
def loadBelowMax (lb : LoadBalancer) : Prop :=
  ∀ p ∈ lb.server_pool_, p.2.cur_load ≤ p.2.max_load

/-- A SERVERCHECK answer with body `body`, as `serverCheckResponse` builds it
for the balancer's probe. -/
def serverCheckAnswer (body : String) : String :=
  ((fun w : HTTPWriter => { w with body_ := w.body_ ++ body })
    (ResponseMessage.mk4 "HTTP/1.1" "200 OK" BIND_ADDRESS PORT_NUM)).constructHTTPMsg

/-- Rounds of `connectRealServers` in which the workers at `127.0.0.2` and
`127.0.0.3` are connected on descriptors 5 and 6 and answer the SERVERCHECK
probe with the body `body`, and no worker listens at `127.0.0.4`; the
storage of the local `val` of `convertStringToInt` holds 0 in both rounds. -/
def twoAnswers (body : String) (i : Nat) : ConnectOutcome :=
  if i = 1 then .response 5 (serverCheckAnswer body) 0
  else if i = 2 then .response 6 (serverCheckAnswer body) 0
  else .connect_fail

/-- A balancer after `connectRealServers` met two workers, on descriptors 5
and 6, that both answered the SERVERCHECK probe with capacity 5. -/
def twoWorkers (a : SchedAlgorithm) : LoadBalancer :=
  (connectRealServers (LoadBalancer.fresh a) (twoAnswers "5")).1

/-- A client connection on descriptor 9 from `127.0.0.1:40000` whose request
was read and can be forwarded. -/
def aClient : ClientEvent :=
  { cfd := 9, num_read := 4096,
    http_msg := "GET ./download.txt HTTP/1.1 \r\nHost: localhost\r\nSource-IP: 127.0.0.1\r\nSource-Port: 40000\r\n\r\n",
    nameinfo := some ("localhost", "40000"), write_ok := true }

/-- A message on worker descriptor `fd` that carries the target pair
`127.0.0.1:40000`; the writes to the client succeed. -/
def anAnswer (fd : Int) : ServerEvent :=
  { trigger_fd := fd, num_read := 4096,
    http_msg := "HTTP/1.1 200 OK \r\nContent-Length: 0\r\nTarget-IP: 127.0.0.1\r\nTarget-Port: 40000\r\n\r\n",
    write_ok := true, close_ok := true }

/-- The capacities of a pool are small enough for the 32-bit products of
Weighted Least Connection: the product of any two of them (of one with
itself too) is below `2^31`, which says that each is at most 46340. -/
def capacitiesFit (pool : SchedMap) : Prop :=
  ∀ u ∈ pool, ∀ v ∈ pool, u.2.max_load * v.2.max_load < 2 ^ 31

instance (pool : SchedMap) : Decidable (capacitiesFit pool) := by
  unfold capacitiesFit; infer_instance

/-- The invariant the runs keep: the keys of the pool are pairwise distinct,
every worker has `0 ≤ max_load` and `cur_load ≤ max_load`, and, when workers
only answer, a worker's `cur_load` is at least its number of unanswered
requests. Under Weighted Least Connection it is kept by the runs in which the
workers only answer and the capacities fit. -/
def runInvariant (answering : Bool) (lb : LoadBalancer) (out : Outstanding) : Prop :=
  (lb.server_pool_.map Prod.fst).Nodup ∧
  (lb.sched_algo_ = SchedAlgorithm.Weighted_Least_Connection →
    answering = true ∧ capacitiesFit lb.server_pool_) ∧
  ∀ p ∈ lb.server_pool_, 0 ≤ p.2.max_load ∧ p.2.cur_load ≤ p.2.max_load ∧
    (answering = true → (out p.1 : Int) ≤ p.2.cur_load)

instance (lb : LoadBalancer) : Decidable (loadInvariant lb) := by
  unfold loadInvariant; infer_instance

instance (lb : LoadBalancer) : Decidable (loadBelowMax lb) := by
  unfold loadBelowMax; infer_instance

/-- The balancer `twoWorkers a` after the client `aClient` was handled. -/
def afterDispatch (a : SchedAlgorithm) : LoadBalancer :=
  match handleRequestFromClient (twoWorkers a) aClient with
  | some r => r.1
  | none => twoWorkers a

/-- The balancer `twoWorkers` under Weighted Least Connection. -/
def wlcBalancer : LoadBalancer := twoWorkers SchedAlgorithm.Weighted_Least_Connection

/-- The balancer `wlcBalancer` after the client `aClient` was handled: the
request went to worker 6. -/
def wlcDispatched : LoadBalancer := afterDispatch SchedAlgorithm.Weighted_Least_Connection

/-! ### Cache.h: LRUCache -/

/-- The data members of `LRUCache<KeyType, ElemType>`. The `std::unordered_map`
member `cache_map_` is the list of its pairs (keys pairwise distinct; the
cache never iterates over it, so the order of the pairs is not observable). -/
structure LRUCache (KeyType ElemType : Type) where
  cache_size_ : Nat
  cache_list_ : List KeyType
  cache_map_ : List (KeyType × ElemType)
deriving DecidableEq, Repr

namespace LRUCache

variable {KeyType ElemType : Type} [DecidableEq KeyType]

/-- The constructor `LRUCache(size_t size)`. -/
def new (size : Nat) : LRUCache KeyType ElemType :=
  { cache_size_ := size, cache_list_ := [], cache_map_ := [] }

/-- Model of `cache_map_.find(key)`: the element stored under `key`, if any. -/
def lookup (c : LRUCache KeyType ElemType) (key : KeyType) : Option ElemType :=
  (c.cache_map_.find? (fun p => p.1 = key)).map Prod.snd

/-- Model of `LRUCache::isCached`. -/
def isCached (c : LRUCache KeyType ElemType) (key : KeyType) : Bool :=
  c.cache_map_.any (fun p => p.1 = key)

/-- Model of `LRUCache::moveToFront`. `cache_list_.front()` of an empty list is
undefined: `none`. `std::list::remove` removes every element equal to `key`. -/
def moveToFront (c : LRUCache KeyType ElemType) (key : KeyType) :
    Option (LRUCache KeyType ElemType) :=
  match c.cache_list_ with
  | [] => none
  | front :: _ =>
    if front = key then some c
    else some { c with cache_list_ := key :: c.cache_list_.filter (fun x => x ≠ key) }

/-- Model of `LRUCache::removeBack`. `cache_list_.back()` of an empty list is undefined:
`none`. -/
def removeBack (c : LRUCache KeyType ElemType) : Option (LRUCache KeyType ElemType) :=
  match c.cache_list_.getLast? with
  | none => none
  | some back =>
    some { c with
      cache_map_ := c.cache_map_.filter (fun p => p.1 ≠ back)
      cache_list_ := c.cache_list_.dropLast }

/-- Model of `LRUCache::insertNewElement`: `push_front(key)` and
`cache_map_.insert({ key, element })`, which changes nothing when `key` is
already in the map. -/
def insertNewElement (c : LRUCache KeyType ElemType) (key : KeyType) (element : ElemType) :
    LRUCache KeyType ElemType :=
  { c with
    cache_list_ := key :: c.cache_list_
    cache_map_ :=
      if c.cache_map_.any (fun p => p.1 = key) then c.cache_map_ else (key, element) :: c.cache_map_ }

/-- Model of `LRUCache::putElement`. In its first branch `cache_map_.at(key) = element`
finds the key, which `isCached` has just found. -/
def putElement (c : LRUCache KeyType ElemType) (key : KeyType) (element : ElemType) :
    Option (LRUCache KeyType ElemType) :=
  if c.isCached key then
    moveToFront
      { c with cache_map_ := c.cache_map_.map (fun p => if p.1 = key then (p.1, element) else p) }
      key
  else if c.cache_map_.length ≥ c.cache_size_ then
    removeBack (c.insertNewElement key element)
  else
    some (c.insertNewElement key element)

/-- Model of `LRUCache::getElement`: `moveToFront(key)` and then `cache_map_[key]`, which
returns the element under `key` or, when there is none, inserts a
value-initialised element (`default`) under `key` and returns it. The result
is the returned element and the cache afterwards. -/
def getElement [Inhabited ElemType] (c : LRUCache KeyType ElemType) (key : KeyType) :
    Option (ElemType × LRUCache KeyType ElemType) :=
  match c.moveToFront key with
  | none => none
  | some c1 =>
    match c1.lookup key with
    | some element => some (element, c1)
    | none => some (default, { c1 with cache_map_ := (key, default) :: c1.cache_map_ })

/-- Calls of `putElement` for each pair of a list, first to last; `none` as soon as one
call has no defined result. -/
def putAll (c : LRUCache KeyType ElemType) : List (KeyType × ElemType) →
    Option (LRUCache KeyType ElemType)
  | [] => some c
  | (key, element) :: rest =>
    match c.putElement key element with
    | none => none
    | some c1 => putAll c1 rest

/-- The representation invariant of the cache: the key list and the map have
no repeated key and hold the same keys. -/
def WellFormed (c : LRUCache KeyType ElemType) : Prop :=
  c.cache_list_.Nodup ∧ (c.cache_map_.map Prod.fst).Nodup ∧
    ∀ k, k ∈ c.cache_list_ ↔ k ∈ c.cache_map_.map Prod.fst

/-- The keys of a history of accesses (most recent first) in the order of
their last access, most recent first. -/
def recencyOf : List KeyType → List KeyType
  | [] => []
  | k :: earlier => k :: (recencyOf earlier).filter (fun x => x ≠ k)

/-- The caches of capacity `size` built from the empty cache by calls of
`putElement` and calls of `getElement` on cached keys, with the keys of
the calls so far, most recent first. -/
inductive Built [Inhabited ElemType] (size : Nat) :
    List KeyType → LRUCache KeyType ElemType → Prop where
  | empty : Built size [] (LRUCache.new size)
  | put (t : List KeyType) (c c' : LRUCache KeyType ElemType) (key : KeyType)
      (element : ElemType) :
      Built size t c → c.putElement key element = some c' → Built size (key :: t) c'
  | get (t : List KeyType) (c c' : LRUCache KeyType ElemType) (key : KeyType)
      (element : ElemType) :
      Built size t c → c.isCached key = true → c.getElement key = some (element, c') →
      Built size (key :: t) c'

/-- A cache of capacity 2 that holds key 2 (front, most recent) and key 1
(back): the cache after `putElement(1, "a")` and `putElement(2, "b")`. -/
def twoKeys : LRUCache Nat String :=
  { cache_size_ := 2, cache_list_ := [2, 1], cache_map_ := [(2, "b"), (1, "a")] }

end LRUCache

/-! ### Successive calls of Round Robin; the reference description of Source Hashing -/

/-- Successive calls of `SchedRR::selectServer`: `n` calls, the first of them on
the pool `pools j`, the next on `pools (j + 1)` and so on, the static
counter being carried from call to call. The result lists the returned ids,
first call first; `none` when a call has no defined result. -/
def SchedRR.calls (pools : Nat → SchedMap) : Nat → Nat → Nat → Option (List Int)
  | 0, _, _ => some []
  | n + 1, j, count =>
    match SchedRR.selectServer (pools j) count with
    | none => none
    | some r =>
      match SchedRR.calls pools n (j + 1) r.2 with
      | none => none
      | some ids => some (r.1 :: ids)

/-- The reference description of Source Hashing, written from the words of the
specification: 0 when the handle address is not a well-formed dotted quad;
otherwise, with `ip` the integer `inet_pton` yields, `h = (ip * 2654435761) & 4095`
and `start = h mod N`, the id of the first worker with
`cur_load < max_load - 1` met when walking the pool cyclically from position
`start` (`List.rotate` puts position `start` first), and -1 when no worker
has capacity. -/
def SchedSH.reference (pool : SchedMap) (address : String) : Int :=
  match inet_pton address with
  | none => 0
  | some ip =>
    let h := (ip * 2654435761) &&& 4095
    let start := h % pool.length
    match (pool.rotate start).find? (fun p => decide (p.2.cur_load < p.2.max_load - 1)) with
    | some p => p.1
    | none => -1

/-- Whether `target` occurs in the text `text ++ tail` at a position inside
`text`. -/
def occursWithin (target : List Char) : List Char → List Char → Bool
  | [], _ => false
  | c :: cs, tail => target.isPrefixOf (c :: cs ++ tail) || occursWithin target cs tail

/-! ### Server.h, Server.cpp: the supervisor of a worker -/

/-- The enumeration `ChildStatus`. -/
inductive ChildStatus where
  | FREE
  | BUSY
deriving DecidableEq, Repr, Inhabited

/-- The struct `ChildInfo`, a handler record. Of the pair `child_spipe_fd` only
`child_spipe_fd[1]`, the end the supervisor keeps, is modelled. -/
structure ChildInfo where
  child_pid : Int
  child_status : ChildStatus
  child_index : Int
  child_spipe_fd : Int
  child_timer_fd : Int
deriving DecidableEq, Repr, Inhabited

/-- Constant `Server::PREFORKED_CHILDREN`. -/
def PREFORKED_CHILDREN : Nat := 5

/-- Signal number `SIGINT` (Linux). -/
def SIGINT : Int := 2

/-- Signal number `SIGTERM` (Linux). -/
def SIGTERM : Int := 15

/-- Signal number `SIGCHLD` (Linux). -/
def SIGCHLD : Int := 17

/-- The data members of `Server` the handlers read or write. `timer_fds_` is the
`fd_set` of the timers, as the list of its members. -/
structure Server where
  max_children_ : Int
  children_exist_ : Int
  children_free_ : Int
  client_fd_ : Int
  timer_fd_ : Int
  timer_fds_ : List Int
  server_stop_ : Bool
  child_pool_ : List ChildInfo
deriving DecidableEq, Repr

/-- What a handler of the supervisor does to the outside, in program order:
`write(child_pool_.at(pos).child_spipe_fd[1], msg, ..)` with the position `pos`
the descriptor was read from, `write(client_fd_, msg, ..)`, `kill(pid, SIGINT)`
and `close(fd)`. -/
inductive ServerAction where
  | writeChild (pos : Nat) (fd : Int) (msg : String)
  | writeClient (fd : Int) (msg : String)
  | kill (pid : Int)
  | close (fd : Int)
deriving DecidableEq, Repr

namespace Server

/-- The assignment `child_pool_[i] = f child_pool_[i]` for a position `i` inside the
vector (the list is unchanged when `i` is outside; the callers test it). -/
def updateAt (f : ChildInfo → ChildInfo) : Nat → List ChildInfo → List ChildInfo
  | _, [] => []
  | 0, x :: rest => f x :: rest
  | i + 1, x :: rest => x :: updateAt f i rest

/-- A loop that walks the records up to the first one with `p`, which
`child_pool_.erase(it)` removes: the record found and the records without
it; `none` when no record has `p`. -/
def extractFirst (p : ChildInfo → Bool) : List ChildInfo → Option (ChildInfo × List ChildInfo)
  | [] => none
  | it :: rest =>
    if p it then some (it, rest)
    else (extractFirst p rest).map (fun r => (r.1, it :: r.2))

/-- The supervisor when `Server::start` enters its loop: the constructor (with
`max_children ≥ PREFORKED_CHILDREN`, else it exits), `initClientfd`, and the
five calls `forkChild(index)`; `forks index` is the supervisor's end of the
stream pipe and the pid of child `index`. -/
def started (max_children client_fd : Int) (forks : Nat → Int × Int) : Server :=
  { max_children_ := max_children
    children_exist_ := PREFORKED_CHILDREN
    children_free_ := 0
    client_fd_ := client_fd
    timer_fd_ := 0
    timer_fds_ := []
    server_stop_ := false
    child_pool_ := (List.range PREFORKED_CHILDREN).map (fun index =>
      { child_index := index, child_pid := (forks index).2, child_status := ChildStatus.FREE,
        child_timer_fd := 0, child_spipe_fd := (forks index).1 }) }

/-- The counting loop of `Server::handleRequestFromClient` over the records from
position `i` on: the values of `children_free_` and `first_free_child`
afterwards. -/
def scanFree : List ChildInfo → Nat → Int → Nat → Int × Nat
  | [], _, children_free_, first_free_child => (children_free_, first_free_child)
  | x :: rest, i, children_free_, first_free_child =>
    if x.child_status = ChildStatus.FREE then
      scanFree rest (i + 1) (children_free_ + 1)
        (if children_free_ = 0 then i else first_free_child)
    else scanFree rest (i + 1) children_free_ first_free_child

/-- Model of `Server::forkChild(index)` in the supervisor: `fork` is `none` when
`socketpair` or `fork` fails, else the supervisor's end of the new stream pipe
and the pid of the child. -/
def forkChild (s : Server) (index : Int) (fork : Option (Int × Int)) : Server × Status :=
  match fork with
  | none => (s, .FATAL_ERROR)
  | some (spipe, child_pid) =>
    ({ s with child_pool_ := s.child_pool_ ++
        [{ child_index := index, child_pid := child_pid, child_status := ChildStatus.FREE,
           child_timer_fd := 0, child_spipe_fd := spipe }] }, .SUCCESS)

/-- Model of `Server::addTimer(index)`: `timer_create` is the result of
`timerfd_create`, `settime_ok` tells whether `timerfd_settime` succeeds.
`child_pool_.at(index)` throws for an index outside the vector: `none`. -/
def addTimer (s : Server) (index : Int) (timer_create : Int) (settime_ok : Bool) :
    Option (Server × Status) :=
  let s1 := { s with timer_fd_ := timer_create }
  if timer_create = -1 then some (s1, .FATAL_ERROR)
  else if !settime_ok then some (s1, .FATAL_ERROR)
  else if 0 ≤ index ∧ index.toNat < s.child_pool_.length then
    some ({ s1 with
      timer_fds_ := timer_create :: s.timer_fds_
      child_pool_ := updateAt (fun c => { c with child_timer_fd := timer_create })
        index.toNat s.child_pool_ }, .SUCCESS)
  else none

/-- What the operating system hands to one call of
`Server::handleRequestFromClient`. -/
structure RequestEvent where
  /-- Result of `read(client_fd_, ..)`. -/
  num_read : Int
  /-- Text left in `recv_msg.http_msg`. -/
  http_msg : String
  /-- Outcome of `socketpair` and `fork` in `forkChild`, see `forkChild`. -/
  fork : Option (Int × Int)
  /-- Result of `timerfd_create` in `addTimer`. -/
  timer_create : Int
  /-- Whether `timerfd_settime` in `addTimer` succeeds. -/
  settime_ok : Bool
  /-- Whether the `write` of the handler succeeds. -/
  write_ok : Bool
deriving Repr

/-- Model of `getSourceIP(msg, source_ip)` of `Server.h`, whose `getHeaderInfo` has the
text of the one in `LoadBalancer.h`. -/
def getSourceIP (msg : String) (source_ip : String) : String :=
  getHeaderInfo msg source_ip "Source-IP: "

/-- Model of `getSourcetPort(msg, source_port)` of `Server.h`. -/
def getSourcetPort (msg : String) (source_port : String) : String :=
  getHeaderInfo msg source_port "Source-Port: "

end Server

/-- The constructor of `ErrorMessage` (`HTTPWriter.h`): start line and target
headers, then `addContentLength("0")`. -/
def ErrorMessage.mk4 (version status_code target_ip target_port : String) : HTTPWriter :=
  { start_line_ := version ++ " " ++ status_code ++ " "
    header_ := "Target-IP: " ++ target_ip ++ "\r\n" ++ "Target-Port: " ++ target_port ++ "\r\n"
      ++ ("Content-Length: " ++ "0" ++ "\r\n")
    body_ := "" }

namespace Server

/-- Model of `Server::handleRequestFromClient`. The result is the supervisor
afterwards, the returned `Status` and the writes performed; `none` when a
call of `at()` throws. -/
def handleRequestFromClient (s : Server) (ev : RequestEvent) :
    Option (Server × Status × List ServerAction) :=
  if ev.num_read = -1 then some (s, .FATAL_ERROR, [])
  else if ev.num_read = 0 then some (s, .FATAL_ERROR, [])
  else
    let scan := scanFree s.child_pool_ 0 0 0
    let first_free_child := scan.2
    let s1 := { s with children_free_ := scan.1 }
    if scan.1 > 0 then
      match s.child_pool_.get? first_free_child with
      | none => none
      | some c =>
        if !ev.write_ok then
          some (s1, .FATAL_ERROR, [.writeChild first_free_child c.child_spipe_fd ev.http_msg])
        else
          some ({ s1 with
              child_pool_ := updateAt (fun x => { x with child_status := ChildStatus.BUSY })
                first_free_child s.child_pool_ },
            .SUCCESS, [.writeChild first_free_child c.child_spipe_fd ev.http_msg])
    else if s.children_exist_ < s.max_children_ then
      let forked := forkChild s1 s.children_exist_ ev.fork
      if forked.2 = .FATAL_ERROR then some (forked.1, .FATAL_ERROR, [])
      else
        match addTimer forked.1 s.children_exist_ ev.timer_create ev.settime_ok with
        | none => none
        | some timed =>
          if timed.2 = .FATAL_ERROR then some (timed.1, .FATAL_ERROR, [])
          else
            let i := s.children_exist_.toNat
            match timed.1.child_pool_.get? i with
            | none => none
            | some c =>
              if !ev.write_ok then
                some (timed.1, .FATAL_ERROR, [.writeChild i c.child_spipe_fd ev.http_msg])
              else
                some ({ timed.1 with
                    child_pool_ := updateAt (fun x => { x with child_status := ChildStatus.BUSY })
                      i timed.1.child_pool_
                    children_exist_ := s.children_exist_ + 1 },
                  .SUCCESS, [.writeChild i c.child_spipe_fd ev.http_msg])
    else
      let source_ip := getSourceIP ev.http_msg ""
      let source_port := getSourcetPort ev.http_msg ""
      let response := (ErrorMessage.mk4 "HTTP/1.1" HEAD503 source_ip source_port).constructHTTPMsg
      if !ev.write_ok then some (s1, .FATAL_ERROR, [.writeClient s.client_fd_ response])
      else some (s1, .SUCCESS, [.writeClient s.client_fd_ response])

/-- What the operating system hands to one call of
`Server::handleResponseFromChild`. -/
structure ChildEvent where
  /-- The argument `trigger_fd`. -/
  trigger_fd : Int
  /-- Result of `read(trigger_fd, &result, ..)`. -/
  num_read : Int
  /-- The `ChildInfo` read into `result`. -/
  result : ChildInfo
  /-- Whether `timerfd_settime` succeeds. -/
  settime_ok : Bool
deriving Repr

/-- Model of `Server::handleResponseFromChild`. `child_pool_[index]` with `index` outside
the vector is undefined: `none`. -/
def handleResponseFromChild (s : Server) (ev : ChildEvent) :
    Option (Server × Status × List ServerAction) :=
  if ev.num_read = -1 then some (s, .FATAL_ERROR, [])
  else if ev.num_read = 0 then
    some ({ s with
        child_pool_ := s.child_pool_.map (fun x =>
          if x.child_spipe_fd = ev.trigger_fd then { x with child_status := ChildStatus.BUSY }
          else x) },
      .MINOR_ERROR, [])
  else if ev.result.child_pid > 0 then
    let index := ev.result.child_index
    if 0 ≤ index ∧ index.toNat < s.child_pool_.length then
      let s1 := { s with
        child_pool_ := updateAt (fun x => { x with child_status := ChildStatus.FREE })
          index.toNat s.child_pool_ }
      if index ≥ PREFORKED_CHILDREN then
        if !ev.settime_ok then some (s1, .FATAL_ERROR, []) else some (s1, .SUCCESS, [])
      else some (s1, .SUCCESS, [])
    else none
  else some (s, .SUCCESS, [])

/-- Model of `Server::handleChildTimeOut`. `std::advance(it, PREFORKED_CHILDREN)` on a
shorter vector is undefined: `none`. -/
def handleChildTimeOut (s : Server) (trigger_fd : Int) :
    Option (Server × Status × List ServerAction) :=
  if s.child_pool_.length < PREFORKED_CHILDREN then none
  else
    match extractFirst (fun it => it.child_timer_fd = trigger_fd)
        (s.child_pool_.drop PREFORKED_CHILDREN) with
    | none => some (s, .SUCCESS, [])
    | some (it, rest) =>
      some ({ s with
          timer_fds_ := s.timer_fds_.filter (fun fd => fd ≠ trigger_fd)
          children_exist_ := s.children_exist_ - 1
          child_pool_ := s.child_pool_.take PREFORKED_CHILDREN ++ rest },
        .SUCCESS, [.kill it.child_pid, .close trigger_fd, .close it.child_spipe_fd])

/-- Model of `Server::updateChild(index)` in the supervisor: `socketpair` is `none` when
`socketpair` fails, else the supervisor's end of the new stream pipe; `fork`
is `none` when `fork` fails, else the pid of the new child. `child_pool_[index]`
with `index` outside the vector is undefined: `none`. -/
def updateChild (s : Server) (index : Int) (socketpair : Option Int) (fork : Option Int) :
    Option (Server × Status) :=
  if 0 ≤ index ∧ index.toNat < s.child_pool_.length then
    let pool1 := updateAt
      (fun x => { x with child_status := ChildStatus.FREE, child_timer_fd := 0 })
      index.toNat s.child_pool_
    match socketpair with
    | none => some ({ s with child_pool_ := pool1 }, .FATAL_ERROR)
    | some spipe =>
      let pool2 := updateAt (fun x => { x with child_spipe_fd := spipe }) index.toNat pool1
      match fork with
      | none => some ({ s with child_pool_ := pool2 }, .FATAL_ERROR)
      | some child_pid =>
        some ({ s with
            child_pool_ := updateAt (fun x => { x with child_pid := child_pid })
              index.toNat pool2 },
          .SUCCESS)
  else none

/-- What the operating system hands to one call of `Server::serverSigHandler`. -/
structure SignalEvent where
  /-- Whether `read(signal_fd_, &fdsi, ..)` succeeds. -/
  read_ok : Bool
  /-- The field `fdsi.ssi_signo`. -/
  ssi_signo : Int
  /-- The field `fdsi.ssi_pid`. -/
  ssi_pid : Int
  /-- Outcome of `socketpair` in `updateChild`, see `updateChild`. -/
  socketpair : Option Int
  /-- Outcome of `fork` in `updateChild`. -/
  fork : Option Int
deriving Repr

/-- Model of `Server::serverSigHandler`. -/
def serverSigHandler (s : Server) (ev : SignalEvent) :
    Option (Server × Status × List ServerAction) :=
  if !ev.read_ok then some (s, .FATAL_ERROR, [])
  else if ev.ssi_signo = SIGCHLD then
    match extractFirst (fun it => it.child_pid = ev.ssi_pid) s.child_pool_ with
    | none => some (s, .SUCCESS, [])
    | some (it, rest) =>
      if it.child_index < PREFORKED_CHILDREN then
        match updateChild s it.child_index ev.socketpair ev.fork with
        | none => none
        | some updated =>
          if updated.2 = .FATAL_ERROR then
            some ({ updated.1 with server_stop_ := true }, .FATAL_ERROR,
              [.close it.child_spipe_fd])
          else some (updated.1, .SUCCESS, [.close it.child_spipe_fd])
      else
        some ({ s with
            timer_fds_ := s.timer_fds_.filter (fun fd => fd ≠ it.child_timer_fd)
            children_exist_ := s.children_exist_ - 1
            child_pool_ := rest },
          .SUCCESS, [.close it.child_timer_fd, .close it.child_spipe_fd])
  else if ev.ssi_signo = SIGTERM ∨ ev.ssi_signo = SIGINT then
    some ({ s with server_stop_ := true }, .SUCCESS, [])
  else some (s, .SUCCESS, [])

/-- The states the loop of `Server::start` reaches from `s0`: each step is one
handler call that has a defined result and does not return `FATAL_ERROR`
(on `FATAL_ERROR` the loop is left). -/
inductive Reach (s0 : Server) : Server → Prop where
  | start : Reach s0 s0
  | request (s s' : Server) (ev : RequestEvent) (status : Status) (acts : List ServerAction) :
      Reach s0 s → handleRequestFromClient s ev = some (s', status, acts) →
      status ≠ Status.FATAL_ERROR → Reach s0 s'
  | child (s s' : Server) (ev : ChildEvent) (status : Status) (acts : List ServerAction) :
      Reach s0 s → handleResponseFromChild s ev = some (s', status, acts) →
      status ≠ Status.FATAL_ERROR → Reach s0 s'
  | timeout (s s' : Server) (trigger_fd : Int) (status : Status) (acts : List ServerAction) :
      Reach s0 s → handleChildTimeOut s trigger_fd = some (s', status, acts) →
      status ≠ Status.FATAL_ERROR → Reach s0 s'
  | signal (s s' : Server) (ev : SignalEvent) (status : Status) (acts : List ServerAction) :
      Reach s0 s → serverSigHandler s ev = some (s', status, acts) →
      status ≠ Status.FATAL_ERROR → Reach s0 s'

/-- The invariant of the supervisor: `children_exist_` is the number of records,
at most `max_children_`, and the first `PREFORKED_CHILDREN` records carry the
indices 0 to 4. -/
def Invariant (s : Server) : Prop :=
  s.children_exist_ = s.child_pool_.length ∧ s.children_exist_ ≤ s.max_children_ ∧
    (s.child_pool_.take PREFORKED_CHILDREN).map (fun c => c.child_index) = [0, 1, 2, 3, 4]

/-- A supervisor with capacity 6 whose five pre-forked children have the pids
101 to 105 and the stream pipes 11 to 15; the balancer is on descriptor 4. -/
def example6 : Server := started 6 4 (fun index => (11 + index, 101 + index))

/-- A request read from the balancer; a fork would give pid 106 on pipe 16, a
timer would be descriptor 26, and the write succeeds. -/
def aRequest : RequestEvent :=
  { num_read := 4096,
    http_msg := "GET ./download.txt HTTP/1.1 \r\nHost: localhost\r\nSource-IP: 127.0.0.1\r\nSource-Port: 40000\r\n\r\n",
    fork := some (16, 106), timer_create := 26, settime_ok := true, write_ok := true }

end Server

/-- The supervisor after one call of `Server::handleRequestFromClient` (unchanged when
the call has no defined result). -/
def Server.afterRequest (s : Server) (ev : Server.RequestEvent) : Server :=
  match s.handleRequestFromClient ev with
  | some r => r.1
  | none => s

/-- Constant `StatusCode::SuccessStatusCode::HEAD200`. -/
def HEAD200 : String := "200 OK"

/-- Constant `StatusCode::SuccessStatusCode::HEAD201`. -/
def HEAD201 : String := "201 Created"

/-- Constant `StatusCode::ClientErrorStatusCode::HEAD400`. -/
def HEAD400 : String := "400 Bad Request"

/-- Constant `StatusCode::ClientErrorStatusCode::HEAD401`. -/
def HEAD401 : String := "401 Unauthorized"

/-- Constant `StatusCode::ClientErrorStatusCode::HEAD404`. -/
def HEAD404 : String := "404 Not Found"

/-- Constant `StatusCode::ClientErrorStatusCode::HEAD405`. -/
def HEAD405 : String := "405 Method Not Allowed"

/-- Constant `StatusCode::ClientErrorStatusCode::HEAD414`. -/
def HEAD414 : String := "414 Request URL Too Long"

/-- Constant `StatusCode::ServerErrorStatusCode::HEAD505`. -/
def HEAD505 : String := "505 HTTP Version Not Supported"

/-- Error number `ENOENT` (Linux). -/
def ENOENT : Int := 2

/-- Error number `EACCES` (Linux). -/
def EACCES : Int := 13

/-- Error number `ENAMETOOLONG` (Linux). -/
def ENAMETOOLONG : Int := 36

/-- Model of `HTTPWriter::addBody`. -/
def HTTPWriter.addBody (w : HTTPWriter) (body : String) : HTTPWriter :=
  { w with body_ := w.body_ ++ body }

/-- Model of `HTTPWriter::addContentType`. -/
def HTTPWriter.addContentType (w : HTTPWriter) (content_type : String) : HTTPWriter :=
  { w with header_ := w.header_ ++ ("Content-Type: " ++ content_type ++ "\r\n") }

/-- Model of `HTTPWriter::addContentLength`. -/
def HTTPWriter.addContentLength (w : HTTPWriter) (content_length : String) : HTTPWriter :=
  { w with header_ := w.header_ ++ ("Content-Length: " ++ content_length ++ "\r\n") }

/-- Model of `ResponseMessage::addLocation`. -/
def HTTPWriter.addLocation (w : HTTPWriter) (location : String) : HTTPWriter :=
  { w with header_ := w.header_ ++ ("Location: " ++ location ++ "\r\n") }

/-- Model of `ResponseMessage::addAllow`. -/
def HTTPWriter.addAllow (w : HTTPWriter) (allow_method : String) : HTTPWriter :=
  { w with header_ := w.header_ ++ ("Allow: " ++ allow_method ++ "\r\n") }

/-! ### HTTPReader.h, HTTPReader.cpp, ResponseHandler.cpp -/

/-- Model of `convertToString<T>(val)` for an integer `val`: `ss << val; ss >> s`, the decimal
text of `val`. -/
def convertToString (val : Int) : String := toString val

/-- The outcome of the file-system calls of the method handlers. -/
structure FileSystem where
  /-- The calls `open(url, O_RDONLY)` and `read`: the `errno` of a failed `open`, else
  the text the zeroed buffer holds after `read` (up to its first NUL). -/
  readFile : String → Except Int String
  /-- The calls `open(url, O_RDWR | O_CREAT | O_TRUNC, ..)` and `write(fd, body)`: the `errno`
  of a failed `open`, else the value `write` returns. -/
  writeFile : String → String → Except Int Int
  /-- Whether `open("./lock.txt", ..)` succeeds. -/
  lockFile : Bool
  /-- The call `remove(url)`: its `errno` when it fails. -/
  removeFile : String → Except Int Unit

/-- A scan for the first `"\r\n"`: the text before it and the text after it;
`none` when there is none. -/
def splitAtCRLF : List Char → Option (List Char × List Char)
  | [] => none
  | c :: rest =>
    match rest with
    | [] => none
    | d :: rest2 =>
      if c = '\r' ∧ d = '\n' then some ([], rest2)
      else (splitAtCRLF rest).map (fun r => (c :: r.1, r.2))

/-- A scan for the first `"\r\n\r\n"`: the text before it and the text after it;
`none` when there is none. -/
def splitAtCRLF2 : List Char → Option (List Char × List Char)
  | [] => none
  | c :: rest =>
    match rest with
    | d :: e :: f :: rest4 =>
      if c = '\r' ∧ d = '\n' ∧ e = '\r' ∧ f = '\n' then some ([], rest4)
      else (splitAtCRLF2 rest).map (fun r => (c :: r.1, r.2))
    | _ => none

/-- The loop of `HTTPReader::checkStartLine` on the rest of `start_line_`, with `cur` the
text since `index`: the words pushed into `start_line_queue_`. -/
def checkStartLine.loop : List Char → List Char → List String
  | [], cur => if cur.length > 0 then [String.mk cur] else []
  | c :: rest, cur =>
    if c = ' ' then String.mk cur :: checkStartLine.loop rest []
    else checkStartLine.loop rest (cur ++ [c])

/-- Model of `HTTPReader::checkStartLine`: the queue `start_line_queue_` afterwards. -/
def checkStartLine (start_line_ : String) : List String :=
  checkStartLine.loop start_line_.toList []

/-- The loop of `HTTPReader::checkHeader` on the rest of `header_`, with `cur` the text
since `index`: the lines pushed into `header_queue_`. `skip` is set on the `'\n'` of
a line end just found (`index` is already past it). -/
def checkHeader.loop : List Char → List Char → Bool → List String
  | [], cur, _ => if cur.length > 0 then [String.mk cur] else []
  | c :: rest, cur, skip =>
    if skip then checkHeader.loop rest cur false
    else
      match rest with
      | [] => [String.mk (cur ++ [c])]
      | d :: _ =>
        if c = '\r' ∧ d = '\n' then String.mk cur :: checkHeader.loop rest [] true
        else checkHeader.loop rest (cur ++ [c]) false

/-- Model of `HTTPReader::checkHeader`: the queue `header_queue_` afterwards. -/
def checkHeader (header_ : String) : List String :=
  checkHeader.loop header_.toList [] false

/-- The data members of `ResponseHandler` (the buffer `http_msg_` as text). -/
structure ResponseHandler where
  url_ : String
  version_ : String
  header_queue_ : List String
  http_msg_ : String
  msg_ : String
  error_code_ : String
  header_ : String
  content_ : String
  target_ip_ : String
  target_port_ : String
deriving DecidableEq, Repr

namespace ResponseHandler

/-- The constructor of `ResponseHandler`. -/
def new (url version : String) (header_queue : List String) : ResponseHandler :=
  { url_ := url, version_ := version, header_queue_ := header_queue, http_msg_ := "",
    msg_ := "", error_code_ := "", header_ := "", content_ := "", target_ip_ := "",
    target_port_ := "" }

/-- The tables of `initHeaderHandlerTable`: the header names the handler table of
`method` holds; `none` when `header_handler_table_.at(method)` throws. -/
def handlerTable (method : String) : Option (List String) :=
  if method = "GET" then some ["Accept", "Host", "Source-IP", "Source-Port"]
  else if method = "HEAD" then some ["Accept", "Host", "Source-IP", "Source-Port"]
  else if method = "PUT" then
    some ["Host", "Content-Type", "Content-Length", "Source-IP", "Source-Port"]
  else if method = "POST" then
    some ["Host", "Content-Type", "Content-Length", "Source-IP", "Source-Port"]
  else if method = "TRACE" then some ["Accept", "Host", "Source-IP", "Source-Port"]
  else if method = "OPTIONS" then some ["Accept", "Host", "Source-IP", "Source-Port"]
  else if method = "DELETE" then some ["Host", "Source-IP", "Source-Port"]
  else if method = "SERVERCHECK" then some ["Host", "Source-IP", "Source-Port"]
  else if method = "ERROR" then
    some ["Accept", "Host", "Content-Type", "Content-Length", "Source-IP", "Source-Port"]
  else none

/-- Model of `ResponseHandler::getHeaderInfo` on the line `msg` taken from the front of
`header_queue_`, whose rest is `queue`. `substr(i + 2, ..)` throws when `i + 2` is
past the end of the line: `none`. A line without `':'` leaves `header_` and
`content_` as they were. -/
def getHeaderInfo (rh : ResponseHandler) (msg : String) (queue : List String) :
    Option ResponseHandler :=
  let rh1 := { rh with msg_ := msg, header_queue_ := queue }
  let before := msg.toList.takeWhile (fun c => c ≠ ':')
  if before.length < msg.length then
    if before.length + 2 > msg.length then none
    else
      some { rh1 with
        header_ := String.mk before
        content_ := String.mk (msg.toList.drop (before.length + 2)) }
  else some rh1

/-- The `while` loop of `ResponseHandler::handleHeaders` over the lines of `header_queue_`. -/
def handleHeaders.loop (method : String) : List String → ResponseHandler →
    Option ResponseHandler
  | [], rh => some rh
  | msg :: queue, rh =>
    match rh.getHeaderInfo msg queue with
    | none => none
    | some rh1 =>
      match handlerTable method with
      | none => none
      | some handler =>
        if rh1.header_ ∈ handler then
          if rh1.header_ = "Source-IP" then
            handleHeaders.loop method queue { rh1 with target_ip_ := rh1.content_ }
          else if rh1.header_ = "Source-Port" then
            handleHeaders.loop method queue { rh1 with target_port_ := rh1.content_ }
          else handleHeaders.loop method queue rh1
        else handleHeaders.loop method queue { rh1 with error_code_ := HEAD400 }

/-- Model of `ResponseHandler::handleHeaders`: the handler afterwards and the returned
`int`. -/
def handleHeaders (rh : ResponseHandler) (method : String) : Option (ResponseHandler × Int) :=
  match handleHeaders.loop method rh.header_queue_ rh with
  | none => none
  | some rh1 =>
    if rh1.error_code_.length > 0 then
      some ({ rh1 with
          http_msg_ := (ErrorMessage.mk4 "HTTP/1.1" rh1.error_code_ rh1.target_ip_
            rh1.target_port_).constructHTTPMsg }, -1)
    else some (rh1, 0)

end ResponseHandler

namespace ResponseHandler

/-- The error response the handlers build from `error_code` and the target pair. -/
def errorMessage (rh : ResponseHandler) (error_code : String) : String :=
  (ErrorMessage.mk4 "HTTP/1.1" error_code rh.target_ip_ rh.target_port_).constructHTTPMsg

/-- Model of `ResponseHandler::getResponse`. The statement
`buffer[strlen(buffer) - 1] = '\0'` is undefined when the buffer holds no text, and
`strlen` is when the 3000 bytes of the buffer hold no NUL: `none`. -/
def getResponse (rh : ResponseHandler) (fs : FileSystem) : Option String :=
  match rh.handleHeaders "GET" with
  | none => none
  | some (rh1, ret) =>
    if ret = -1 then some rh1.http_msg_
    else
      match fs.readFile rh1.url_ with
      | .error errno =>
        some (rh1.errorMessage
          (if errno = ENOENT then HEAD404 else if errno = EACCES then HEAD401 else HEAD500))
      | .ok text =>
        if text.length = 0 ∨ text.length ≥ 3000 then none
        else
          let buffer := String.mk text.toList.dropLast
          some ((((ResponseMessage.mk4 "HTTP/1.1" HEAD200 rh1.target_ip_ rh1.target_port_
            ).addContentType "text/plain").addContentLength
              (convertToString buffer.length)).addBody buffer).constructHTTPMsg

/-- Model of `ResponseHandler::headResponse`. -/
def headResponse (rh : ResponseHandler) (fs : FileSystem) : Option String :=
  match rh.handleHeaders "HEAD" with
  | none => none
  | some (rh1, ret) =>
    if ret = -1 then some rh1.http_msg_
    else
      match fs.readFile rh1.url_ with
      | .error errno =>
        some (rh1.errorMessage
          (if errno = ENOENT then HEAD404 else if errno = EACCES then HEAD401 else HEAD500))
      | .ok text =>
        if text.length = 0 ∨ text.length ≥ 3000 then none
        else
          let buffer := String.mk text.toList.dropLast
          some (((ResponseMessage.mk4 "HTTP/1.1" HEAD200 rh1.target_ip_ rh1.target_port_
            ).addContentType "text/plain").addContentLength
              (convertToString buffer.length)).constructHTTPMsg

/-- Model of `ResponseHandler::putResponse`. -/
def putResponse (rh : ResponseHandler) (fs : FileSystem) (body : String) : Option String :=
  match rh.handleHeaders "PUT" with
  | none => none
  | some (rh1, ret) =>
    if ret = -1 then some rh1.http_msg_
    else
      match fs.writeFile rh1.url_ body with
      | .error errno => some (rh1.errorMessage (if errno = EACCES then HEAD401 else HEAD500))
      | .ok num_written =>
        if num_written ≠ body.length then some (rh1.errorMessage HEAD500)
        else
          some (((((ResponseMessage.mk4 "HTTP/1.1" HEAD201 rh1.target_ip_ rh1.target_port_
            ).addLocation rh1.url_).addContentType "text/plain").addContentLength
              (convertToString rh1.url_.length)).addBody rh1.url_).constructHTTPMsg

/-- Model of `ResponseHandler::postResponse`. -/
def postResponse (rh : ResponseHandler) (body : String) : Option String :=
  match rh.handleHeaders "POST" with
  | none => none
  | some (rh1, ret) =>
    if ret = -1 then some rh1.http_msg_
    else
      let result := body ++ " is in stock"
      some ((((ResponseMessage.mk4 "HTTP/1.1" HEAD200 rh1.target_ip_ rh1.target_port_
        ).addContentType "text/plain").addContentLength
          (convertToString (result.length + 1))).addBody result).constructHTTPMsg

/-- Model of `ResponseHandler::traceResponse`. -/
def traceResponse (rh : ResponseHandler) (request_msg_ : String) : Option String :=
  match rh.handleHeaders "TRACE" with
  | none => none
  | some (rh1, ret) =>
    if ret = -1 then some rh1.http_msg_
    else
      some ((((ResponseMessage.mk4 "HTTP/1.1" HEAD200 rh1.target_ip_ rh1.target_port_
        ).addContentType "text/plain").addContentLength
          (convertToString request_msg_.length)).addBody request_msg_).constructHTTPMsg

/-- Model of `ResponseHandler::optionsResponse`. -/
def optionsResponse (rh : ResponseHandler) : Option String :=
  match rh.handleHeaders "OPTIONS" with
  | none => none
  | some (rh1, ret) =>
    if ret = -1 then some rh1.http_msg_
    else
      some (((ResponseMessage.mk4 "HTTP/1.1" HEAD200 rh1.target_ip_ rh1.target_port_
        ).addContentLength "0").addAllow
          "GET, HEAD, PUT, POST, TRACE, OPTIONS, DELETE").constructHTTPMsg

/-- Model of `ResponseHandler::deleteResponse`. -/
def deleteResponse (rh : ResponseHandler) (fs : FileSystem) : Option String :=
  match rh.handleHeaders "DELETE" with
  | none => none
  | some (rh1, ret) =>
    if ret = -1 then some rh1.http_msg_
    else if !fs.lockFile then some (rh1.errorMessage HEAD500)
    else
      match fs.removeFile rh1.url_ with
      | .error errno =>
        some (rh1.errorMessage
          (if errno = EACCES then HEAD401 else if errno = ENOENT then HEAD404
            else if errno = ENAMETOOLONG then HEAD414 else HEAD500))
      | .ok _ =>
        some ((((ResponseMessage.mk4 "HTTP/1.1" HEAD200 rh1.target_ip_ rh1.target_port_
          ).addContentType "text/plain").addContentLength "17").addBody
            "File is deleted.").constructHTTPMsg

/-- Model of `ResponseHandler::serverCheckResponse`. -/
def serverCheckResponse (rh : ResponseHandler) (max_load : String) : Option String :=
  match rh.handleHeaders "SERVERCHECK" with
  | none => none
  | some (rh1, ret) =>
    if ret = -1 then some rh1.http_msg_
    else
      some ((ResponseMessage.mk4 "HTTP/1.1" HEAD200 rh1.target_ip_ rh1.target_port_
        ).addBody max_load).constructHTTPMsg

/-- Model of `ResponseHandler::errorResponse`. -/
def errorResponse (rh : ResponseHandler) (error : String) : Option String :=
  match rh.handleHeaders "ERROR" with
  | none => none
  | some (rh1, _) => some (rh1.errorMessage error)

end ResponseHandler

/-- Model of `HTTPReader::parseHTTPMsg`: the text left in `response_msg_`. `front()` of an
empty `start_line_queue_` is undefined: `none`. -/
def HTTPReader.parseHTTPMsg (fs : FileSystem) (start_line_queue_ header_queue_ : List String)
    (body_ request_msg_ max_load_ : String) : Option String :=
  match start_line_queue_ with
  | method0 :: url :: version :: _ =>
    let error_code := if version ≠ "HTTP/1.1" then HEAD505 else ""
    let method := if version ≠ "HTTP/1.1" then "ERROR" else method0
    let response_handler := ResponseHandler.new url version header_queue_
    if method = "GET" then response_handler.getResponse fs
    else if method = "HEAD" then response_handler.headResponse fs
    else if method = "PUT" then response_handler.putResponse fs body_
    else if method = "POST" then response_handler.postResponse body_
    else if method = "TRACE" then response_handler.traceResponse request_msg_
    else if method = "OPTIONS" then response_handler.optionsResponse
    else if method = "DELETE" then response_handler.deleteResponse fs
    else if method = "SERVERCHECK" then response_handler.serverCheckResponse max_load_
    else if method = "ERROR" then response_handler.errorResponse error_code
    else response_handler.errorResponse HEAD405
  | _ => none

/-- Model of `HTTPReader::start` on a reader constructed on the text `request_msg_` after
`setMaxLoad(max_load_)`. The result is `some (some r)` when `response_msg_` is set to
`r`, `some none` when `start` returns before `parseHTTPMsg` (the buffer
`response_msg_` is left as it was), and `none` when a call of `at()` throws or
the behaviour is undefined. The loop bounds `size() - 2` and `size() - 4` are
unsigned: on a shorter text the loop runs until `at()` throws. -/
def HTTPReader.start (fs : FileSystem) (request_msg_ max_load_ : String) :
    Option (Option String) :=
  let msg := request_msg_.toList
  if msg.length ≤ 0 then some none
  else if msg.length < 2 then none
  else
    match splitAtCRLF msg with
    | none => some none
    | some (start_line, after) =>
      if start_line.length ≤ 0 then some none
      else if msg.length < 4 then none
      else
        match splitAtCRLF2 after with
        | none => some none
        | some (header_lines, after2) =>
          let header_ := String.mk (header_lines ++ ['\r', '\n'])
          let body_ := match splitAtCRLF after2 with
            | some (b, _) => String.mk b
            | none => ""
          (HTTPReader.parseHTTPMsg fs (checkStartLine (String.mk start_line))
            (checkHeader header_) body_ request_msg_ max_load_).map some

/-- Workers 4 (load 2 of 5), 5 (load 2 of 9) and 6 (load 1 of 8): the spare loads
are 3, 7 and 7. -/
def spareLoadPool : SchedMap :=
  [(4, ⟨"127.0.0.2", "50000", 5, 2⟩), (5, ⟨"127.0.0.3", "50000", 9, 2⟩),
    (6, ⟨"127.0.0.4", "50000", 8, 1⟩)]

/-- Workers 4 (load 3 of 10) and 5 (load 1 of 5). -/
def ratioPool : SchedMap :=
  [(4, ⟨"127.0.0.2", "50000", 10, 3⟩), (5, ⟨"127.0.0.3", "50000", 5, 1⟩)]

/-! ### Example balancers and events -/

/-- Rounds of `connectRealServers` in which only the worker at `127.0.0.2` is
connected, on descriptor 5, and answers the SERVERCHECK probe with the body
`body`. -/
def oneAnswer (body : String) (i : Nat) : ConnectOutcome :=
  if i = 1 then .response 5 (serverCheckAnswer body) 0 else .connect_fail

/-- A balancer after `connectRealServers` met one worker, on descriptor 5, with
capacity 5. -/
def oneWorker (a : SchedAlgorithm) : LoadBalancer :=
  (connectRealServers (LoadBalancer.fresh a) (oneAnswer "5")).1

/-- The client `aClient`, when the write of its request to the selected worker
fails. -/
def aFailedWrite : ClientEvent := { aClient with write_ok := false }

/-- End of file on worker descriptor `fd`. -/
def anEndOfFile (fd : Int) : ServerEvent :=
  { trigger_fd := fd, num_read := 0, http_msg := "", write_ok := true, close_ok := true }

/-! ### SchedRR.cpp: the counter of a fresh process -/

/-- The initial value of the static counter of `SchedRR::selectServer`
(`static int count = 1;`). -/
def SchedRR.initialCount : Nat := 1

/-! ### AlgorithmSelector.cpp: the selector object -/

/-- The integer value of an enumerator of `SchedAlgorithm`. -/
def SchedAlgorithm.toInt : SchedAlgorithm → Int
  | .Round_Robin => 0
  | .Weighted_Round_Robin => 1
  | .Least_Connection => 2
  | .Weighted_Least_Connection => 3
  | .Destination_Hashing => 4
  | .Source_Hashing => 5

/-- The data members of `AlgorithmSelector`: `sched_type_` by its integer value
(storage that was never assigned can hold any value), and `sched_algo_` by the
dynamic type of the policy object it points to, `none` for `nullptr`. -/
structure AlgorithmSelector where
  sched_type_ : Int
  sched_algo_ : Option SchedAlgorithm
deriving DecidableEq, Repr

/-- The constructor `AlgorithmSelector(SchedAlgorithm sched_type)`. Its initialiser list
reads `sched_type_(sched_type_), sched_algo_(nullptr)`: the member is initialised
from itself and the parameter `sched_type` is not used. `indeterminate` is
the value the storage of `sched_type_` holds when the constructor runs. -/
def AlgorithmSelector.new (_sched_type : SchedAlgorithm) (indeterminate : Int) :
    AlgorithmSelector :=
  { sched_type_ := indeterminate, sched_algo_ := none }

/-- Model of `AlgorithmSelector::setSchedType`. -/
def AlgorithmSelector.setSchedType (s : AlgorithmSelector) (sched_type : SchedAlgorithm) :
    AlgorithmSelector :=
  { s with sched_type_ := sched_type.toInt }

/-- Model of `AlgorithmSelector::getSchedType`. -/
def AlgorithmSelector.getSchedType (s : AlgorithmSelector) : Int := s.sched_type_

/-- Model of `AlgorithmSelector::selectAlgorithm`: the `switch` over `sched_type_`; the
`default` branch leaves `sched_algo_` as it is. -/
def AlgorithmSelector.selectAlgorithm (s : AlgorithmSelector) : AlgorithmSelector :=
  if s.sched_type_ = 0 then { s with sched_algo_ := some .Round_Robin }
  else if s.sched_type_ = 1 then { s with sched_algo_ := some .Weighted_Round_Robin }
  else if s.sched_type_ = 2 then { s with sched_algo_ := some .Least_Connection }
  else if s.sched_type_ = 3 then { s with sched_algo_ := some .Weighted_Least_Connection }
  else if s.sched_type_ = 4 then { s with sched_algo_ := some .Destination_Hashing }
  else if s.sched_type_ = 5 then { s with sched_algo_ := some .Source_Hashing }
  else s

/-- Model of `AlgorithmSelector::selectServer` on the selector object: the call
`sched_algo_->selectServer()`, undefined through a null pointer (`none`). The other
arguments are the state of the policy object, see `AlgorithmSelector.selectServer`. -/
def AlgorithmSelector.delegate (s : AlgorithmSelector) (sched_map_ : SchedMap) (count : Nat)
    (handle_ip : String) : Option (Int × Nat) :=
  match s.sched_algo_ with
  | none => none
  | some policy => AlgorithmSelector.selectServer policy sched_map_ count handle_ip

/-! ### Example: a client with a numeric address under Source Hashing -/

/-- The balancer `twoWorkers` under Source Hashing. -/
def shBalancer : LoadBalancer := twoWorkers SchedAlgorithm.Source_Hashing

/-- A client connection on descriptor 9 whose address `getnameinfo` gives as
`192.168.1.10`, port 40000; its request was read and can be forwarded. -/
def anIPv4Client : ClientEvent :=
  { aClient with nameinfo := some ("192.168.1.10", "40000") }

/-! ### The reference description of the health check -/

/-- The reference description of `healthCheck`, written from the words of the
specification, with the probe outcome of each worker (`write` succeeded,
`read` succeeded with a non-empty answer) as input: with a non-empty
pending-request map the result is `MINOR_ERROR` and the pool stays; otherwise
the pool keeps exactly the workers whose write and read both succeeded, and
the result is `FATAL_ERROR` when none is left and `SUCCESS` otherwise. -/
def healthCheck.reference (lb : LoadBalancer) (probe : Int → Bool × Bool) :
    LoadBalancer × Status :=
  if lb.request_map_ ≠ [] then (lb, .MINOR_ERROR)
  else
    let kept := lb.server_pool_.filter (fun w => (probe w.1).1 && (probe w.1).2)
    ({ lb with server_pool_ := kept }, if kept = [] then .FATAL_ERROR else .SUCCESS)

/-! ### Example events and runs of the supervisor -/

namespace Server

/-- The signal `SIGCHLD` for the child with pid 103; the replacement child gets
the stream pipe 31 and the pid 203. -/
def aChildExit : SignalEvent :=
  { read_ok := true, ssi_signo := SIGCHLD, ssi_pid := 103, socketpair := some 31,
    fork := some 203 }

/-- A supervisor with capacity 7 whose five pre-forked children have the pids
101 to 105 and the stream pipes 11 to 15; the balancer is on descriptor 4. -/
def example7 : Server := started 7 4 (fun index => (11 + index, 101 + index))

/-- The request `aRequest` when a fork would give pid `100 + n` on pipe `10 + n`
and a timer would be descriptor `20 + n`. -/
def requestForking (n : Int) : RequestEvent :=
  { aRequest with fork := some (10 + n, 100 + n), timer_create := 20 + n }

/-- The supervisor after one call of `Server::handleChildTimeOut` (unchanged when
the call has no defined result). -/
def afterTimeOut (s : Server) (trigger_fd : Int) : Server :=
  match s.handleChildTimeOut trigger_fd with
  | some r => r.1
  | none => s

/-- The completion message of the child with pid `pid` that was forked with
the index `index`: the child writes its own `ChildInfo`, which holds the index it
was forked with. -/
def aCompletion (pid index spipe timer : Int) : ChildEvent :=
  { trigger_fd := spipe, num_read := 24,
    result := ⟨pid, ChildStatus.FREE, index, spipe, timer⟩, settime_ok := true }

/-- The supervisor `example7` after seven requests: the five pre-forked children
are `BUSY`, and so are the children 106 (index 5) and 107 (index 6) forked for
the sixth and the seventh request. -/
def busy7 : Server :=
  ((((((example7.afterRequest aRequest).afterRequest aRequest).afterRequest
    aRequest).afterRequest aRequest).afterRequest aRequest).afterRequest
    (requestForking 6)).afterRequest (requestForking 7)

/-- The supervisor after one call of `Server::handleResponseFromChild` (unchanged when
the call has no defined result). -/
def afterCompletion (s : Server) (ev : ChildEvent) : Server :=
  match s.handleResponseFromChild ev with
  | some r => r.1
  | none => s

/-- The supervisor `busy7` after child 106 completed its request and its idle
timer 26 expired: the record of child 106 is erased and the record of child
107, which holds the index 6, is now at position 5. -/
def shifted7 : Server := (busy7.afterCompletion (aCompletion 106 5 16 26)).afterTimeOut 26

/-- The supervisor `shifted7` after one more request, for which child 108 is
forked with the index 6. -/
def refilled7 : Server := shifted7.afterRequest (requestForking 8)

end Server

/-! ### ClientManager.cpp: the request cache of the client generator -/

/-- The capacity of `ClientManager::request_cache_` (`new LRUCache<int, HTTPMessage>(3)`). -/
def ClientManager.CACHE_SIZE : Nat := 3

/-- The part of `ClientManager::createClient` that works on `request_cache_` and
`cache_hit_count_`, for one client: `option` is the value of `rand() % 7`, `recv_msg` the
answer the client reads when its option is not cached. With `debug` (the
preprocessor symbol `DEBUG` is defined) the hit branch prints `getElement(option)`. The result is
the cache and the hit counter afterwards; `none` when a cache call has no
defined result. -/
def ClientManager.createClient (debug : Bool) (request_cache_ : LRUCache Nat String)
    (cache_hit_count_ : Nat) (option : Nat) (recv_msg : String) :
    Option (LRUCache Nat String × Nat) :=
  if request_cache_.isCached option then
    if debug then
      (request_cache_.getElement option).map (fun r => (r.2, cache_hit_count_ + 1))
    else some (request_cache_, cache_hit_count_ + 1)
  else (request_cache_.putElement option recv_msg).map (fun c => (c, cache_hit_count_))

/-- The clients of the generator one after another: each element of the list
is the option of a client and the answer it would read. -/
def ClientManager.run (debug : Bool) :
    List (Nat × String) → LRUCache Nat String → Nat → Option (LRUCache Nat String × Nat)
  | [], request_cache_, cache_hit_count_ => some (request_cache_, cache_hit_count_)
  | (option, recv_msg) :: rest, request_cache_, cache_hit_count_ =>
    match ClientManager.createClient debug request_cache_ cache_hit_count_ option recv_msg with
    | none => none
    | some r => ClientManager.run debug rest r.1 r.2

/-- Fifty clients whose options are 0, 1, ..., 6, 0, 1, ... in turn; each reads
the answer `"ok"`. -/
def ClientManager.cyclicOptions : List (Nat × String) :=
  (List.range 50).map (fun i => (i % 7, "ok"))

/-- Fifty clients whose options are 0, 1, 2, 0, 1, 2, ... in turn. -/
def ClientManager.threeOptions : List (Nat × String) :=
  (List.range 50).map (fun i => (i % 3, "ok"))

/-! ### HTTPReader.cpp: the request of the test stub -/

/-- The states the event loop of `LoadBalancer::start` reaches from the state `lb0`, when
`out0` counts the unanswered requests per worker at `lb0`, by any sequence of
calls of `handleRequestFromClient`, `handleResultFromServer` and `healthCheck`. The
steps are those of `Reach` for workers that only answer: a worker's
descriptor delivers a message only while a request written to it is
unanswered. -/
inductive Later (lb0 : LoadBalancer) (out0 : Outstanding) :
    LoadBalancer → Outstanding → Prop where
  | start : Later lb0 out0 lb0 out0
  | client_forwarded (lb lb' : LoadBalancer) (out : Outstanding) (ev : ClientEvent)
      (fd : Int) (msg : String) :
      Later lb0 out0 lb out →
      handleRequestFromClient lb ev = some (lb', Status.SUCCESS, [IOAction.write fd msg]) →
      Later lb0 out0 lb' (out.sent fd)
  | client_other (lb lb' : LoadBalancer) (out : Outstanding) (ev : ClientEvent)
      (st : Status) (acts : List IOAction) :
      Later lb0 out0 lb out →
      handleRequestFromClient lb ev = some (lb', st, acts) →
      st ≠ Status.SUCCESS →
      Later lb0 out0 lb' out
  | server_message (lb : LoadBalancer) (out : Outstanding) (ev : ServerEvent) :
      Later lb0 out0 lb out →
      ev.trigger_fd ∈ lb.server_pool_.map Prod.fst →
      0 < ev.num_read →
      0 < out ev.trigger_fd →
      Later lb0 out0 (handleResultFromServer lb ev).1 (out.answered ev.trigger_fd)
  | server_lost (lb : LoadBalancer) (out : Outstanding) (ev : ServerEvent) :
      Later lb0 out0 lb out →
      ev.trigger_fd ∈ lb.server_pool_.map Prod.fst →
      ev.num_read = -1 ∨ ev.num_read = 0 →
      Later lb0 out0 (handleResultFromServer lb ev).1 out
  | health (lb : LoadBalancer) (out : Outstanding) (probe : Int → Bool × Bool) :
      Later lb0 out0 lb out →
      Later lb0 out0 (healthCheck lb probe).1 out

/-- The answer `anAnswer 6` of worker 6, when the write to the client fails. -/
def aLostAnswer : ServerEvent := { anAnswer 6 with write_ok := false }

/-- The count of unanswered requests after `wlcDispatched`: one, at worker 6. -/
def oneAtSix : Outstanding := fun fd => if fd = 6 then 1 else 0

/-! ### HTTPWriter.h: the method writers -/

/-- The constructor of `GetMethodWriter` (`HTTPWriter.h`). -/
def GetMethodWriter.mk (url version hostname accept_format source_ip source_port : String) :
    HTTPWriter :=
  { start_line_ := "GET " ++ url ++ " " ++ version ++ " "
    header_ := "Host: " ++ hostname ++ "\r\n" ++ "Accept: " ++ accept_format ++ "\r\n"
      ++ "Source-IP: " ++ source_ip ++ "\r\n" ++ "Source-Port: " ++ source_port ++ "\r\n"
    body_ := "" }

/-- The constructor of `HeadMethodWriter` (`HTTPWriter.h`). -/
def HeadMethodWriter.mk (url version hostname accept_format source_ip source_port : String) :
    HTTPWriter :=
  { start_line_ := "HEAD " ++ url ++ " " ++ version ++ " "
    header_ := "Host: " ++ hostname ++ "\r\n" ++ "Accept: " ++ accept_format ++ "\r\n"
      ++ "Source-IP: " ++ source_ip ++ "\r\n" ++ "Source-Port: " ++ source_port ++ "\r\n"
    body_ := "" }

/-- The constructor of `PutMethodWriter` (`HTTPWriter.h`). -/
def PutMethodWriter.mk (url version hostname content_type content_length source_ip
    source_port : String) : HTTPWriter :=
  { start_line_ := "" ++ ("PUT " ++ url ++ " " ++ version ++ " ")
    header_ := "" ++ ("Host: " ++ hostname ++ "\r\n") ++ ("Content-Type: " ++ content_type ++ "\r\n")
      ++ ("Content-Length: " ++ content_length ++ "\r\n")
      ++ ("Source-IP: " ++ source_ip ++ "\r\n") ++ ("Source-Port: " ++ source_port ++ "\r\n")
    body_ := "" }

/-- The constructor of `PostMethodWriter` (`HTTPWriter.h`). -/
def PostMethodWriter.mk (url version hostname content_type content_length source_ip
    source_port : String) : HTTPWriter :=
  { start_line_ := "" ++ ("POST " ++ url ++ " " ++ version ++ " ")
    header_ := "" ++ ("Host: " ++ hostname ++ "\r\n") ++ ("Content-Type: " ++ content_type ++ "\r\n")
      ++ ("Content-Length: " ++ content_length ++ "\r\n")
      ++ ("Source-IP: " ++ source_ip ++ "\r\n") ++ ("Source-Port: " ++ source_port ++ "\r\n")
    body_ := "" }

/-- The constructor of `TraceMethodWriter` (`HTTPWriter.h`). -/
def TraceMethodWriter.mk (url version hostname accept_format source_ip source_port : String) :
    HTTPWriter :=
  { start_line_ := "" ++ ("TRACE " ++ url ++ " " ++ version ++ " ")
    header_ := "" ++ ("Host: " ++ hostname ++ "\r\n") ++ ("Accept: " ++ accept_format ++ "\r\n")
      ++ ("Source-IP: " ++ source_ip ++ "\r\n") ++ ("Source-Port: " ++ source_port ++ "\r\n")
    body_ := "" }

/-- The constructor of `DeleteMethodWriter` (`HTTPWriter.h`). -/
def DeleteMethodWriter.mk (url version hostname source_ip source_port : String) : HTTPWriter :=
  { start_line_ := "" ++ ("DELETE " ++ url ++ " " ++ version ++ " ")
    header_ := "" ++ ("Host: " ++ hostname ++ "\r\n" ++ "Source-IP: " ++ source_ip ++ "\r\n"
      ++ "Source-Port: " ++ source_port ++ "\r\n")
    body_ := "" }

/-- A call of the constructor of one of the eight method writers of `HTTPWriter.h`, by
its arguments other than `source_ip` and `source_port`. -/
inductive MethodWriter where
  | get (url version hostname accept_format : String)
  | head (url version hostname accept_format : String)
  | put (url version hostname content_type content_length : String)
  | post (url version hostname content_type content_length : String)
  | trace (url version hostname accept_format : String)
  | options (url version hostname accept_format : String)
  | delete (url version hostname : String)
  | serverCheck (url version hostname : String)
deriving DecidableEq, Repr

namespace MethodWriter

/-- The method word the writer puts first in the start line. -/
def method : MethodWriter → String
  | get .. => "GET"
  | head .. => "HEAD"
  | put .. => "PUT"
  | post .. => "POST"
  | trace .. => "TRACE"
  | options .. => "OPTIONS"
  | delete .. => "DELETE"
  | serverCheck .. => "SERVERCHECK"

/-- The argument `url` of the constructor call. -/
def url : MethodWriter → String
  | get url _ _ _ => url
  | head url _ _ _ => url
  | put url _ _ _ _ => url
  | post url _ _ _ _ => url
  | trace url _ _ _ => url
  | options url _ _ _ => url
  | delete url _ _ => url
  | serverCheck url _ _ => url

/-- The argument `version` of the constructor call. -/
def version : MethodWriter → String
  | get _ version _ _ => version
  | head _ version _ _ => version
  | put _ version _ _ _ => version
  | post _ version _ _ _ => version
  | trace _ version _ _ => version
  | options _ version _ _ => version
  | delete _ version _ => version
  | serverCheck _ version _ => version

end MethodWriter

/-- The balancer after `connectRealServers` met two workers, on descriptors 5
and 6, that both answered the SERVERCHECK probe with capacity 50000, under
Weighted Least Connection. -/
def fiftyWorkers : LoadBalancer :=
  (connectRealServers (LoadBalancer.fresh SchedAlgorithm.Weighted_Least_Connection)
    (twoAnswers "50000")).1

/-- The balancer `fiftyWorkers` while `x` requests of the client `aClient` are
pending at worker 6 and `y` at worker 5; `seen` tells whether an answer was
routed before, which leaves the pair of `aClient` in the members `target_ip_`
and `target_port_`. -/
def fiftyLoaded (x y : Nat) (seen : Bool) : LoadBalancer :=
  { server_pool_ :=
      [(6, { address := "127.0.0.3", port_num := "50000", max_load := 50000, cur_load := x }),
       (5, { address := "127.0.0.2", port_num := "50000", max_load := 50000, cur_load := y })],
    request_map_ := List.replicate (x + y) ("40000", { client_addr := "127.0.0.1", client_fd := 9 }),
    target_ip_ := if seen then "127.0.0.1" else "",
    target_port_ := if seen then "40000" else "",
    sched_algo_ := SchedAlgorithm.Weighted_Least_Connection, count := 1, handle_ip_ := "" }

/-- The unanswered requests of that balancer: `x` at worker 6, `y` at worker 5. -/
def fiftySent (x y : Nat) : Outstanding :=
  fun fd => if fd = 6 then x else if fd = 5 then y else 0

/-- Workers 4 (load 40000 of 70000) and 5 (load 30000 of 70000). -/
def wrapPool : SchedMap :=
  [(4, { address := "127.0.0.2", port_num := "50000", max_load := 70000, cur_load := 40000 }),
   (5, { address := "127.0.0.3", port_num := "50000", max_load := 70000, cur_load := 30000 })]

/-! ### Header values as `getHeaderInfo` finds them -/

/-- In the message `msg` the header text `name` has the value `value`: the first
occurrence of `name` in `msg` is followed by `value` and a line end, and
`value` holds no CR. -/
def firstHeaderValue (msg name value : String) : Prop :=
  '\r' ∉ value.toList ∧
  ∃ before rest : String, msg = before ++ (name ++ value ++ "\r\n" ++ rest) ∧
    occursWithin name.toList before.toList (name ++ value ++ "\r\n" ++ rest).toList = false

/-- The balancer `wlcDispatched` after worker 6 answered the client
`127.0.0.1:40000`: the members `target_ip_` and `target_port_` hold that pair. -/
def wlcAnswered : LoadBalancer := (handleResultFromServer wlcDispatched (anAnswer 6)).1

/-- The balancer `wlcAnswered` after the client `aClient` connected again (from
the same address and port) and was dispatched. -/
def wlcRedispatched : LoadBalancer :=
  match handleRequestFromClient wlcAnswered aClient with
  | some r => r.1
  | none => wlcAnswered

/-- A message on worker descriptor `fd` without the headers `Target-IP` and
`Target-Port`; the writes to the client succeed. -/
def aBareMessage (fd : Int) : ServerEvent :=
  { trigger_fd := fd, num_read := 4096,
    http_msg := "HTTP/1.1 200 OK \r\nContent-Length: 0\r\n\r\n",
    write_ok := true, close_ok := true }

/-- The client `aClient` when `accept` returns the descriptor 0 for its
connection (descriptor 0 is free when the balancer runs with its standard
input closed). -/
def aClientOnZero : ClientEvent := { aClient with cfd := 0 }

/-- The balancer `wlcBalancer` after the client `aClientOnZero` was handled. -/
def wlcDispatchedOnZero : LoadBalancer :=
  match handleRequestFromClient wlcBalancer aClientOnZero with
  | some r => r.1
  | none => wlcBalancer

theorem cyc_cover (n c i : Nat) (hi : i < n) : ∃ j, j < n ∧ (c + j) % n = i := by
  have hn : 0 < n := by omega
  have hr : c % n < n := Nat.mod_lt _ hn
  refine ⟨(i + (n - c % n)) % n, Nat.mod_lt _ hn, ?_⟩
  have h1 : (c + (i + (n - c % n)) % n) % n = (c % n + (i + (n - c % n))) % n := by
    simp [Nat.add_mod]
  have h2 : c % n + (i + (n - c % n)) = i + n := by omega
  rw [h1, h2, Nat.add_mod_right, Nat.mod_eq_of_lt hi]

theorem cyc_return (n c k : Nat) (hk : k + 1 ≤ n) (h : (c + k + 1) % n = c % n) :
    k + 1 = n := by
  have h1 : (c + (k + 1)) % n = (c + 0) % n := by simpa [Nat.add_assoc] using h
  have h2 : (k + 1) % n = 0 % n := Nat.ModEq.add_left_cancel' c h1
  by_contra hne
  have hlt : k + 1 < n := by omega
  rw [Nat.mod_eq_of_lt hlt] at h2
  simp at h2

theorem cyc_wrap (n off : Nat) (h : off < n) :
    (if off + 1 = n then 0 else off + 1) = (off + 1) % n := by
  split
  · next h1 => rw [h1, Nat.mod_self]
  · next h1 => rw [Nat.mod_eq_of_lt (by omega)]

theorem lacks_iff_not_has (s : RealServer) : lacksCapacity s = true ↔ ¬ hasCapacity s := by
  simp [lacksCapacity, hasCapacity]

theorem all_lack_of_cycle (m : SchedMap) (c : Nat)
    (h : ∀ j, j < m.length → ∀ it, m.get? ((c + j) % m.length) = some it → lacksCapacity it.2 = true) :
    ¬ anyCapacity m := by
  rintro ⟨p, hp, hcap⟩
  obtain ⟨i, hi, hget⟩ := List.getElem_of_mem hp
  obtain ⟨j, hj, hji⟩ := cyc_cover m.length c i hi
  have := h j hj p (by rw [hji, List.get?_eq_getElem?, List.getElem?_eq_getElem hi, hget])
  exact (lacks_iff_not_has p.2).1 this hcap

/-! ### SchedRR -/

theorem SchedRR_loop_spec (m : SchedMap) (c : Nat) :
    ∀ fuel k, k < m.length → m.length ≤ fuel + k →
      (∀ j, j < k → ∀ it, m.get? ((c + j) % m.length) = some it → lacksCapacity it.2 = true) →
      ∃ r, SchedRR.loop m (c % m.length) fuel ((c + k) % m.length) (c + k + 1) = some r ∧
        ((selectsWithCapacity m r.1 ∧ anyCapacity m) ∨ (r.1 = -1 ∧ ¬ anyCapacity m)) := by
  intro fuel
  induction fuel with
  | zero => intro k hk hf; omega
  | succ f ih =>
    intro k hk hf hprev
    have hn : 0 < m.length := by omega
    have hlt : (c + k) % m.length < m.length := Nat.mod_lt _ hn
    have hget : m.get? ((c + k) % m.length) = some (m[(c + k) % m.length]) := by
      rw [List.get?_eq_getElem?, List.getElem?_eq_getElem hlt]
    rw [SchedRR.loop, hget]
    simp only
    by_cases hl : lacksCapacity (m[(c + k) % m.length]).2 = true
    · rw [if_pos hl]
      have hprev' : ∀ j, j < k + 1 → ∀ it, m.get? ((c + j) % m.length) = some it →
          lacksCapacity it.2 = true := by
        intro j hj it hit
        by_cases hjk : j < k
        · exact hprev j hjk it hit
        · have : j = k := by omega
          subst this
          rw [hget] at hit
          cases hit
          exact hl
      by_cases hb : (c + k + 1) % m.length = c % m.length
      · rw [if_pos hb]
        refine ⟨_, rfl, Or.inr ⟨rfl, ?_⟩⟩
        have hkn := cyc_return m.length c k (by omega) hb
        apply all_lack_of_cycle m c
        intro j hj
        exact hprev' j (by omega)
      · rw [if_neg hb]
        have hk1 : k + 1 < m.length := by
          by_contra hge
          have : k + 1 = m.length := by omega
          apply hb
          rw [Nat.add_assoc, this, Nat.add_mod_right]
        exact ih (k + 1) hk1 (by omega) hprev'
    · rw [if_neg hl]
      refine ⟨_, rfl, Or.inl ?_⟩
      have hcap : hasCapacity (m[(c + k) % m.length]).2 := by
        by_contra hno
        exact hl ((lacks_iff_not_has _).2 hno)
      have hmem : m[(c + k) % m.length] ∈ m := List.getElem_mem _
      exact ⟨⟨_, hmem, hcap⟩, ⟨_, hmem, hcap⟩⟩

/-- Round Robin always returns, and what it returns is a worker with capacity
when there is one and -1 when there is none. -/
theorem SchedRR_selectServer_spec (m : SchedMap) (hne : m ≠ []) (count : Nat) :
    ∃ r, SchedRR.selectServer m count = some r ∧
      ((selectsWithCapacity m r.1 ∧ anyCapacity m) ∨ (r.1 = -1 ∧ ¬ anyCapacity m)) := by
  have hn : 0 < m.length := List.length_pos.2 hne
  unfold SchedRR.selectServer
  rw [if_neg (by omega)]
  have := SchedRR_loop_spec m count (m.length + 1) 0 hn (by omega) (by intro j hj; omega)
  simpa using this

/-! ### SchedSH -/

theorem SchedSH_loop_spec (m : SchedMap) (c : Nat) :
    ∀ fuel k, k < m.length → m.length ≤ fuel + k →
      (∀ j, j < k → ∀ it, m.get? ((c + j) % m.length) = some it → lacksCapacity it.2 = true) →
      ∃ r, SchedSH.loop m (c % m.length) fuel ((c + k) % m.length) = some r ∧
        ((selectsWithCapacity m r ∧ anyCapacity m) ∨ (r = -1 ∧ ¬ anyCapacity m)) := by
  intro fuel
  induction fuel with
  | zero => intro k hk hf; omega
  | succ f ih =>
    intro k hk hf hprev
    have hn : 0 < m.length := by omega
    have hlt : (c + k) % m.length < m.length := Nat.mod_lt _ hn
    have hget : m.get? ((c + k) % m.length) = some (m[(c + k) % m.length]) := by
      rw [List.get?_eq_getElem?, List.getElem?_eq_getElem hlt]
    have hstep : (if (c + k) % m.length + 1 = m.length then 0 else (c + k) % m.length + 1)
        = (c + k + 1) % m.length := by
      rw [cyc_wrap _ _ hlt, Nat.add_mod, Nat.mod_mod, ← Nat.add_mod]
    rw [SchedSH.loop, hget]
    simp only
    rw [hstep]
    by_cases hl : lacksCapacity (m[(c + k) % m.length]).2 = true
    · rw [if_pos hl]
      have hprev' : ∀ j, j < k + 1 → ∀ it, m.get? ((c + j) % m.length) = some it →
          lacksCapacity it.2 = true := by
        intro j hj it hit
        by_cases hjk : j < k
        · exact hprev j hjk it hit
        · have : j = k := by omega
          subst this
          rw [hget] at hit
          cases hit
          exact hl
      by_cases hb : (c + k + 1) % m.length = c % m.length
      · rw [if_pos hb]
        refine ⟨_, rfl, Or.inr ⟨rfl, ?_⟩⟩
        have hkn := cyc_return m.length c k (by omega) hb
        apply all_lack_of_cycle m c
        intro j hj
        exact hprev' j (by omega)
      · rw [if_neg hb]
        have hk1 : k + 1 < m.length := by
          by_contra hge
          have : k + 1 = m.length := by omega
          apply hb
          rw [Nat.add_assoc, this, Nat.add_mod_right]
        exact ih (k + 1) hk1 (by omega) hprev'
    · rw [if_neg hl]
      refine ⟨_, rfl, Or.inl ?_⟩
      have hcap : hasCapacity (m[(c + k) % m.length]).2 := by
        by_contra hno
        exact hl ((lacks_iff_not_has _).2 hno)
      have hmem : m[(c + k) % m.length] ∈ m := List.getElem_mem _
      exact ⟨⟨_, hmem, hcap⟩, ⟨_, hmem, hcap⟩⟩

/-- Source Hashing on a well-formed address always returns, and what it
returns is a worker with capacity when there is one and -1 when there is none. -/
theorem SchedSH_selectServer_spec (m : SchedMap) (hne : m ≠ []) (ip : String)
    (hip : inet_pton ip ≠ none) :
    ∃ r, SchedSH.selectServer m ip = some r ∧
      ((selectsWithCapacity m r ∧ anyCapacity m) ∨ (r = -1 ∧ ¬ anyCapacity m)) := by
  have hn : 0 < m.length := List.length_pos.2 hne
  unfold SchedSH.selectServer
  cases hp : inet_pton ip with
  | none => exact absurd hp hip
  | some a =>
    simp only
    rw [if_neg (by omega)]
    have := SchedSH_loop_spec m (SchedSH.hashkey a % m.length) (m.length + 1) 0 hn (by omega)
      (by intro j hj; omega)
    simpa using this

/-! ### SchedWRR -/

theorem SchedWRR_inner_mem (it : Int × RealServer) (rest : List (Int × RealServer)) :
    SchedWRR.inner it rest ∈ it :: rest := by
  induction rest generalizing it with
  | nil => simp [SchedWRR.inner]
  | cons it2 rest ih =>
    rw [SchedWRR.inner]
    split
    · have := ih it2
      exact List.mem_cons_of_mem _ this
    · have := ih it
      rcases List.mem_cons.1 this with h | h
      · rw [h]; exact List.mem_cons_self _ _
      · exact List.mem_cons_of_mem _ (List.mem_cons_of_mem _ h)

theorem SchedWRR_inner_capacity (it : Int × RealServer) (rest : List (Int × RealServer))
    (h : hasCapacity it.2) : hasCapacity (SchedWRR.inner it rest).2 := by
  induction rest generalizing it with
  | nil => simpa [SchedWRR.inner] using h
  | cons it2 rest ih =>
    rw [SchedWRR.inner]
    split
    · next hgt =>
      apply ih
      unfold hasCapacity RESERVED_CAPACITY at *
      omega
    · exact ih it h

/-- Weighted Round Robin returns a worker with capacity when there is one and
-1 when there is none. -/
theorem SchedWRR_selectServer_spec (m : SchedMap) :
    (selectsWithCapacity m (SchedWRR.selectServer m) ∧ anyCapacity m) ∨
      (SchedWRR.selectServer m = -1 ∧ ¬ anyCapacity m) := by
  induction m with
  | nil => right; simp [SchedWRR.selectServer, anyCapacity]
  | cons it rest ih =>
    rw [SchedWRR.selectServer]
    by_cases hl : lacksCapacity it.2 = true
    · rw [if_pos hl]
      have hno := (lacks_iff_not_has _).1 hl
      rcases ih with ⟨⟨s, hs, hc⟩, _⟩ | ⟨h1, h2⟩
      · left
        exact ⟨⟨s, List.mem_cons_of_mem _ hs, hc⟩, ⟨_, List.mem_cons_of_mem _ hs, hc⟩⟩
      · right
        refine ⟨h1, ?_⟩
        rintro ⟨p, hp, hc⟩
        rcases List.mem_cons.1 hp with h | h
        · subst h; exact hno hc
        · exact h2 ⟨p, h, hc⟩
    · rw [if_neg hl]
      have hcap : hasCapacity it.2 := by
        by_contra hno
        exact hl ((lacks_iff_not_has _).2 hno)
      left
      exact ⟨⟨_, SchedWRR_inner_mem it rest, SchedWRR_inner_capacity it rest hcap⟩,
        ⟨it, List.mem_cons_self _ _, hcap⟩⟩

/-! ### SchedWLC -/

theorem SchedWLC_outer_none (m : SchedMap) (h : ¬ anyCapacity m) : SchedWLC.outer m = -1 := by
  induction m with
  | nil => rfl
  | cons it rest ih =>
    rw [SchedWLC.outer]
    have hl : lacksCapacity it.2 = true :=
      (lacks_iff_not_has _).2 (fun hc => h ⟨it, List.mem_cons_self _ _, hc⟩)
    rw [if_pos hl]
    exact ih (fun ⟨p, hp, hc⟩ => h ⟨p, List.mem_cons_of_mem _ hp, hc⟩)

/-! ### The contract of the policies (C1, C2) -/

/-- C1 (code evaluated at the failing input). In the pool `bigAndSmall 17 4`
(worker 4 with `max_load` 20 and `cur_load` 17, worker 5 with `max_load` 5
and `cur_load` 4) worker 4 has capacity (17 < 19), yet
`SchedWLC::selectServer` returns 5, whose load 4 is not below 5 - 1: the
inner loop compares load ratios only (5 * 17 > 4 * 20). Round Robin, Weighted
Round Robin and Source Hashing return worker 4 on the same pool. The pool is
the one 21 dispatches under Weighted Least Connection leave, starting from
the two idle workers; the next dispatch fills worker 5 up to its `max_load`. -/
theorem C1_wlc_returns_worker_without_capacity :
    anyCapacity (bigAndSmall 17 4) ∧
    SchedWLC.selectServer (bigAndSmall 17 4) = some 5 ∧
    ¬ selectsWithCapacity (bigAndSmall 17 4) 5 ∧
    SchedRR.selectServer (bigAndSmall 17 4) 1 = some (4, 3) ∧
    SchedWRR.selectServer (bigAndSmall 17 4) = 4 ∧
    SchedSH.selectServer (bigAndSmall 17 4) "127.0.0.1" = some 4 ∧
    wlcDispatches 21 (bigAndSmall 0 0) = bigAndSmall 17 4 ∧
    wlcDispatches 22 (bigAndSmall 0 0) = bigAndSmall 17 5 := by
  refine ⟨⟨(4, ⟨"127.0.0.2", "50000", 20, 17⟩), by simp [bigAndSmall], by decide⟩, by decide, ?_,
    by decide, by decide, by decide, by decide, by decide⟩
  rintro ⟨s, hs, hc⟩
  simp only [bigAndSmall, List.mem_cons, Prod.mk.injEq, List.mem_singleton, List.not_mem_nil,
    or_false] at hs
  rcases hs with ⟨h, _⟩ | ⟨_, rfl⟩
  · omega
  · revert hc; decide

/-- C1 (the part of the contract the code keeps). On a non-empty pool in
which some worker has capacity, Round Robin (any counter), Weighted Round
Robin and Source Hashing (well-formed address) return the id of a worker of
the pool with `cur_load < max_load - 1`. -/
theorem capacity_contract_rr_wrr_sh (pool : SchedMap) (hne : pool ≠ [])
    (hcap : anyCapacity pool) :
    (∀ count, ∃ r, SchedRR.selectServer pool count = some r ∧ selectsWithCapacity pool r.1) ∧
    selectsWithCapacity pool (SchedWRR.selectServer pool) ∧
    (∀ ip, inet_pton ip ≠ none →
      ∃ r, SchedSH.selectServer pool ip = some r ∧ selectsWithCapacity pool r) := by
  refine ⟨?_, ?_, ?_⟩
  · intro count
    obtain ⟨r, hr, h | h⟩ := SchedRR_selectServer_spec pool hne count
    · exact ⟨r, hr, h.1⟩
    · exact absurd hcap h.2
  · rcases SchedWRR_selectServer_spec pool with h | h
    · exact h.1
    · exact absurd hcap h.2
  · intro ip hip
    obtain ⟨r, hr, h | h⟩ := SchedSH_selectServer_spec pool hne ip hip
    · exact ⟨r, hr, h.1⟩
    · exact absurd hcap h.2

/-- C2. On a non-empty pool in which no worker satisfies
`cur_load < max_load - 1`, each of Round Robin (for every value of its
counter), Weighted Round Robin, Weighted Least Connection and Source Hashing
(well-formed IPv4 address) returns, and returns -1. -/
theorem C2_no_capacity_returns_minus_one (pool : SchedMap) (hne : pool ≠ [])
    (hno : ¬ anyCapacity pool) :
    (∀ count, ∃ count', SchedRR.selectServer pool count = some (-1, count')) ∧
    SchedWRR.selectServer pool = -1 ∧
    SchedWLC.selectServer pool = some (-1) ∧
    (∀ ip, inet_pton ip ≠ none → SchedSH.selectServer pool ip = some (-1)) := by
  have hsel : ∀ id, ¬ selectsWithCapacity pool id := fun id ⟨s, hs, hc⟩ => hno ⟨_, hs, hc⟩
  refine ⟨?_, ?_, ?_, ?_⟩
  · intro count
    obtain ⟨r, hr, h | h⟩ := SchedRR_selectServer_spec pool hne count
    · exact absurd h.1 (hsel _)
    · refine ⟨r.2, ?_⟩
      rw [hr, ← h.1]
  · rcases SchedWRR_selectServer_spec pool with h | h
    · exact absurd h.1 (hsel _)
    · exact h.1
  · cases pool with
    | nil => exact absurd rfl hne
    | cons it rest =>
      simp only [SchedWLC.selectServer]
      rw [SchedWLC_outer_none _ hno]
  · intro ip hip
    obtain ⟨r, hr, h | h⟩ := SchedSH_selectServer_spec pool hne ip hip
    · exact absurd h.1 (hsel _)
    · rw [hr, h.1]

/-- Witness of C2 on a pool of one worker with `max_load = 5`, `cur_load = 4`. -/
theorem C2_no_capacity_returns_minus_one_witness :
    (∀ count, ∃ count', SchedRR.selectServer [(4, ⟨"127.0.0.2", "50000", 5, 4⟩)] count
      = some (-1, count')) ∧
    SchedWRR.selectServer [(4, ⟨"127.0.0.2", "50000", 5, 4⟩)] = -1 ∧
    SchedWLC.selectServer [(4, ⟨"127.0.0.2", "50000", 5, 4⟩)] = some (-1) ∧
    (∀ ip, inet_pton ip ≠ none →
      SchedSH.selectServer [(4, ⟨"127.0.0.2", "50000", 5, 4⟩)] ip = some (-1)) :=
  C2_no_capacity_returns_minus_one [(4, ⟨"127.0.0.2", "50000", 5, 4⟩)] (by simp)
    (by
      rintro ⟨p, hp, hc⟩
      simp only [List.mem_singleton] at hp
      subst hp
      revert hc
      decide)

/-! ### What a policy can return -/

theorem SchedWLC_inner_mem (it : Int × RealServer) (rest : List (Int × RealServer)) :
    SchedWLC.inner it rest ∈ it :: rest := by
  induction rest generalizing it with
  | nil => simp [SchedWLC.inner]
  | cons it2 rest ih =>
    rw [SchedWLC.inner]
    split
    · exact List.mem_cons_of_mem _ (ih it2)
    · rcases List.mem_cons.1 (ih it) with h | h
      · rw [h]; exact List.mem_cons_self _ _
      · exact List.mem_cons_of_mem _ (List.mem_cons_of_mem _ h)

theorem intMul_exact (a b : Int) (h : -2 ^ 31 ≤ a * b ∧ a * b < 2 ^ 31) :
    intMul a b = a * b := by
  unfold intMul
  generalize a * b = p at h
  omega

/-- A product that exceeds the range of `int` by less than `2^32` wraps once. -/
theorem intMul_wrap (a b : Int) (h : 2 ^ 31 ≤ a * b ∧ a * b < 2 ^ 31 + 2 ^ 32) :
    intMul a b = a * b - 2 ^ 32 := by
  unfold intMul
  generalize a * b = p at h
  omega

theorem productsFit_subset (pool pool' : SchedMap) (h : productsFit pool)
    (hsub : ∀ p ∈ pool', p ∈ pool) : productsFit pool' :=
  fun u hu v hv => h u (hsub u hu) v (hsub v hv)

/-- One round of the inner loop of Weighted Least Connection on a pool whose
products fit: the comparison is the comparison of the exact products. -/
theorem SchedWLC_inner_cons (it it2 : Int × RealServer) (rest : List (Int × RealServer))
    (hfit : productsFit (it :: it2 :: rest)) :
    SchedWLC.inner it (it2 :: rest)
      = if it2.2.max_load * it.2.cur_load > it2.2.cur_load * it.2.max_load then
          SchedWLC.inner it2 rest
        else SchedWLC.inner it rest := by
  have m1 : it ∈ it :: it2 :: rest := List.mem_cons_self _ _
  have m2 : it2 ∈ it :: it2 :: rest := List.mem_cons_of_mem _ (List.mem_cons_self _ _)
  rw [SchedWLC.inner, intMul_exact _ _ (hfit it2 m2 it m1),
    intMul_exact _ _ (by rw [mul_comm]; exact hfit it m1 it2 m2)]

/-- The worker the inner loop of Weighted Least Connection ends on is not
full, when the one it starts from is not full, the others obey
`cur_load ≤ max_load` with `0 ≤ max_load`, and the products fit. -/
theorem SchedWLC_inner_below_max (it : Int × RealServer) (rest : List (Int × RealServer))
    (hrest : ∀ p ∈ rest, 0 ≤ p.2.max_load ∧ p.2.cur_load ≤ p.2.max_load)
    (hfit : productsFit (it :: rest))
    (h : it.2.cur_load < it.2.max_load) :
    (SchedWLC.inner it rest).2.cur_load < (SchedWLC.inner it rest).2.max_load := by
  induction rest generalizing it with
  | nil => simpa [SchedWLC.inner] using h
  | cons it2 rest ih =>
    have h2 := hrest it2 (List.mem_cons_self _ _)
    have hr : ∀ p ∈ rest, 0 ≤ p.2.max_load ∧ p.2.cur_load ≤ p.2.max_load :=
      fun p hp => hrest p (List.mem_cons_of_mem _ hp)
    have hfit2 : productsFit (it2 :: rest) :=
      productsFit_subset _ _ hfit (fun p hp => List.mem_cons_of_mem _ hp)
    have hfit1 : productsFit (it :: rest) :=
      productsFit_subset _ _ hfit (fun p hp => by
        rcases List.mem_cons.1 hp with rfl | hp
        · exact List.mem_cons_self _ _
        · exact List.mem_cons_of_mem _ (List.mem_cons_of_mem _ hp))
    rw [SchedWLC_inner_cons it it2 rest hfit]
    split
    · next hgt =>
      apply ih it2 hr hfit2
      by_contra hge
      have heq : it2.2.cur_load = it2.2.max_load := by omega
      rw [heq] at hgt
      have : it2.2.max_load * it.2.cur_load ≤ it2.2.max_load * it.2.max_load :=
        mul_le_mul_of_nonneg_left (le_of_lt h) h2.1
      omega
    · exact ih it hr hfit1 h

theorem SchedWLC_outer_mem (m : SchedMap) :
    SchedWLC.outer m = -1 ∨ ∃ s, (SchedWLC.outer m, s) ∈ m := by
  induction m with
  | nil => left; rfl
  | cons x xs ih =>
    rw [SchedWLC.outer]
    split
    · rcases ih with h | ⟨s, hs⟩
      · exact Or.inl h
      · exact Or.inr ⟨s, List.mem_cons_of_mem _ hs⟩
    · exact Or.inr ⟨_, SchedWLC_inner_mem x xs⟩

theorem SchedWLC_outer_result (m : SchedMap)
    (hm : ∀ p ∈ m, 0 ≤ p.2.max_load ∧ p.2.cur_load ≤ p.2.max_load)
    (hfit : productsFit m) :
    SchedWLC.outer m = -1 ∨ ∃ s, (SchedWLC.outer m, s) ∈ m ∧ s.cur_load < s.max_load := by
  induction m with
  | nil => left; rfl
  | cons it rest ih =>
    have hr : ∀ p ∈ rest, 0 ≤ p.2.max_load ∧ p.2.cur_load ≤ p.2.max_load :=
      fun p hp => hm p (List.mem_cons_of_mem _ hp)
    rw [SchedWLC.outer]
    by_cases hl : lacksCapacity it.2 = true
    · rw [if_pos hl]
      rcases ih hr (productsFit_subset _ _ hfit (fun p hp => List.mem_cons_of_mem _ hp))
        with h | ⟨s, hs, hlt⟩
      · exact Or.inl h
      · exact Or.inr ⟨s, List.mem_cons_of_mem _ hs, hlt⟩
    · rw [if_neg hl]
      right
      have hcap : it.2.cur_load < it.2.max_load := by
        simp [lacksCapacity, RESERVED_CAPACITY] at hl
        omega
      exact ⟨(SchedWLC.inner it rest).2, SchedWLC_inner_mem it rest,
        SchedWLC_inner_below_max it rest hr hfit hcap⟩

theorem SchedLC_fold_mem (it : Int × RealServer) (rest : List (Int × RealServer)) :
    rest.foldl (fun best x => if x.2.cur_load < best.2.cur_load then x else best) it
      ∈ it :: rest := by
  induction rest generalizing it with
  | nil => simp
  | cons x rest ih =>
    rw [List.foldl_cons]
    split
    · exact List.mem_cons_of_mem _ (ih x)
    · rcases List.mem_cons.1 (ih it) with h | h
      · rw [h]; exact List.mem_cons_self _ _
      · exact List.mem_cons_of_mem _ (List.mem_cons_of_mem _ h)

theorem SchedLC_selectServer_result (m : SchedMap) :
    SchedLC.selectServer m = -1 ∨ selectsWithCapacity m (SchedLC.selectServer m) := by
  unfold SchedLC.selectServer
  cases hf : m.filter (fun p => !lacksCapacity p.2) with
  | nil => left; rfl
  | cons it rest =>
    right
    have hmem := SchedLC_fold_mem it rest
    rw [← hf] at hmem
    obtain ⟨h1, h2⟩ := List.mem_filter.1 hmem
    refine ⟨_, h1, ?_⟩
    by_contra hno
    have := (lacks_iff_not_has _).2 hno
    simp [this] at h2

theorem has_capacity_below_max (s : RealServer) (h : hasCapacity s) : s.cur_load < s.max_load := by
  unfold hasCapacity RESERVED_CAPACITY at h
  omega

/-- On a non-empty pool every policy returns, and returns -1, 0 or the id of
a worker of the pool; when the pool obeys `cur_load ≤ max_load` and
`0 ≤ max_load` and, under Weighted Least Connection, its products fit, that
worker is not full. -/
theorem selectServer_result (a : SchedAlgorithm) (m : SchedMap) (count : Nat) (ip : String)
    (hne : m ≠ []) :
    ∃ id count', AlgorithmSelector.selectServer a m count ip = some (id, count') ∧
      (id = -1 ∨ id = 0 ∨ ∃ s, (id, s) ∈ m ∧
        ((∀ p ∈ m, 0 ≤ p.2.max_load ∧ p.2.cur_load ≤ p.2.max_load) →
          (a = SchedAlgorithm.Weighted_Least_Connection → productsFit m) →
          s.cur_load < s.max_load)) := by
  have hsh : ∀ r, (r = -1 ∧ ¬ anyCapacity m) ∨ (selectsWithCapacity m r ∧ anyCapacity m) →
      (r = -1 ∨ r = 0 ∨ ∃ s, (r, s) ∈ m ∧
        ((∀ p ∈ m, 0 ≤ p.2.max_load ∧ p.2.cur_load ≤ p.2.max_load) →
          (a = SchedAlgorithm.Weighted_Least_Connection → productsFit m) →
          s.cur_load < s.max_load)) := by
    rintro r (h | ⟨⟨s, hs, hc⟩, _⟩)
    · exact Or.inl h.1
    · exact Or.inr (Or.inr ⟨s, hs, fun _ _ => has_capacity_below_max s hc⟩)
  cases a with
  | Round_Robin =>
    obtain ⟨r, hr, h⟩ := SchedRR_selectServer_spec m hne count
    exact ⟨r.1, r.2, hr, hsh _ h.symm⟩
  | Weighted_Round_Robin =>
    exact ⟨_, _, rfl, hsh _ (SchedWRR_selectServer_spec m).symm⟩
  | Least_Connection =>
    refine ⟨_, _, rfl, ?_⟩
    rcases SchedLC_selectServer_result m with h | ⟨s, hs, hc⟩
    · exact Or.inl h
    · exact Or.inr (Or.inr ⟨s, hs, fun _ _ => has_capacity_below_max s hc⟩)
  | Weighted_Least_Connection =>
    cases m with
    | nil => exact absurd rfl hne
    | cons it rest =>
      refine ⟨SchedWLC.outer (it :: rest), count, rfl, ?_⟩
      by_cases hm : (∀ p ∈ it :: rest, 0 ≤ p.2.max_load ∧ p.2.cur_load ≤ p.2.max_load) ∧
          productsFit (it :: rest)
      · rcases SchedWLC_outer_result _ hm.1 hm.2 with h | ⟨s, hs, hlt⟩
        · exact Or.inl h
        · exact Or.inr (Or.inr ⟨s, hs, fun _ _ => hlt⟩)
      · rcases SchedWLC_outer_mem (it :: rest) with h | ⟨s, hs⟩
        · exact Or.inl h
        · exact Or.inr (Or.inr ⟨s, hs, fun h1 h2 => absurd ⟨h1, h2 rfl⟩ hm⟩)
  | Destination_Hashing =>
    unfold AlgorithmSelector.selectServer SchedDH.selectServer
    by_cases hip : inet_pton ip = none
    · refine ⟨0, count, ?_, Or.inr (Or.inl rfl)⟩
      simp [SchedSH.selectServer, hip]
    · obtain ⟨r, hr, h⟩ := SchedSH_selectServer_spec m hne ip hip
      exact ⟨r, count, by simp [hr], hsh _ h.symm⟩
  | Source_Hashing =>
    unfold AlgorithmSelector.selectServer
    by_cases hip : inet_pton ip = none
    · refine ⟨0, count, ?_, Or.inr (Or.inl rfl)⟩
      simp [SchedSH.selectServer, hip]
    · obtain ⟨r, hr, h⟩ := SchedSH_selectServer_spec m hne ip hip
      exact ⟨r, count, by simp [hr], hsh _ h.symm⟩

/-! ### Pool and request map updates -/

theorem poolAddLoad_split (pre post : SchedMap) (fd : Int) (s : RealServer) (delta : Int)
    (hkeys : ((pre ++ (fd, s) :: post).map Prod.fst).Nodup) :
    poolAddLoad (pre ++ (fd, s) :: post) fd delta
      = pre ++ (fd, { s with cur_load := s.cur_load + delta }) :: post := by
  have hany : (pre ++ (fd, s) :: post).any (fun p => decide (p.1 = fd)) = true := by
    simp
  rw [List.map_append, List.map_cons, List.nodup_append] at hkeys
  obtain ⟨_, hpost, hdisj⟩ := hkeys
  have hpre_ne : ∀ p ∈ pre, p.1 ≠ fd := by
    intro p hp heq
    have hm : p.1 ∈ pre.map Prod.fst := List.mem_map_of_mem Prod.fst hp
    rw [heq] at hm
    exact hdisj hm (List.mem_cons_self _ _)
  have hpost_ne : ∀ p ∈ post, p.1 ≠ fd := by
    intro p hp heq
    have hm : p.1 ∈ post.map Prod.fst := List.mem_map_of_mem Prod.fst hp
    rw [heq] at hm
    exact (List.nodup_cons.1 hpost).1 hm
  have hmap : ∀ l : SchedMap, (∀ p ∈ l, p.1 ≠ fd) →
      l.map (fun p => if p.1 = fd then (p.1, { p.2 with cur_load := p.2.cur_load + delta })
        else p) = l := by
    intro l hl
    induction l with
    | nil => rfl
    | cons x xs ih =>
      rw [List.map_cons, if_neg (hl x (List.mem_cons_self _ _)),
        ih (fun p hp => hl p (List.mem_cons_of_mem _ hp))]
  unfold poolAddLoad
  rw [if_pos hany, List.map_append, List.map_cons, hmap pre hpre_ne, hmap post hpost_ne]
  simp

theorem requestMapInsert_split (m : RequestMap) (service : String) (request : RequestInfo) :
    ∃ pre post, m = pre ++ post ∧
      requestMapInsert m service request = pre ++ (service, request) :: post := by
  induction m with
  | nil => exact ⟨[], [], rfl, rfl⟩
  | cons e rest ih =>
    rw [requestMapInsert]
    split
    · exact ⟨[], e :: rest, rfl, rfl⟩
    · obtain ⟨pre, post, h1, h2⟩ := ih
      exact ⟨e :: pre, post, by rw [h1]; rfl, by rw [h2]; rfl⟩

theorem errorResponse_text (code host service : String) :
    (ResponseMessage.mk4 "HTTP/1.1" code host service).constructHTTPMsg
      = "HTTP/1.1 " ++ code ++ " \r\nTarget-IP: " ++ host ++ "\r\nTarget-Port: " ++ service
        ++ "\r\n\r\n" := by
  apply String.ext
  simp [HTTPWriter.constructHTTPMsg, ResponseMessage.mk4, String.data_append]

/-! ### C5: dispatch of a client request -/

/-- C5. `handleRequestFromClient` with a non-empty pool, an accepted
connection, a request read successfully and a resolved client address
`(host, service)`: the policy returns some id; on -1 the client is sent the
503 response and on 0 the 500 response, each with `Target-IP: host` and
`Target-Port: service`, the result is `MINOR_ERROR` and pool and request map
are unchanged; on any other id whose write succeeds exactly that worker's
`cur_load` grows by 1, the rest of the pool is unchanged, one request
`{host, cfd}` keyed by `service` is inserted and the result is `SUCCESS`. -/
theorem C5_dispatch_outcomes (lb : LoadBalancer) (ev : ClientEvent) (host service : String)
    (hpool : lb.server_pool_ ≠ [])
    (hkeys : (lb.server_pool_.map Prod.fst).Nodup)
    (hacc : ev.cfd ≠ -1) (hread : 0 < ev.num_read)
    (hsrc : getSourceInfo ev.nameinfo = some (host, service)) :
    ∃ id count',
      AlgorithmSelector.selectServer lb.sched_algo_ lb.server_pool_ lb.count lb.handle_ip_
        = some (id, count') ∧
      (id = -1 → handleRequestFromClient lb ev
        = some ({ lb with count := count' }, Status.MINOR_ERROR,
            [IOAction.write ev.cfd ("HTTP/1.1 " ++ "503 Service Unavailable"
              ++ " \r\nTarget-IP: " ++ host ++ "\r\nTarget-Port: " ++ service ++ "\r\n\r\n")])) ∧
      (id = 0 → handleRequestFromClient lb ev
        = some ({ lb with count := count' }, Status.MINOR_ERROR,
            [IOAction.write ev.cfd ("HTTP/1.1 " ++ "500 Internal Server Error"
              ++ " \r\nTarget-IP: " ++ host ++ "\r\nTarget-Port: " ++ service ++ "\r\n\r\n")])) ∧
      (id ≠ -1 → id ≠ 0 → ev.write_ok = true →
        ∃ lb' pre s post rpre rpost,
          handleRequestFromClient lb ev
            = some (lb', Status.SUCCESS, [IOAction.write id ev.http_msg]) ∧
          lb.server_pool_ = pre ++ (id, s) :: post ∧
          lb'.server_pool_ = pre ++ (id, { s with cur_load := s.cur_load + 1 }) :: post ∧
          lb.request_map_ = rpre ++ rpost ∧
          lb'.request_map_
            = rpre ++ (service, { client_addr := host, client_fd := ev.cfd }) :: rpost) := by
  obtain ⟨id, count', hsel, hres⟩ :=
    selectServer_result lb.sched_algo_ lb.server_pool_ lb.count lb.handle_ip_ hpool
  have hlen : lb.server_pool_.length > 0 := List.length_pos.2 hpool
  have h1 : ¬ ev.num_read = -1 := by omega
  have h0 : ¬ ev.num_read = 0 := by omega
  refine ⟨id, count', hsel, ?_, ?_, ?_⟩
  · intro hid
    subst hid
    unfold handleRequestFromClient
    rw [if_neg hacc, if_neg h1, if_neg h0, hsrc]
    simp only [if_pos hlen, hsel]
    simp [errorResponse_text, HEAD503]
  · intro hid
    subst hid
    unfold handleRequestFromClient
    rw [if_neg hacc, if_neg h1, if_neg h0, hsrc]
    simp only [if_pos hlen, hsel]
    simp [errorResponse_text, HEAD500]
  · intro hn1 hn0 hw
    rcases hres with h | h | ⟨s, hs, _⟩
    · exact absurd h hn1
    · exact absurd h hn0
    · obtain ⟨pre, post, hsplit⟩ := List.append_of_mem hs
      obtain ⟨rpre, rpost, hr1, hr2⟩ :=
        requestMapInsert_split lb.request_map_ service { client_addr := host, client_fd := ev.cfd }
      refine ⟨{ lb with
          count := count'
          server_pool_ := poolAddLoad lb.server_pool_ id 1
          request_map_ := requestMapInsert lb.request_map_ service
            { client_addr := host, client_fd := ev.cfd } },
        pre, s, post, rpre, rpost, ?_, hsplit, ?_, hr1, ?_⟩
      · unfold handleRequestFromClient
        rw [if_neg hacc, if_neg h1, if_neg h0, hsrc]
        simp only [if_pos hlen, hsel]
        rw [if_neg (by simp [hn1, hn0]), hw]
        simp only [Bool.not_true, Bool.false_eq_true, if_false]
      · simp only
        rw [hsplit] at hkeys
        rw [hsplit, poolAddLoad_split pre post id s 1 hkeys]
      · simp only
        exact hr2

/-- Witness of C5: two workers of capacity 5 under Weighted Least Connection
and the client `127.0.0.1:40000` on descriptor 9; the policy returns worker 6
and the request is forwarded to it. -/
theorem C5_dispatch_outcomes_witness :
    ∃ lb' pre s post rpre rpost,
      handleRequestFromClient wlcBalancer aClient
        = some (lb', Status.SUCCESS, [IOAction.write 6 aClient.http_msg]) ∧
      wlcBalancer.server_pool_ = pre ++ (6, s) :: post ∧
      lb'.server_pool_ = pre ++ (6, { s with cur_load := s.cur_load + 1 }) :: post ∧
      wlcBalancer.request_map_ = rpre ++ rpost ∧
      lb'.request_map_
        = rpre ++ ("40000", { client_addr := "127.0.0.1", client_fd := aClient.cfd }) :: rpost := by
  obtain ⟨id, count', hsel, _, _, h3⟩ :=
    C5_dispatch_outcomes wlcBalancer aClient "127.0.0.1" "40000"
      (by decide) (by decide) (by decide) (by decide) (by decide)
  have h : AlgorithmSelector.selectServer wlcBalancer.sched_algo_ wlcBalancer.server_pool_
      wlcBalancer.count wlcBalancer.handle_ip_ = some (6, 1) := by decide
  rw [h] at hsel
  cases hsel
  exact h3 (by decide) (by decide) rfl

/-! ### Routing of a worker response -/

theorem findTarget_first (pre post : RequestMap) (e : String × RequestInfo) (port ip : String)
    (hpre : ∀ x ∈ pre, ¬ (x.1 = port ∧ x.2.client_addr = ip))
    (he : e.1 = port ∧ e.2.client_addr = ip) :
    findTarget (pre ++ e :: post) port ip = some (e.2.client_fd, pre ++ post) := by
  induction pre with
  | nil => simp [findTarget, he]
  | cons x xs ih =>
    rw [List.cons_append, findTarget, if_neg (hpre x (List.mem_cons_self _ _)),
      ih (fun y hy => hpre y (List.mem_cons_of_mem _ hy))]
    rfl

theorem findTarget_none (m : RequestMap) (port ip : String)
    (h : ∀ x ∈ m, ¬ (x.1 = port ∧ x.2.client_addr = ip)) : findTarget m port ip = none := by
  induction m with
  | nil => rfl
  | cons x xs ih =>
    rw [findTarget, if_neg (h x (List.mem_cons_self _ _)),
      ih (fun y hy => h y (List.mem_cons_of_mem _ hy))]
    rfl

theorem first_match_split (m : RequestMap) (port ip : String)
    (h : ∃ x ∈ m, x.1 = port ∧ x.2.client_addr = ip) :
    ∃ pre e post, m = pre ++ e :: post ∧
      (∀ x ∈ pre, ¬ (x.1 = port ∧ x.2.client_addr = ip)) ∧
      (e.1 = port ∧ e.2.client_addr = ip) := by
  induction m with
  | nil => simp at h
  | cons y ys ih =>
    by_cases hy : y.1 = port ∧ y.2.client_addr = ip
    · exact ⟨[], y, ys, rfl, by simp, hy⟩
    · obtain ⟨x, hx, hxm⟩ := h
      rcases List.mem_cons.1 hx with rfl | hx'
      · exact absurd hxm hy
      · obtain ⟨pre, e, post, h1, h2, h3⟩ := ih ⟨x, hx', hxm⟩
        refine ⟨y :: pre, e, post, by rw [h1]; rfl, ?_, h3⟩
        intro z hz
        rcases List.mem_cons.1 hz with rfl | hz'
        · exact hy
        · exact h2 z hz'

/-- The routing of `handleResultFromServer` on a message that was read, with
`ip` and `port` the values `getTargetIP` and `getTargetPort` leave in
`target_ip_` and `target_port_` (the values found in the message, or the
values the members held before when the message has none).
If some pending entry has key `port` and address `ip`, no pending client
descriptor is 0 and the write succeeds: the map
splits at the first such entry `e`, the payload is written to `e.client_fd`,
the map afterwards is the map without `e` (every other entry in place); when
the close succeeds too, the result is `SUCCESS` and the responding worker's
`cur_load` is one less, the other workers unchanged; and when the pending
`(key, address)` pairs are pairwise distinct, `e` is the only entry with the
target pair.
If no entry matches: nothing is written, the result is `MINOR_ERROR`, and the
request map and the pool are unchanged. -/
theorem handleResultFromServer_routing (lb : LoadBalancer) (ev : ServerEvent)
    (hread : 0 < ev.num_read) :
    ((∃ x ∈ lb.request_map_, x.1 = getTargetPort ev.http_msg lb.target_port_ ∧
        x.2.client_addr = getTargetIP ev.http_msg lb.target_ip_) →
      (∀ x ∈ lb.request_map_, x.2.client_fd ≠ 0) →
      ev.write_ok = true →
      ∃ pre e post,
        lb.request_map_ = pre ++ e :: post ∧
        (∀ x ∈ pre, ¬ (x.1 = getTargetPort ev.http_msg lb.target_port_ ∧
          x.2.client_addr = getTargetIP ev.http_msg lb.target_ip_)) ∧
        e.1 = getTargetPort ev.http_msg lb.target_port_ ∧
        e.2.client_addr = getTargetIP ev.http_msg lb.target_ip_ ∧
        (handleResultFromServer lb ev).2.2.head?
          = some (IOAction.write e.2.client_fd ev.http_msg) ∧
        (handleResultFromServer lb ev).1.request_map_ = pre ++ post ∧
        (ev.close_ok = true →
          (handleResultFromServer lb ev).2.1 = Status.SUCCESS ∧
          (handleResultFromServer lb ev).2.2
            = [IOAction.write e.2.client_fd ev.http_msg, IOAction.close e.2.client_fd] ∧
          ∀ ppre s ppost, lb.server_pool_ = ppre ++ (ev.trigger_fd, s) :: ppost →
            (lb.server_pool_.map Prod.fst).Nodup →
            (handleResultFromServer lb ev).1.server_pool_
              = ppre ++ (ev.trigger_fd, { s with cur_load := s.cur_load - 1 }) :: ppost) ∧
        (lb.request_map_.Pairwise
            (fun a b => ¬ (a.1 = b.1 ∧ a.2.client_addr = b.2.client_addr)) →
          ∀ x ∈ pre ++ post, ¬ (x.1 = e.1 ∧ x.2.client_addr = e.2.client_addr))) ∧
    ((∀ x ∈ lb.request_map_, ¬ (x.1 = getTargetPort ev.http_msg lb.target_port_ ∧
        x.2.client_addr = getTargetIP ev.http_msg lb.target_ip_)) →
      (handleResultFromServer lb ev).2.2 = [] ∧
      (handleResultFromServer lb ev).2.1 = Status.MINOR_ERROR ∧
      (handleResultFromServer lb ev).1.request_map_ = lb.request_map_ ∧
      (handleResultFromServer lb ev).1.server_pool_ = lb.server_pool_) := by
  have hnr : ¬ (ev.num_read = -1 ∨ ev.num_read = 0) := by omega
  constructor
  · intro hex hfd hw
    obtain ⟨pre, e, post, hsplit, hpre, he⟩ := first_match_split _ _ _ hex
    have hfind := findTarget_first pre post e _ _ hpre he
    rw [← hsplit] at hfind
    have hefd : e.2.client_fd ≠ 0 := hfd e (by rw [hsplit]; simp)
    refine ⟨pre, e, post, hsplit, hpre, he.1, he.2, ?_, ?_, ?_, ?_⟩
    · unfold handleResultFromServer
      rw [if_neg hnr]
      simp only [hfind, if_neg hefd, hw]
      cases ev.close_ok <;> simp
    · unfold handleResultFromServer
      rw [if_neg hnr]
      simp only [hfind, if_neg hefd, hw]
      cases ev.close_ok <;> simp
    · intro hc
      unfold handleResultFromServer
      rw [if_neg hnr]
      simp only [hfind, if_neg hefd, hw, hc]
      refine ⟨by simp, by simp, ?_⟩
      intro ppre s ppost hp hk
      simp only [Bool.not_true, Bool.false_eq_true, if_false]
      rw [hp] at hk
      rw [hp, poolAddLoad_split ppre ppost ev.trigger_fd s (-1) hk]
      rfl
    · intro hpw x hx
      rw [hsplit, List.pairwise_append] at hpw
      obtain ⟨_, hpost, hcross⟩ := hpw
      rcases List.mem_append.1 hx with h | h
      · exact hcross x h e (List.mem_cons_self _ _)
      · have := (List.pairwise_cons.1 hpost).1 x h
        intro hxe
        exact this ⟨hxe.1.symm, hxe.2.symm⟩
  · intro hno
    have hfind := findTarget_none _ _ _ hno
    unfold handleResultFromServer
    rw [if_neg hnr]
    simp only [hfind]
    simp


/-! ### C3: the load invariant along runs -/

theorem poolErase_sublist (pool : SchedMap) (fd : Int) : (poolErase pool fd).Sublist pool :=
  List.filter_sublist _

theorem healthCheckLoop_sublist (probe : Int → Bool × Bool) (pool : SchedMap) :
    (healthCheckLoop probe pool).1.Sublist pool := by
  induction pool with
  | nil => simp [healthCheckLoop]
  | cons it rest ih =>
    rw [healthCheckLoop]
    split
    · exact List.Sublist.cons _ ih
    · split
      · exact List.Sublist.cons _ ih
      · exact List.Sublist.cons₂ _ ih

theorem runInvariant_sublist (answering : Bool) (lb lb' : LoadBalancer) (out : Outstanding)
    (h : runInvariant answering lb out) (hsub : lb'.server_pool_.Sublist lb.server_pool_)
    (halgo : lb'.sched_algo_ = lb.sched_algo_) :
    runInvariant answering lb' out :=
  ⟨(hsub.map Prod.fst).nodup h.1,
    fun hw => ⟨(h.2.1 (halgo ▸ hw)).1,
      fun u hu v hv => (h.2.1 (halgo ▸ hw)).2 u (hsub.subset hu) v (hsub.subset hv)⟩,
    fun p hp => h.2.2 p (hsub.subset hp)⟩

theorem poolAddLoad_keys (pool : SchedMap) (fd : Int) (delta : Int)
    (hfd : fd ∈ pool.map Prod.fst) :
    (poolAddLoad pool fd delta).map Prod.fst = pool.map Prod.fst := by
  have hany : pool.any (fun p => decide (p.1 = fd)) = true := by
    obtain ⟨p, hp, rfl⟩ := List.mem_map.1 hfd
    exact List.any_eq_true.2 ⟨p, hp, by simp⟩
  unfold poolAddLoad
  rw [if_pos hany, List.map_map]
  apply List.map_congr_left
  intro p _
  by_cases h : p.1 = fd <;> simp [h]

theorem poolAddLoad_mem (pool : SchedMap) (fd : Int) (delta : Int)
    (hfd : fd ∈ pool.map Prod.fst) (p' : Int × RealServer)
    (hp' : p' ∈ poolAddLoad pool fd delta) :
    ∃ p ∈ pool, p'.1 = p.1 ∧ p'.2.max_load = p.2.max_load ∧
      ((p.1 = fd ∧ p'.2.cur_load = p.2.cur_load + delta) ∨ (p.1 ≠ fd ∧ p' = p)) := by
  have hany : pool.any (fun p => decide (p.1 = fd)) = true := by
    obtain ⟨p, hp, rfl⟩ := List.mem_map.1 hfd
    exact List.any_eq_true.2 ⟨p, hp, by simp⟩
  unfold poolAddLoad at hp'
  rw [if_pos hany] at hp'
  obtain ⟨p, hp, rfl⟩ := List.mem_map.1 hp'
  refine ⟨p, hp, ?_⟩
  by_cases h : p.1 = fd
  · simp [h]
  · simp [h]

theorem pool_key_unique (pool : SchedMap) (hk : (pool.map Prod.fst).Nodup)
    (p q : Int × RealServer) (hp : p ∈ pool) (hq : q ∈ pool) (h : p.1 = q.1) : p = q := by
  induction pool with
  | nil => simp at hp
  | cons x xs ih =>
    rw [List.map_cons, List.nodup_cons] at hk
    rcases List.mem_cons.1 hp with rfl | hp'
    · rcases List.mem_cons.1 hq with rfl | hq'
      · rfl
      · exact absurd (h ▸ List.mem_map_of_mem Prod.fst hq') hk.1
    · rcases List.mem_cons.1 hq with rfl | hq'
      · exact absurd (h ▸ List.mem_map_of_mem Prod.fst hp') hk.1
      · exact ih hk.2 hp' hq'

/-- The ways `handleRequestFromClient` can end. -/
theorem handleRequestFromClient_cases (lb lb' : LoadBalancer) (ev : ClientEvent) (st : Status)
    (acts : List IOAction) (h : handleRequestFromClient lb ev = some (lb', st, acts)) :
    (st ≠ Status.SUCCESS ∧ lb'.server_pool_.Sublist lb.server_pool_) ∨
    (st = Status.SUCCESS ∧ ∃ id,
      acts = [IOAction.write id ev.http_msg] ∧
      lb'.server_pool_ = poolAddLoad lb.server_pool_ id 1 ∧
      ∃ s, (id, s) ∈ lb.server_pool_ ∧
        ((∀ p ∈ lb.server_pool_, 0 ≤ p.2.max_load ∧ p.2.cur_load ≤ p.2.max_load) →
          (lb.sched_algo_ = SchedAlgorithm.Weighted_Least_Connection →
            productsFit lb.server_pool_) →
          s.cur_load < s.max_load)) := by
  unfold handleRequestFromClient at h
  split at h
  · cases h; exact Or.inl ⟨by decide, List.Sublist.refl _⟩
  split at h
  · cases h; exact Or.inl ⟨by decide, List.Sublist.refl _⟩
  split at h
  · cases h; exact Or.inl ⟨by decide, List.Sublist.refl _⟩
  split at h
  · cases h; exact Or.inl ⟨by decide, List.Sublist.refl _⟩
  · next host service _ =>
    split at h
    · next hlen =>
      have hne : lb.server_pool_ ≠ [] := List.length_pos.1 hlen
      obtain ⟨id, count', hsel, hres⟩ :=
        selectServer_result lb.sched_algo_ lb.server_pool_ lb.count lb.handle_ip_ hne
      rw [hsel] at h
      simp only at h
      split at h
      · cases h; exact Or.inl ⟨by decide, List.Sublist.refl _⟩
      · next hid =>
        split at h
        · cases h; exact Or.inl ⟨by decide, poolErase_sublist _ _⟩
        · cases h
          right
          refine ⟨rfl, id, rfl, rfl, ?_⟩
          rcases hres with h1 | h0 | hs
          · exact absurd (Or.inl h1) hid
          · exact absurd (Or.inr h0) hid
          · exact hs
    · cases h; exact Or.inl ⟨by decide, List.Sublist.refl _⟩

/-- No call of a handler changes the policy in use. -/
theorem handleRequestFromClient_keeps_sched_algo (lb lb' : LoadBalancer) (ev : ClientEvent)
    (st : Status) (acts : List IOAction)
    (h : handleRequestFromClient lb ev = some (lb', st, acts)) :
    lb'.sched_algo_ = lb.sched_algo_ := by
  unfold handleRequestFromClient at h
  repeat' split at h
  all_goals first
    | (cases h; rfl)
    | exact absurd h (by simp)

theorem handleResultFromServer_keeps_sched_algo (lb : LoadBalancer) (ev : ServerEvent) :
    (handleResultFromServer lb ev).1.sched_algo_ = lb.sched_algo_ := by
  unfold handleResultFromServer
  split
  · rfl
  · simp only
    split
    · rfl
    · split
      · rfl
      · split
        · rfl
        · split <;> rfl

theorem healthCheck_keeps_sched_algo (lb : LoadBalancer) (probe : Int → Bool × Bool) :
    (healthCheck lb probe).1.sched_algo_ = lb.sched_algo_ := by
  unfold healthCheck
  split <;> rfl

/-- On a pool that obeys `0 ≤ cur_load ≤ max_load` and whose capacities fit,
the products fit. -/
theorem productsFit_of_capacitiesFit (pool : SchedMap) (hfit : capacitiesFit pool)
    (h : ∀ p ∈ pool, 0 ≤ p.2.cur_load ∧ p.2.cur_load ≤ p.2.max_load ∧ 0 ≤ p.2.max_load) :
    productsFit pool := by
  intro u hu v hv
  obtain ⟨h1, h2, _⟩ := h v hv
  obtain ⟨_, _, h3⟩ := h u hu
  have hle : u.2.max_load * v.2.cur_load ≤ u.2.max_load * v.2.max_load :=
    mul_le_mul_of_nonneg_left h2 h3
  have h0 : 0 ≤ u.2.max_load * v.2.cur_load := mul_nonneg h3 h1
  have := hfit u hu v hv
  constructor
  · have : (-2 : Int) ^ 31 ≤ 0 := by norm_num
    omega
  · omega

/-- The ways `handleResultFromServer` can end on a message that was read. -/
theorem handleResultFromServer_cases (lb : LoadBalancer) (ev : ServerEvent)
    (hread : 0 < ev.num_read) :
    (handleResultFromServer lb ev).1.server_pool_ = lb.server_pool_ ∨
    (handleResultFromServer lb ev).1.server_pool_ = poolAddLoad lb.server_pool_ ev.trigger_fd (-1) := by
  have hnr : ¬ (ev.num_read = -1 ∨ ev.num_read = 0) := by omega
  unfold handleResultFromServer
  rw [if_neg hnr]
  simp only
  split
  · exact Or.inl rfl
  · split
    · exact Or.inl rfl
    · split
      · exact Or.inl rfl
      · split
        · exact Or.inl rfl
        · exact Or.inr rfl

theorem handleResultFromServer_lost (lb : LoadBalancer) (ev : ServerEvent)
    (h : ev.num_read = -1 ∨ ev.num_read = 0) :
    (handleResultFromServer lb ev).1.server_pool_ = poolErase lb.server_pool_ ev.trigger_fd := by
  unfold handleResultFromServer
  rw [if_pos h]

theorem healthCheck_sublist (lb : LoadBalancer) (probe : Int → Bool × Bool) :
    (healthCheck lb probe).1.server_pool_.Sublist lb.server_pool_ := by
  unfold healthCheck
  split
  · exact List.Sublist.refl _
  · exact healthCheckLoop_sublist probe lb.server_pool_

theorem connectLoop_invariant (outcome : Nat → ConnectOutcome) :
    ∀ (rounds i : Nat) (pool : SchedMap),
      (pool.map Prod.fst).Nodup → (∀ p ∈ pool, p.2.cur_load = 0) →
      ((connectLoop outcome rounds i pool).1.map Prod.fst).Nodup ∧
        ∀ p ∈ (connectLoop outcome rounds i pool).1, p.2.cur_load = 0 := by
  intro rounds
  induction rounds with
  | zero =>
    intro i pool hk hc
    exact ⟨hk, hc⟩
  | succ rounds ih =>
    intro i pool hk hc
    rw [connectLoop]
    cases ho : outcome i with
    | connect_fail => exact ih _ _ hk hc
    | write_fail => exact ⟨hk, hc⟩
    | read_fail => exact ⟨hk, hc⟩
    | response cfd msg val =>
      refine ih _ _ ?_ ?_
      · unfold poolInsert
        split
        · exact hk
        · next hany =>
          rw [List.map_cons, List.nodup_cons]
          refine ⟨?_, hk⟩
          intro hmem
          obtain ⟨p, hp, hpe⟩ := List.mem_map.1 hmem
          exact hany (List.any_eq_true.2 ⟨p, hp, by simpa using hpe⟩)
      · intro p hp
        unfold poolInsert at hp
        split at hp
        · exact hc p hp
        · rcases List.mem_cons.1 hp with rfl | hp'
          · rfl
          · exact hc p hp'

theorem connectRealServers_invariant (a : SchedAlgorithm) (outcome : Nat → ConnectOutcome) :
    ((connectRealServers (LoadBalancer.fresh a) outcome).1.server_pool_.map Prod.fst).Nodup ∧
    ∀ p ∈ (connectRealServers (LoadBalancer.fresh a) outcome).1.server_pool_,
      p.2.cur_load = 0 :=
  connectLoop_invariant outcome MAX_REAL_SERVER 1 (LoadBalancer.fresh a).server_pool_
    (by simp [LoadBalancer.fresh]) (by simp [LoadBalancer.fresh])

/-- Every step of a run keeps `runInvariant`. -/
theorem reach_runInvariant (answering : Bool) (lb0 lb : LoadBalancer) (out : Outstanding)
    (h0 : runInvariant answering lb0 (fun _ => 0))
    (hr : Reach answering lb0 lb out) : runInvariant answering lb out := by
  induction hr with
  | start => exact h0
  | client_forwarded lb lb' out ev fd msg _ hstep ih =>
    have halgo := handleRequestFromClient_keeps_sched_algo lb lb' ev _ _ hstep
    rcases handleRequestFromClient_cases lb lb' ev _ _ hstep with ⟨hne, _⟩ | ⟨_, id, hacts, hpool, s, hs, hlt⟩
    · exact absurd rfl hne
    · have hfd : fd = id := by
        simp only [List.cons.injEq, IOAction.write.injEq, and_true] at hacts
        exact hacts.1
      subst hfd
      have hkey : fd ∈ lb.server_pool_.map Prod.fst := List.mem_map_of_mem Prod.fst hs
      have hslt := hlt (fun p hp => ⟨(ih.2.2 p hp).1, (ih.2.2 p hp).2.1⟩)
        (fun hw => productsFit_of_capacitiesFit _ (ih.2.1 hw).2 (fun p hp => by
          obtain ⟨i1, i2, i3⟩ := ih.2.2 p hp
          have := i3 (ih.2.1 hw).1
          exact ⟨by omega, i2, i1⟩))
      refine ⟨by rw [hpool, poolAddLoad_keys _ _ _ hkey]; exact ih.1, ?_, ?_⟩
      · intro hw
        rw [halgo] at hw
        refine ⟨(ih.2.1 hw).1, ?_⟩
        intro u' hu' v' hv'
        rw [hpool] at hu' hv'
        obtain ⟨u, hu, _, humax, _⟩ := poolAddLoad_mem _ _ _ hkey u' hu'
        obtain ⟨v, hv, _, hvmax, _⟩ := poolAddLoad_mem _ _ _ hkey v' hv'
        rw [humax, hvmax]
        exact (ih.2.1 hw).2 u hu v hv
      intro p' hp'
      rw [hpool] at hp'
      obtain ⟨p, hp, hk1, hmax, hcase⟩ := poolAddLoad_mem _ _ _ hkey p' hp'
      obtain ⟨i1, i2, i3⟩ := ih.2.2 p hp
      rcases hcase with ⟨hpf, hcur⟩ | ⟨hpf, rfl⟩
      · have hps : p = (fd, s) := pool_key_unique _ ih.1 p (fd, s) hp hs hpf
        subst hps
        refine ⟨by rw [hmax]; exact i1, by rw [hmax, hcur]; simp only at hslt ⊢; omega, ?_⟩
        intro ha
        have := i3 ha
        simp only [Outstanding.sent, hk1, hcur, if_true] at this ⊢
        push_cast
        omega
      · refine ⟨i1, i2, ?_⟩
        intro ha
        simp only [Outstanding.sent, if_neg hpf]
        exact i3 ha
  | client_other lb lb' out ev st acts _ hstep hst ih =>
    rcases handleRequestFromClient_cases lb lb' ev _ _ hstep with ⟨_, hsub⟩ | ⟨hs, _⟩
    · exact runInvariant_sublist answering lb lb' out ih hsub
        (handleRequestFromClient_keeps_sched_algo lb lb' ev _ _ hstep)
    · exact absurd hs hst
  | server_message lb out ev _ hkey hread hans ih =>
    have halgo := handleResultFromServer_keeps_sched_algo lb ev
    rcases handleResultFromServer_cases lb ev hread with hp | hp
    · refine ⟨by rw [hp]; exact ih.1, by rw [hp, halgo]; exact ih.2.1, ?_⟩
      intro p hpm
      rw [hp] at hpm
      obtain ⟨i1, i2, i3⟩ := ih.2.2 p hpm
      refine ⟨i1, i2, ?_⟩
      intro ha
      have := i3 ha
      simp only [Outstanding.answered]
      split
      · omega
      · exact this
    · refine ⟨by rw [hp, poolAddLoad_keys _ _ _ hkey]; exact ih.1, ?_, ?_⟩
      · intro hw
        rw [halgo] at hw
        refine ⟨(ih.2.1 hw).1, ?_⟩
        intro u' hu' v' hv'
        rw [hp] at hu' hv'
        obtain ⟨u, hu, _, humax, _⟩ := poolAddLoad_mem _ _ _ hkey u' hu'
        obtain ⟨v, hv, _, hvmax, _⟩ := poolAddLoad_mem _ _ _ hkey v' hv'
        rw [humax, hvmax]
        exact (ih.2.1 hw).2 u hu v hv
      intro p' hp'
      rw [hp] at hp'
      obtain ⟨p, hpm, hk1, hmax, hcase⟩ := poolAddLoad_mem _ _ _ hkey p' hp'
      obtain ⟨i1, i2, i3⟩ := ih.2.2 p hpm
      rcases hcase with ⟨hpf, hcur⟩ | ⟨hpf, rfl⟩
      · refine ⟨by rw [hmax]; exact i1, by rw [hmax, hcur]; omega, ?_⟩
        intro ha
        have h1 := i3 ha
        have h2 := hans ha
        rw [← hpf] at h2
        simp only [Outstanding.answered, hk1, hpf, hcur, if_true]
        rw [← hpf]
        omega
      · refine ⟨i1, i2, ?_⟩
        intro ha
        simp only [Outstanding.answered, if_neg hpf]
        exact i3 ha
  | server_lost lb out ev _ _ hlost ih =>
    apply runInvariant_sublist answering lb _ out ih
    · rw [handleResultFromServer_lost lb ev hlost]
      exact poolErase_sublist _ _
    · exact handleResultFromServer_keeps_sched_algo lb ev
  | health lb out probe _ ih =>
    exact runInvariant_sublist answering lb _ out ih (healthCheck_sublist lb probe)
      (healthCheck_keeps_sched_algo lb probe)

/-! ### A run of Weighted Least Connection on which a product wraps -/

theorem requestMapInsert_replicate (n : Nat) (request : RequestInfo) :
    requestMapInsert (List.replicate n ("40000", request)) "40000" request
      = List.replicate (n + 1) ("40000", request) := by
  induction n with
  | zero => rfl
  | succ n ih =>
    rw [List.replicate_succ, requestMapInsert]
    simp only []
    rw [if_neg (lt_irrefl ("40000" : String)), ih]
    rfl

/-- The worker Weighted Least Connection selects on `fiftyLoaded x y seen` while
worker 6 has capacity: worker 5 exactly when the 32-bit product `50000 * x`
exceeds the 32-bit product `y * 50000`. -/
theorem fifty_select (x y : Nat) (seen : Bool) (hx : (x : Int) < 49999) :
    SchedWLC.selectServer (fiftyLoaded x y seen).server_pool_
      = some (if intMul 50000 x > intMul y 50000 then 5 else 6) := by
  have hl : lacksCapacity (⟨"127.0.0.3", "50000", 50000, (x : Int)⟩ : RealServer)
      = false := by
    simp only [lacksCapacity, RESERVED_CAPACITY, decide_eq_false_iff_not]
    omega
  show some (SchedWLC.outer (fiftyLoaded x y seen).server_pool_) = _
  unfold fiftyLoaded
  rw [SchedWLC.outer, hl]
  simp only [Bool.false_eq_true, if_false]
  rw [SchedWLC.inner, SchedWLC.inner, SchedWLC.inner]
  split <;> rfl

/-- The worker Weighted Least Connection selects on `fiftyLoaded x y seen` when
worker 6 lacks capacity and worker 5 has it: worker 5. -/
theorem fifty_select_skip (x y : Nat) (seen : Bool) (hx : 49999 ≤ (x : Int))
    (hy : (y : Int) < 49999) :
    SchedWLC.selectServer (fiftyLoaded x y seen).server_pool_ = some 5 := by
  have hl : lacksCapacity (⟨"127.0.0.3", "50000", 50000, (x : Int)⟩ : RealServer)
      = true := by
    simp only [lacksCapacity, RESERVED_CAPACITY, decide_eq_true_eq]
    omega
  have hl5 : lacksCapacity (⟨"127.0.0.2", "50000", 50000, (y : Int)⟩ : RealServer)
      = false := by
    simp only [lacksCapacity, RESERVED_CAPACITY, decide_eq_false_iff_not]
    omega
  show some (SchedWLC.outer (fiftyLoaded x y seen).server_pool_) = _
  unfold fiftyLoaded
  rw [SchedWLC.outer, hl]
  simp only [if_true]
  rw [SchedWLC.outer, hl5]
  simp only [Bool.false_eq_true, if_false]
  rw [SchedWLC.inner]

/-- A dispatch of `aClient` on `fiftyLoaded x y seen` when the policy selects
worker 5. -/
theorem fifty_step_five (x y : Nat) (seen : Bool)
    (hsel : SchedWLC.selectServer (fiftyLoaded x y seen).server_pool_ = some 5) :
    handleRequestFromClient (fiftyLoaded x y seen) aClient
      = some (fiftyLoaded x (y + 1) seen, Status.SUCCESS,
          [IOAction.write 5 aClient.http_msg]) := by
  have hmap := requestMapInsert_replicate (x + y) { client_addr := "127.0.0.1", client_fd := 9 }
  unfold handleRequestFromClient
  rw [if_neg (by decide), if_neg (by decide), if_neg (by decide)]
  have hname : getSourceInfo aClient.nameinfo = some ("127.0.0.1", "40000") := by decide
  rw [hname]
  simp only
  rw [if_pos (by simp [fiftyLoaded] : (fiftyLoaded x y seen).server_pool_.length > 0)]
  have hs : AlgorithmSelector.selectServer (fiftyLoaded x y seen).sched_algo_
      (fiftyLoaded x y seen).server_pool_ (fiftyLoaded x y seen).count
      (fiftyLoaded x y seen).handle_ip_ = some (5, 1) := by
    show (SchedWLC.selectServer (fiftyLoaded x y seen).server_pool_).map (fun r => (r, 1)) = _
    rw [hsel]
    rfl
  rw [hs]
  simp only
  rw [if_neg (by decide : ¬ ((5 : Int) = -1 ∨ (5 : Int) = 0)),
    if_neg (by decide : ¬ (!aClient.write_ok) = true)]
  have hpool : poolAddLoad (fiftyLoaded x y seen).server_pool_ 5 1
      = (fiftyLoaded x (y + 1) seen).server_pool_ := by
    simp [poolAddLoad, fiftyLoaded]
  have hreq : requestMapInsert (fiftyLoaded x y seen).request_map_ "40000"
      { client_addr := "127.0.0.1", client_fd := aClient.cfd }
      = (fiftyLoaded x (y + 1) seen).request_map_ := hmap
  rw [hpool, hreq]
  rfl

/-- A dispatch of `aClient` on `fiftyLoaded x y seen` when the policy selects
worker 6. -/
theorem fifty_step_six (x y : Nat) (seen : Bool)
    (hsel : SchedWLC.selectServer (fiftyLoaded x y seen).server_pool_ = some 6) :
    handleRequestFromClient (fiftyLoaded x y seen) aClient
      = some (fiftyLoaded (x + 1) y seen, Status.SUCCESS,
          [IOAction.write 6 aClient.http_msg]) := by
  have hmap := requestMapInsert_replicate (x + y) { client_addr := "127.0.0.1", client_fd := 9 }
  unfold handleRequestFromClient
  rw [if_neg (by decide), if_neg (by decide), if_neg (by decide)]
  have hname : getSourceInfo aClient.nameinfo = some ("127.0.0.1", "40000") := by decide
  rw [hname]
  simp only
  rw [if_pos (by simp [fiftyLoaded] : (fiftyLoaded x y seen).server_pool_.length > 0)]
  have hs : AlgorithmSelector.selectServer (fiftyLoaded x y seen).sched_algo_
      (fiftyLoaded x y seen).server_pool_ (fiftyLoaded x y seen).count
      (fiftyLoaded x y seen).handle_ip_ = some (6, 1) := by
    show (SchedWLC.selectServer (fiftyLoaded x y seen).server_pool_).map (fun r => (r, 1)) = _
    rw [hsel]
    rfl
  rw [hs]
  simp only
  rw [if_neg (by decide : ¬ ((6 : Int) = -1 ∨ (6 : Int) = 0)),
    if_neg (by decide : ¬ (!aClient.write_ok) = true)]
  have hpool : poolAddLoad (fiftyLoaded x y seen).server_pool_ 6 1
      = (fiftyLoaded (x + 1) y seen).server_pool_ := by
    simp [poolAddLoad, fiftyLoaded]
  have hreq : requestMapInsert (fiftyLoaded x y seen).request_map_ "40000"
      { client_addr := "127.0.0.1", client_fd := aClient.cfd }
      = (fiftyLoaded (x + 1) y seen).request_map_ := by
    have e : x + 1 + y = x + y + 1 := by omega
    show _ = List.replicate (x + 1 + y) _
    rw [e]
    exact hmap
  rw [hpool, hreq]
  rfl

/-- An answer of worker 6 for the client `aClient` on `fiftyLoaded (x + 1) y seen`:
the first pending entry is erased and the load of worker 6 goes down by one. -/
theorem fifty_step_answer (x y : Nat) (seen : Bool) :
    (handleResultFromServer (fiftyLoaded (x + 1) y seen) (anAnswer 6)).1
      = fiftyLoaded x y true := by
  have hip : ∀ d, getTargetIP (anAnswer 6).http_msg d = "127.0.0.1" := fun d => rfl
  have hport : ∀ d, getTargetPort (anAnswer 6).http_msg d = "40000" := fun d => rfl
  have hfind : findTarget (fiftyLoaded (x + 1) y seen).request_map_ "40000" "127.0.0.1"
      = some (9, List.replicate (x + y)
          ("40000", { client_addr := "127.0.0.1", client_fd := 9 })) := by
    have e : x + 1 + y = x + y + 1 := by omega
    show findTarget (List.replicate (x + 1 + y) _) _ _ = _
    rw [e, List.replicate_succ, findTarget]
    simp
  have hpool : poolAddLoad (fiftyLoaded (x + 1) y seen).server_pool_ 6 (-1)
      = (fiftyLoaded x y true).server_pool_ := by
    simp [poolAddLoad, fiftyLoaded]
  unfold handleResultFromServer
  rw [if_neg (by decide)]
  simp only [hip, hport, hfind]
  rw [if_neg (by decide), if_neg (by decide), if_neg (by decide)]
  show ({ (fiftyLoaded (x + 1) y seen) with
      target_ip_ := "127.0.0.1", target_port_ := "40000",
      request_map_ := List.replicate (x + y)
        ("40000", { client_addr := "127.0.0.1", client_fd := 9 }),
      server_pool_ := poolAddLoad (fiftyLoaded (x + 1) y seen).server_pool_
        (anAnswer 6).trigger_fd (-1) } : LoadBalancer) = _
  rw [show (anAnswer 6).trigger_fd = 6 from rfl, hpool]
  rfl

theorem fiftySent_six (x y : Nat) : (fiftySent x y).sent 6 = fiftySent (x + 1) y := by
  funext fd
  unfold Outstanding.sent fiftySent
  by_cases h6 : fd = 6
  · simp [h6]
  · simp [h6]

theorem fiftySent_five (x y : Nat) : (fiftySent x y).sent 5 = fiftySent x (y + 1) := by
  funext fd
  unfold Outstanding.sent fiftySent
  by_cases h6 : fd = 6
  · simp [h6]
  · by_cases h5 : fd = 5
    · simp [h5]
    · simp [h5, h6]

theorem fiftySent_answered (x y : Nat) :
    (fiftySent (x + 1) y).answered 6 = fiftySent x y := by
  funext fd
  unfold Outstanding.answered fiftySent
  by_cases h6 : fd = 6
  · simp [h6]
  · simp [h6]

/-- From two workers of capacity 50000 each, by dispatches and answers of
worker 6 to requests written to it, the balancer reaches the state in which
worker 5 holds 50001 requests. The dispatches alternate between the workers
up to 42949 requests each; from there on `50000 * cur_load` of worker 6 no
longer fits an `int`, and the dispatches go to worker 6 until it lacks
capacity, then to worker 5 until it lacks capacity. Then worker 6 answers all
its requests, and the next two dispatches go to worker 5, which had 49999. -/
theorem fifty_run :
    Reach true fiftyWorkers (fiftyLoaded 0 50001 true) (fiftySent 0 50001) := by
  have e0 : fiftyWorkers = fiftyLoaded 0 0 false := by decide
  have r0 : Reach true fiftyWorkers (fiftyLoaded 0 0 false) (fiftySent 0 0) := by
    have es : fiftySent 0 0 = fun _ => 0 := by
      funext fd
      simp [fiftySent]
    rw [← e0, es]
    exact Reach.start
  have six : ∀ (x y : Nat) (b : Bool),
      SchedWLC.selectServer (fiftyLoaded x y b).server_pool_ = some 6 →
      Reach true fiftyWorkers (fiftyLoaded x y b) (fiftySent x y) →
      Reach true fiftyWorkers (fiftyLoaded (x + 1) y b) (fiftySent (x + 1) y) := by
    intro x y b h hr
    rw [← fiftySent_six]
    exact Reach.client_forwarded _ _ _ aClient 6 aClient.http_msg hr (fifty_step_six x y b h)
  have five : ∀ (x y : Nat) (b : Bool),
      SchedWLC.selectServer (fiftyLoaded x y b).server_pool_ = some 5 →
      Reach true fiftyWorkers (fiftyLoaded x y b) (fiftySent x y) →
      Reach true fiftyWorkers (fiftyLoaded x (y + 1) b) (fiftySent x (y + 1)) := by
    intro x y b h hr
    rw [← fiftySent_five]
    exact Reach.client_forwarded _ _ _ aClient 5 aClient.http_msg hr (fifty_step_five x y b h)
  have answer : ∀ (x y : Nat) (b : Bool),
      Reach true fiftyWorkers (fiftyLoaded (x + 1) y b) (fiftySent (x + 1) y) →
      Reach true fiftyWorkers (fiftyLoaded x y true) (fiftySent x y) := by
    intro x y b hr
    rw [← fifty_step_answer x y b, ← fiftySent_answered]
    exact Reach.server_message _ _ (anAnswer 6) hr (by simp [fiftyLoaded, anAnswer])
      (by decide) (by intro _; simp [fiftySent, anAnswer])
  have sel6 : ∀ (x y : Nat) (b : Bool), (x : Int) < 49999 →
      ¬ intMul 50000 x > intMul y 50000 →
      SchedWLC.selectServer (fiftyLoaded x y b).server_pool_ = some 6 := by
    intro x y b hx h
    rw [fifty_select x y b hx, if_neg h]
  have sel5 : ∀ (x y : Nat) (b : Bool), (x : Int) < 49999 →
      intMul 50000 x > intMul y 50000 →
      SchedWLC.selectServer (fiftyLoaded x y b).server_pool_ = some 5 := by
    intro x y b hx h
    rw [fifty_select x y b hx, if_pos h]
  have phaseA : ∀ k : Nat, k ≤ 42949 →
      Reach true fiftyWorkers (fiftyLoaded k k false) (fiftySent k k) := by
    intro k
    induction k with
    | zero => intro _; exact r0
    | succ k ih =>
      intro hk
      have h1 := six k k false
        (sel6 k k false (by omega) (by rw [intMul, intMul, mul_comm]; exact lt_irrefl _))
        (ih (by omega))
      have hk1 : ((k + 1 : Nat) : Int) = (k : Int) + 1 := by push_cast; rfl
      have e1 : intMul 50000 ((k + 1 : Nat) : Int) = 50000 * ((k : Int) + 1) := by
        rw [hk1]
        exact intMul_exact _ _ ⟨by norm_num; omega, by norm_num; omega⟩
      have e2 : intMul (k : Int) 50000 = (k : Int) * 50000 :=
        intMul_exact _ _ ⟨by norm_num; omega, by norm_num; omega⟩
      exact five (k + 1) k false
        (sel5 (k + 1) k false (by push_cast; omega) (by rw [e1, e2]; omega)) h1
  have phaseB : ∀ n : Nat, 42950 + n ≤ 49999 →
      Reach true fiftyWorkers (fiftyLoaded (42950 + n) 42949 false)
        (fiftySent (42950 + n) 42949) := by
    intro n
    induction n with
    | zero =>
      intro _
      exact six 42949 42949 false (sel6 42949 42949 false (by norm_num) (by decide))
        (phaseA 42949 (le_refl _))
    | succ n ih =>
      intro hn
      have hc : ((42950 + n : Nat) : Int) = 42950 + (n : Int) := by push_cast; rfl
      have e1 : intMul 50000 ((42950 + n : Nat) : Int)
          = 50000 * (42950 + (n : Int)) - 2 ^ 32 := by
        rw [hc]
        exact intMul_wrap _ _ ⟨by norm_num; omega, by norm_num; omega⟩
      have e2 : intMul ((42949 : Nat) : Int) 50000 = 2147450000 := by decide
      exact six (42950 + n) 42949 false
        (sel6 (42950 + n) 42949 false (by push_cast; omega)
          (by rw [e1, e2]; norm_num; omega)) (ih (by omega))
  have phaseC : ∀ n : Nat, 42949 + n ≤ 49999 →
      Reach true fiftyWorkers (fiftyLoaded 49999 (42949 + n) false)
        (fiftySent 49999 (42949 + n)) := by
    intro n
    induction n with
    | zero => intro _; exact phaseB 7049 (le_refl _)
    | succ n ih =>
      intro hn
      exact five 49999 (42949 + n) false
        (fifty_select_skip 49999 (42949 + n) false (by norm_num) (by push_cast; omega))
        (ih (by omega))
  have phaseD : ∀ n : Nat, n ≤ 49998 →
      Reach true fiftyWorkers (fiftyLoaded (49998 - n) 49999 true)
        (fiftySent (49998 - n) 49999) := by
    intro n
    induction n with
    | zero => intro _; exact answer 49998 49999 false (phaseC 7050 (le_refl _))
    | succ n ih =>
      intro hn
      have e : 49998 - n = (49998 - (n + 1)) + 1 := by omega
      have h := ih (by omega)
      rw [e] at h
      exact answer _ 49999 true h
  have r1 := five 0 49999 true (sel5 0 49999 true (by norm_num) (by decide))
    (phaseD 49998 (le_refl _))
  exact five 0 50000 true (sel5 0 50000 true (by norm_num) (by decide)) r1

/-- C3 (as stated, refuted). Three runs that break `0 ≤ cur_load ≤ max_load`.
First: a worker answers SERVERCHECK with the body `-3`; `connectRealServers`
registers it with `max_load = -3 < cur_load = 0`.
Second: two workers (descriptors 5 and 6) registered with capacity 5 under
Weighted Round Robin; the request of client `127.0.0.1:40000` goes to worker
6; a message carrying that target pair then arrives on the descriptor of
worker 5, which has no request: `handleResultFromServer` forwards it and
decrements worker 5 to `cur_load = -1`.
Third: two workers registered with capacity 50000 each under Weighted Least
Connection, dispatches, and answers that worker 6 gives to requests written
to it. The run reaches the state in which worker 6 has answered all its
requests and worker 5 holds 49999. On the next dispatch the comparison of
`SchedWLC::selectServer` is `50000 * 0 > 49999 * 50000` in `int`; the right
product is 2499950000 and wraps to -1795017296, so worker 5, which lacks
capacity, is selected and is full; on the next one the right product is
`50000 * 50000`, which wraps to -1794967296, the full worker 5 is selected
again and gets `cur_load = 50001 > max_load = 50000`. -/
theorem C3_load_invariant_fails :
    ¬ loadInvariant
      (connectRealServers (LoadBalancer.fresh SchedAlgorithm.Round_Robin) (twoAnswers "-3")).1 ∧
    Reach false (twoWorkers SchedAlgorithm.Weighted_Round_Robin)
      (handleResultFromServer (afterDispatch SchedAlgorithm.Weighted_Round_Robin) (anAnswer 5)).1
      (Outstanding.answered (Outstanding.sent (fun _ => 0) 6) 5) ∧
    poolFind (handleResultFromServer (afterDispatch SchedAlgorithm.Weighted_Round_Robin)
      (anAnswer 5)).1.server_pool_ 5
      = some { address := "127.0.0.2", port_num := "50000", max_load := 5, cur_load := -1 } ∧
    ¬ loadInvariant
      (handleResultFromServer (afterDispatch SchedAlgorithm.Weighted_Round_Robin) (anAnswer 5)).1 ∧
    (∀ p ∈ fiftyWorkers.server_pool_, p.2.max_load = 50000 ∧ p.2.cur_load = 0) ∧
    intMul 49999 50000 = -1795017296 ∧ intMul 50000 50000 = -1794967296 ∧
    Reach true fiftyWorkers (fiftyLoaded 0 50001 true) (fiftySent 0 50001) ∧
    poolFind (fiftyLoaded 0 50001 true).server_pool_ 5
      = some { address := "127.0.0.2", port_num := "50000", max_load := 50000, cur_load := 50001 } ∧
    ¬ loadBelowMax (fiftyLoaded 0 50001 true) := by
  refine ⟨by decide, ?_, by decide, by decide, by decide, by decide, by decide, fifty_run,
    by decide, by decide⟩
  have h1 : Reach false (twoWorkers SchedAlgorithm.Weighted_Round_Robin)
      (afterDispatch SchedAlgorithm.Weighted_Round_Robin) (Outstanding.sent (fun _ => 0) 6) :=
    Reach.client_forwarded (twoWorkers SchedAlgorithm.Weighted_Round_Robin)
      (afterDispatch SchedAlgorithm.Weighted_Round_Robin) (fun _ => 0) aClient 6
      aClient.http_msg Reach.start (by decide)
  exact Reach.server_message (afterDispatch SchedAlgorithm.Weighted_Round_Robin)
    (Outstanding.sent (fun _ => 0) 6) (anAnswer 5) h1 (by decide) (by decide)
    (by intro h; cases h)

/-- C3 (amended). Take any state `connectRealServers` leaves in which every
registered `max_load` is non-negative and, when the policy is Weighted Least
Connection, the capacities fit its 32-bit products (the product of any two
registered capacities is below `2^31`: each is at most 46340). Along any run
of client dispatches, worker messages, worker losses and health checks from
it: when the workers only answer requests written to them (no worker sends a
message while none of its requests is unanswered), every worker keeps
`0 ≤ cur_load ≤ max_load`; and under the five other policies every worker
keeps `cur_load ≤ max_load` whatever the workers send. -/
theorem C3_load_invariant_amended (a : SchedAlgorithm) (outcome : Nat → ConnectOutcome)
    (answering : Bool) (lb : LoadBalancer) (out : Outstanding)
    (hcap : ∀ p ∈ (connectRealServers (LoadBalancer.fresh a) outcome).1.server_pool_,
      0 ≤ p.2.max_load)
    (hfit : a = SchedAlgorithm.Weighted_Least_Connection →
      capacitiesFit (connectRealServers (LoadBalancer.fresh a) outcome).1.server_pool_)
    (hr : Reach answering (connectRealServers (LoadBalancer.fresh a) outcome).1 lb out) :
    (answering = true → loadInvariant lb) ∧
    (a ≠ SchedAlgorithm.Weighted_Least_Connection → loadBelowMax lb) := by
  by_cases hcase : a = SchedAlgorithm.Weighted_Least_Connection ∧ answering = false
  · refine ⟨fun ha => ?_, fun hne => absurd hcase.1 hne⟩
    rw [hcase.2] at ha
    cases ha
  obtain ⟨hk, hc⟩ := connectRealServers_invariant a outcome
  have h0 : runInvariant answering (connectRealServers (LoadBalancer.fresh a) outcome).1
      (fun _ => 0) := by
    refine ⟨hk, fun hw => ?_, fun p hp => ⟨hcap p hp, ?_, ?_⟩⟩
    · have hw' : a = SchedAlgorithm.Weighted_Least_Connection := hw
      refine ⟨?_, hfit hw'⟩
      cases answering with
      | true => rfl
      | false => exact absurd ⟨hw', rfl⟩ hcase
    · rw [hc p hp]; exact hcap p hp
    · intro _; rw [hc p hp]; simp
  have hinv := reach_runInvariant answering _ lb out h0 hr
  refine ⟨?_, fun _ p hp => (hinv.2.2 p hp).2.1⟩
  intro ha p hp
  obtain ⟨_, i2, i3⟩ := hinv.2.2 p hp
  have := i3 ha
  exact ⟨by omega, i2⟩

/-- Witness of the amended C3: two workers of capacity 5 under Weighted Least
Connection, one client dispatched (to worker 6) and answered by worker 6. -/
theorem C3_load_invariant_amended_witness :
    (true = true → loadInvariant (handleResultFromServer wlcDispatched (anAnswer 6)).1) ∧
    (SchedAlgorithm.Weighted_Least_Connection ≠ SchedAlgorithm.Weighted_Least_Connection →
      loadBelowMax (handleResultFromServer wlcDispatched (anAnswer 6)).1) :=
  C3_load_invariant_amended SchedAlgorithm.Weighted_Least_Connection (twoAnswers "5") true
    (handleResultFromServer wlcDispatched (anAnswer 6)).1
    (Outstanding.answered (Outstanding.sent (fun _ => 0) 6) 6)
    (by decide) (fun _ => by decide)
    (Reach.server_message wlcDispatched (Outstanding.sent (fun _ => 0) 6) (anAnswer 6)
      (Reach.client_forwarded wlcBalancer wlcDispatched (fun _ => 0) aClient 6
        aClient.http_msg Reach.start (by decide))
      (by decide) (by decide) (by intro _; decide))

/-! ### Lists without repetition -/

theorem filter_ne_of_not_mem {α : Type} [DecidableEq α] (l : List α) (k : α) (h : k ∉ l) :
    l.filter (fun x => x ≠ k) = l := by
  apply List.filter_eq_self.2
  intro a ha
  have hne : a ≠ k := fun h' => h (h' ▸ ha)
  simpa using hne

theorem filter_ne_cons_self {α : Type} [DecidableEq α] (l : List α) (k : α) :
    (k :: l).filter (fun x => x ≠ k) = l.filter (fun x => x ≠ k) := by
  rw [List.filter_cons]
  simp

theorem filter_ne_cons_of_ne {α : Type} [DecidableEq α] (l : List α) (k x : α) (h : x ≠ k) :
    (x :: l).filter (fun y => y ≠ k) = x :: l.filter (fun y => y ≠ k) := by
  rw [List.filter_cons]
  simp [h]

theorem nodup_dropLast_eq_filter {α : Type} [DecidableEq α] (L : List α) (b : α)
    (hn : L.Nodup) (hb : L.getLast? = some b) :
    L.dropLast = L.filter (fun x => x ≠ b) := by
  have hL : L.dropLast ++ [b] = L := List.dropLast_append_getLast? b (by simp [hb])
  generalize hD : L.dropLast = D at hL
  subst hL
  have hbD : b ∉ D := by
    intro hmem
    have := (List.nodup_append.1 hn).2.2
    exact this hmem (List.mem_singleton_self b)
  rw [List.filter_append, filter_ne_of_not_mem D b hbD, filter_ne_cons_self]
  simp

theorem map_fst_filter_ne {α β : Type} [DecidableEq α] (m : List (α × β)) (b : α) :
    (m.filter (fun p => p.1 ≠ b)).map Prod.fst = (m.map Prod.fst).filter (fun x => x ≠ b) := by
  induction m with
  | nil => rfl
  | cons p ps ih =>
    by_cases h : p.1 = b
    · rw [List.map_cons, h, filter_ne_cons_self, ← ih, List.filter_cons]
      simp [h]
    · rw [List.map_cons, filter_ne_cons_of_ne _ _ _ h, ← ih, List.filter_cons]
      simp [h]

theorem take_filter_of_mem {α : Type} [DecidableEq α] (k : α) :
    ∀ (r : List α) (n : Nat), r.Nodup → k ∈ r.take (n + 1) →
      (r.filter (fun x => x ≠ k)).take n = (r.take (n + 1)).filter (fun x => x ≠ k) := by
  intro r
  induction r with
  | nil => intro n _ h; simp at h
  | cons x xs ih =>
    intro n hn hk
    rw [List.nodup_cons] at hn
    by_cases hx : x = k
    · subst hx
      rw [List.take_succ_cons, filter_ne_cons_self, filter_ne_cons_self,
        filter_ne_of_not_mem xs x hn.1,
        filter_ne_of_not_mem _ x (fun h => hn.1 (List.mem_of_mem_take h))]
    · rw [List.take_succ_cons] at hk
      have hk' : k ∈ xs.take n := by
        rcases List.mem_cons.1 hk with h | h
        · exact absurd h.symm hx
        · exact h
      cases n with
      | zero => simp at hk'
      | succ m =>
        rw [List.take_succ_cons, filter_ne_cons_of_ne _ _ _ hx, filter_ne_cons_of_ne _ _ _ hx,
          List.take_succ_cons, ih m hn.2 hk']

theorem take_filter_of_not_mem {α : Type} [DecidableEq α] (k : α) :
    ∀ (r : List α) (n : Nat), k ∉ r.take n →
      (r.filter (fun x => x ≠ k)).take n = r.take n := by
  intro r
  induction r with
  | nil => intro n _; simp
  | cons x xs ih =>
    intro n hk
    cases n with
    | zero => simp
    | succ m =>
      rw [List.take_succ_cons] at hk
      have hx : x ≠ k := fun h => hk (h ▸ List.mem_cons_self _ _)
      have hk' : k ∉ xs.take m := fun h => hk (List.mem_cons_of_mem _ h)
      rw [filter_ne_cons_of_ne _ _ _ hx, List.take_succ_cons, List.take_succ_cons, ih m hk']

theorem takeWhile_ne_cons_self {α : Type} [DecidableEq α] (l : List α) (k : α) :
    (k :: l).takeWhile (fun y => y ≠ k) = [] := by
  rw [List.takeWhile_cons]
  simp

theorem takeWhile_ne_cons_of_ne {α : Type} [DecidableEq α] (l : List α) (k x : α) (h : x ≠ k) :
    (x :: l).takeWhile (fun y => y ≠ k) = x :: l.takeWhile (fun y => y ≠ k) := by
  rw [List.takeWhile_cons]
  simp [h]

theorem takeWhile_filter_comm {α : Type} [DecidableEq α] (k x : α) (hkx : k ≠ x) (l : List α) :
    (l.filter (fun y => y ≠ x)).takeWhile (fun y => y ≠ k)
      = (l.takeWhile (fun y => y ≠ k)).filter (fun y => y ≠ x) := by
  induction l with
  | nil => rfl
  | cons a as ih =>
    by_cases ha : a = x
    · subst ha
      have hak : a ≠ k := fun h => hkx h.symm
      rw [filter_ne_cons_self, takeWhile_ne_cons_of_ne _ _ _ hak, filter_ne_cons_self, ih]
    · by_cases hak : a = k
      · subst hak
        rw [filter_ne_cons_of_ne _ _ _ ha, takeWhile_ne_cons_self, takeWhile_ne_cons_self]
        rfl
      · rw [filter_ne_cons_of_ne _ _ _ ha, takeWhile_ne_cons_of_ne _ _ _ hak,
          takeWhile_ne_cons_of_ne _ _ _ hak, filter_ne_cons_of_ne _ _ _ ha, ih]

theorem mem_take_of_takeWhile_length {α : Type} [DecidableEq α] (k : α) (l : List α) (n : Nat)
    (hk : k ∈ l) (hlen : (l.takeWhile (fun y => y ≠ k)).length < n) : k ∈ l.take n := by
  induction l generalizing n with
  | nil => simp at hk
  | cons a as ih =>
    cases n with
    | zero => omega
    | succ m =>
      rw [List.take_succ_cons]
      by_cases ha : a = k
      · subst ha; exact List.mem_cons_self _ _
      · have hk' : k ∈ as := by
          rcases List.mem_cons.1 hk with h | h
          · exact absurd h.symm ha
          · exact h
        rw [takeWhile_ne_cons_of_ne _ _ _ ha, List.length_cons] at hlen
        exact List.mem_cons_of_mem _ (ih m hk' (by omega))

/-! ### LRUCache: what each branch of `putElement` and `getElement` computes -/

section CacheLemmas

variable {K V : Type} [DecidableEq K]

theorem lru_isCached_iff (c : LRUCache K V) (k : K) :
    c.isCached k = true ↔ k ∈ c.cache_map_.map Prod.fst := by
  unfold LRUCache.isCached
  rw [List.any_eq_true, List.mem_map]
  constructor
  · rintro ⟨p, hp, h⟩; exact ⟨p, hp, by simpa using h⟩
  · rintro ⟨p, hp, h⟩; exact ⟨p, hp, by simpa using h⟩

theorem lru_lookup_none_iff (c : LRUCache K V) (k : K) :
    c.lookup k = none ↔ c.isCached k = false := by
  unfold LRUCache.lookup LRUCache.isCached
  rw [Option.map_eq_none', List.find?_eq_none, Bool.eq_false_iff, Ne, List.any_eq_true]
  constructor
  · rintro h ⟨p, hp, hk⟩; exact h p hp hk
  · rintro h p hp hk; exact h ⟨p, hp, hk⟩

omit [DecidableEq K] in
theorem lru_wf_length (c : LRUCache K V) (h : c.WellFormed) :
    c.cache_list_.length = c.cache_map_.length := by
  have hperm : c.cache_list_.Perm (c.cache_map_.map Prod.fst) :=
    (List.perm_ext_iff_of_nodup h.1 h.2.1).2 h.2.2
  rw [hperm.length_eq, List.length_map]

theorem lru_moveToFront_of_mem (c : LRUCache K V) (k : K) (hn : c.cache_list_.Nodup)
    (hk : k ∈ c.cache_list_) :
    c.moveToFront k
      = some { c with cache_list_ := k :: c.cache_list_.filter (fun x => x ≠ k) } := by
  unfold LRUCache.moveToFront
  cases hl : c.cache_list_ with
  | nil => rw [hl] at hk; simp at hk
  | cons front tl =>
    simp only
    by_cases hf : front = k
    · rw [if_pos hf]
      subst hf
      rw [hl] at hn
      have hnot : front ∉ tl := (List.nodup_cons.1 hn).1
      rw [filter_ne_cons_self, filter_ne_of_not_mem tl front hnot, ← hl]
    · rw [if_neg hf]

/-- The first branch of `putElement`: the key is cached. -/
theorem lru_put_hit (c : LRUCache K V) (k : K) (v : V) (hwf : c.WellFormed)
    (h : c.isCached k = true) :
    c.putElement k v = some
      { c with
        cache_list_ := k :: c.cache_list_.filter (fun x => x ≠ k)
        cache_map_ := c.cache_map_.map (fun p => if p.1 = k then (p.1, v) else p) } := by
  unfold LRUCache.putElement
  rw [if_pos h]
  have hk : k ∈ c.cache_list_ := (hwf.2.2 k).2 ((lru_isCached_iff c k).1 h)
  exact lru_moveToFront_of_mem
    { c with cache_map_ := c.cache_map_.map (fun p => if p.1 = k then (p.1, v) else p) }
    k hwf.1 hk

/-- The second branch of `putElement`: the key is not cached and the cache is
full. -/
theorem lru_put_full (c : LRUCache K V) (k : K) (v : V) (h : c.isCached k = false)
    (hfull : c.cache_map_.length ≥ c.cache_size_) :
    c.putElement k v = some
      { cache_size_ := c.cache_size_
        cache_list_ := (k :: c.cache_list_).dropLast
        cache_map_ := ((k, v) :: c.cache_map_).filter
          (fun p => p.1 ≠ c.cache_list_.getLast?.getD k) } := by
  unfold LRUCache.putElement
  rw [if_neg (by simp [h]), if_pos hfull]
  unfold LRUCache.removeBack LRUCache.insertNewElement
  have hany : c.cache_map_.any (fun p => decide (p.1 = k)) = false := h
  simp only [hany, List.getLast?_cons]
  rfl

/-- The third branch of `putElement`: the key is not cached and there is room. -/
theorem lru_put_room (c : LRUCache K V) (k : K) (v : V) (h : c.isCached k = false)
    (hroom : c.cache_map_.length < c.cache_size_) :
    c.putElement k v = some
      { cache_size_ := c.cache_size_
        cache_list_ := k :: c.cache_list_
        cache_map_ := (k, v) :: c.cache_map_ } := by
  unfold LRUCache.putElement
  rw [if_neg (by simp [h]), if_neg (by omega)]
  unfold LRUCache.insertNewElement
  have hany : c.cache_map_.any (fun p => decide (p.1 = k)) = false := h
  simp only [hany]
  rfl

/-- The result of `getElement` on a cached key. -/
theorem lru_get_hit [Inhabited V] (c : LRUCache K V) (k : K) (hwf : c.WellFormed)
    (h : c.isCached k = true) :
    ∃ v, c.lookup k = some v ∧
      c.getElement k
        = some (v, { c with cache_list_ := k :: c.cache_list_.filter (fun x => x ≠ k) }) := by
  have hk : k ∈ c.cache_list_ := (hwf.2.2 k).2 ((lru_isCached_iff c k).1 h)
  cases hl : c.lookup k with
  | none => rw [(lru_lookup_none_iff c k).1 hl] at h; cases h
  | some v =>
    refine ⟨v, rfl, ?_⟩
    unfold LRUCache.getElement
    rw [lru_moveToFront_of_mem c k hwf.1 hk]
    simp only
    have : LRUCache.lookup
        { c with cache_list_ := k :: c.cache_list_.filter (fun x => x ≠ k) } k = some v := hl
    rw [this]

end CacheLemmas

/-! ### LRUCache: the representation invariant -/

section CacheInvariant

variable {K V : Type} [DecidableEq K]

theorem lru_not_mem_of_not_cached (c : LRUCache K V) (k : K) (hwf : c.WellFormed)
    (h : c.isCached k = false) : k ∉ c.cache_list_ := by
  intro hk
  have := (lru_isCached_iff c k).2 ((hwf.2.2 k).1 hk)
  rw [h] at this
  cases this

omit [DecidableEq K] in
theorem lru_new_wf (size : Nat) : (LRUCache.new size : LRUCache K V).WellFormed := by
  refine ⟨List.nodup_nil, List.nodup_nil, ?_⟩
  intro k
  simp [LRUCache.new]

/-- Moving a cached key to the front keeps the invariant. -/
theorem lru_front_wf (c : LRUCache K V) (k : K) (m' : List (K × V)) (hwf : c.WellFormed)
    (hk : k ∈ c.cache_list_) (hm : m'.map Prod.fst = c.cache_map_.map Prod.fst) :
    LRUCache.WellFormed
      { c with cache_list_ := k :: c.cache_list_.filter (fun x => x ≠ k), cache_map_ := m' } := by
  refine ⟨?_, ?_, ?_⟩
  · apply List.nodup_cons.2
    refine ⟨?_, hwf.1.filter _⟩
    intro hmem
    have := (List.mem_filter.1 hmem).2
    simp at this
  · show (m'.map Prod.fst).Nodup
    rw [hm]; exact hwf.2.1
  · intro x
    show x ∈ k :: c.cache_list_.filter (fun x => x ≠ k) ↔ x ∈ m'.map Prod.fst
    rw [hm, ← hwf.2.2 x, List.mem_cons, List.mem_filter]
    constructor
    · rintro (h | h)
      · rw [h]; exact hk
      · exact h.1
    · intro h
      by_cases hx : x = k
      · exact Or.inl hx
      · exact Or.inr ⟨h, by simpa using hx⟩

theorem lru_map_update_keys (m : List (K × V)) (k : K) (v : V) :
    (m.map (fun p => if p.1 = k then (p.1, v) else p)).map Prod.fst = m.map Prod.fst := by
  rw [List.map_map]
  apply List.map_congr_left
  intro p _
  by_cases h : p.1 = k <;> simp [h]

/-- Every call of `putElement` on a well-formed cache returns; the cache it
leaves is well-formed, has the same capacity, and its key list is given by
the branch taken. -/
theorem lru_put_spec (c : LRUCache K V) (k : K) (v : V) (hwf : c.WellFormed) :
    ∃ c', c.putElement k v = some c' ∧ c'.WellFormed ∧ c'.cache_size_ = c.cache_size_ ∧
      (c.cache_map_.length ≤ c.cache_size_ → c'.cache_map_.length ≤ c.cache_size_) ∧
      c'.cache_list_ =
        (if c.isCached k = true then k :: c.cache_list_.filter (fun x => x ≠ k)
         else if c.cache_map_.length ≥ c.cache_size_ then (k :: c.cache_list_).dropLast
         else k :: c.cache_list_) := by
  by_cases hc : c.isCached k = true
  · have hk : k ∈ c.cache_list_ := (hwf.2.2 k).2 ((lru_isCached_iff c k).1 hc)
    refine ⟨_, lru_put_hit c k v hwf hc,
      lru_front_wf c k _ hwf hk (lru_map_update_keys _ k v), rfl, ?_, by rw [if_pos hc]⟩
    intro h
    simpa using h
  · have hc' : c.isCached k = false := by simpa using hc
    have hknot := lru_not_mem_of_not_cached c k hwf hc'
    by_cases hfull : c.cache_map_.length ≥ c.cache_size_
    · have hnd : (k :: c.cache_list_).Nodup := List.nodup_cons.2 ⟨hknot, hwf.1⟩
      have hback : (k :: c.cache_list_).getLast? = some (c.cache_list_.getLast?.getD k) :=
        List.getLast?_cons
      have hlist := nodup_dropLast_eq_filter _ _ hnd hback
      have hwf' : LRUCache.WellFormed
          { cache_size_ := c.cache_size_
            cache_list_ := (k :: c.cache_list_).dropLast
            cache_map_ := ((k, v) :: c.cache_map_).filter
              (fun p => p.1 ≠ c.cache_list_.getLast?.getD k) } := by
        refine ⟨?_, ?_, ?_⟩
        · show ((k :: c.cache_list_).dropLast).Nodup
          rw [hlist]; exact hnd.filter _
        · show ((((k, v) :: c.cache_map_).filter
            (fun p => p.1 ≠ c.cache_list_.getLast?.getD k)).map Prod.fst).Nodup
          rw [map_fst_filter_ne]
          apply List.Nodup.filter
          rw [List.map_cons]
          exact List.nodup_cons.2 ⟨fun h => hknot ((hwf.2.2 k).2 h), hwf.2.1⟩
        · intro x
          show x ∈ (k :: c.cache_list_).dropLast ↔
            x ∈ (((k, v) :: c.cache_map_).filter
              (fun p => p.1 ≠ c.cache_list_.getLast?.getD k)).map Prod.fst
          rw [hlist, map_fst_filter_ne, List.mem_filter, List.mem_filter, List.map_cons,
            List.mem_cons, List.mem_cons, hwf.2.2 x]
      refine ⟨_, lru_put_full c k v hc' hfull, hwf', rfl, ?_, by rw [if_neg hc, if_pos hfull]⟩
      intro hle
      have h1 := lru_wf_length _ hwf'
      have h2 := lru_wf_length c hwf
      dsimp only at h1 ⊢
      rw [List.length_dropLast, List.length_cons, Nat.add_sub_cancel] at h1
      omega
    · have hroom : c.cache_map_.length < c.cache_size_ := by omega
      refine ⟨_, lru_put_room c k v hc' hroom, ?_, rfl, ?_, by rw [if_neg hc, if_neg hfull]⟩
      · refine ⟨List.nodup_cons.2 ⟨hknot, hwf.1⟩, ?_, ?_⟩
        · show (((k, v) :: c.cache_map_).map Prod.fst).Nodup
          rw [List.map_cons]
          exact List.nodup_cons.2 ⟨fun h => hknot ((hwf.2.2 k).2 h), hwf.2.1⟩
        · intro x
          show x ∈ k :: c.cache_list_ ↔ x ∈ ((k, v) :: c.cache_map_).map Prod.fst
          rw [List.map_cons, List.mem_cons, List.mem_cons, hwf.2.2 x]
      · intro _
        show ((k, v) :: c.cache_map_).length ≤ c.cache_size_
        rw [List.length_cons]
        omega

/-- Any sequence of `putElement` calls on a well-formed cache within its
capacity returns and leaves such a cache. -/
theorem lru_putAll_spec (ops : List (K × V)) :
    ∀ c : LRUCache K V, c.WellFormed → c.cache_map_.length ≤ c.cache_size_ →
      ∃ c', c.putAll ops = some c' ∧ c'.WellFormed ∧ c'.cache_size_ = c.cache_size_ ∧
        c'.cache_map_.length ≤ c.cache_size_ := by
  induction ops with
  | nil => intro c hwf hle; exact ⟨c, rfl, hwf, rfl, hle⟩
  | cons op rest ih =>
    intro c hwf hle
    obtain ⟨c1, h1, hwf1, hs1, hle1, _⟩ := lru_put_spec c op.1 op.2 hwf
    obtain ⟨c', h2, hwf2, hs2, hle2⟩ := ih c1 hwf1 (by rw [hs1]; exact hle1 hle)
    refine ⟨c', ?_, hwf2, by rw [hs2, hs1], by rw [← hs1]; exact hle2⟩
    cases op with
    | mk key element =>
      simp only [LRUCache.putAll]
      simp only at h1
      rw [h1]
      exact h2

end CacheInvariant

/-! ### C6: the capacity bound -/

/-- C6. Starting from the empty `LRUCache` of capacity `C` (any `C ≥ 0`), every
finite sequence of `putElement` calls returns, and after every call (after
the first `n` calls, for every `n`) the number of cached keys is at most `C`. -/
theorem C6_capacity_bound {K V : Type} [DecidableEq K] (C : Nat) (ops : List (K × V))
    (n : Nat) :
    ∃ c, (LRUCache.new C : LRUCache K V).putAll (ops.take n) = some c ∧
      c.cache_map_.length ≤ C ∧ c.cache_list_.length ≤ C := by
  obtain ⟨c, h, hwf, _, hle⟩ :=
    lru_putAll_spec (ops.take n) (LRUCache.new C : LRUCache K V) (lru_new_wf C)
      (by simp [LRUCache.new])
  refine ⟨c, h, hle, ?_⟩
  rw [lru_wf_length c hwf]
  exact hle

/-! ### The key list is the history in order of last access -/

section CacheHistory

variable {K V : Type} [DecidableEq K]

omit [DecidableEq K] in
theorem take_eq_self_of_length_lt {α : Type} (r : List α) (n : Nat)
    (h : (r.take n).length < n) : r.take n = r := by
  rw [List.length_take] at h
  exact List.take_of_length_le (by omega)

theorem mem_recencyOf (t : List K) (x : K) : x ∈ LRUCache.recencyOf t ↔ x ∈ t := by
  induction t with
  | nil => simp [LRUCache.recencyOf]
  | cons k earlier ih =>
    rw [LRUCache.recencyOf, List.mem_cons, List.mem_cons, List.mem_filter, ih]
    constructor
    · rintro (h | h)
      · exact Or.inl h
      · exact Or.inr h.1
    · rintro (h | h)
      · exact Or.inl h
      · by_cases hx : x = k
        · exact Or.inl hx
        · exact Or.inr ⟨h, by simpa using hx⟩

theorem recencyOf_nodup (t : List K) : (LRUCache.recencyOf t).Nodup := by
  induction t with
  | nil => exact List.nodup_nil
  | cons k earlier ih =>
    rw [LRUCache.recencyOf]
    apply List.nodup_cons.2
    refine ⟨?_, ih.filter _⟩
    intro hmem
    have := (List.mem_filter.1 hmem).2
    simp at this

/-- The key list after an access to a cached key `k`. -/
theorem recency_step_hit (r : List K) (k : K) (C : Nat) (hr : r.Nodup) (hk : k ∈ r.take C) :
    k :: (r.take C).filter (fun x => x ≠ k) = (k :: r.filter (fun x => x ≠ k)).take C := by
  cases C with
  | zero => simp at hk
  | succ n => rw [List.take_succ_cons, take_filter_of_mem k r n hr hk]

/-- The key list after a `putElement` of an uncached key into a full cache. -/
theorem recency_step_full (r : List K) (k : K) (C : Nat) (hk : k ∉ r.take C)
    (hlen : (r.take C).length = C) :
    (k :: r.take C).dropLast = (k :: r.filter (fun x => x ≠ k)).take C := by
  rw [List.dropLast_eq_take, List.length_cons, hlen, Nat.add_sub_cancel]
  cases C with
  | zero => simp
  | succ n =>
    rw [List.take_succ_cons, List.take_succ_cons, List.take_take, Nat.min_eq_left (by omega)]
    have hk' : k ∉ r.take n := by
      intro h
      apply hk
      have hsub : (r.take n).Sublist (r.take (n + 1)) := by
        have h1 : r.take n = (r.take (n + 1)).take n := by
          rw [List.take_take, Nat.min_eq_left (by omega)]
        rw [h1]
        exact List.take_sublist _ _
      exact hsub.subset h
    rw [take_filter_of_not_mem k r n hk']

/-- The key list after a `putElement` of an uncached key with room left. -/
theorem recency_step_room (r : List K) (k : K) (C : Nat) (hk : k ∉ r.take C)
    (hlen : (r.take C).length < C) :
    k :: r.take C = (k :: r.filter (fun x => x ≠ k)).take C := by
  have hr : r.take C = r := take_eq_self_of_length_lt r C hlen
  rw [hr] at hk hlen
  rw [hr, filter_ne_of_not_mem r k hk]
  cases C with
  | zero => omega
  | succ n =>
    rw [List.take_succ_cons, List.take_of_length_le (by omega)]

/-- A cache built from the empty cache of capacity `C` is well-formed, holds at
most `C` keys, and its key list is the first `C` keys of the history in order
of last access, most recent first. -/
theorem lru_built_spec [Inhabited V] (C : Nat) (t : List K) (c : LRUCache K V)
    (hb : LRUCache.Built C t c) :
    c.WellFormed ∧ c.cache_size_ = C ∧ c.cache_map_.length ≤ C ∧
      c.cache_list_ = (LRUCache.recencyOf t).take C := by
  induction hb with
  | empty => exact ⟨lru_new_wf C, rfl, by simp [LRUCache.new], by simp [LRUCache.new, LRUCache.recencyOf]⟩
  | put t c c' key element _ hput ih =>
    obtain ⟨hwf, hsize, hle, hlist⟩ := ih
    obtain ⟨c1, h1, hwf1, hs1, hle1, hl1⟩ := lru_put_spec c key element hwf
    rw [hput] at h1
    cases h1
    refine ⟨hwf1, by rw [hs1, hsize], by rw [← hsize]; exact hle1 (by rw [hsize]; exact hle), ?_⟩
    rw [hl1, LRUCache.recencyOf]
    have hlen := lru_wf_length c hwf
    by_cases hc : c.isCached key = true
    · rw [if_pos hc, hlist]
      have hk : key ∈ c.cache_list_ := (hwf.2.2 key).2 ((lru_isCached_iff c key).1 hc)
      rw [hlist] at hk
      exact recency_step_hit _ key C (recencyOf_nodup t) hk
    · have hc' : c.isCached key = false := by simpa using hc
      have hk := lru_not_mem_of_not_cached c key hwf hc'
      rw [hlist] at hk hlen
      rw [if_neg hc, hlist]
      by_cases hfull : c.cache_map_.length ≥ c.cache_size_
      · rw [if_pos hfull]
        exact recency_step_full _ key C hk (by omega)
      · rw [if_neg hfull]
        exact recency_step_room _ key C hk (by omega)
  | get t c c' key element _ hcached hget ih =>
    obtain ⟨hwf, hsize, hle, hlist⟩ := ih
    obtain ⟨v, _, hg⟩ := lru_get_hit c key hwf hcached
    rw [hget] at hg
    simp only [Option.some.injEq, Prod.mk.injEq] at hg
    obtain ⟨_, hc'⟩ := hg
    subst hc'
    have hk : key ∈ c.cache_list_ := (hwf.2.2 key).2 ((lru_isCached_iff c key).1 hcached)
    refine ⟨lru_front_wf c key c.cache_map_ hwf hk rfl, hsize, hle, ?_⟩
    show key :: c.cache_list_.filter (fun x => x ≠ key) = (LRUCache.recencyOf (key :: t)).take C
    rw [LRUCache.recencyOf, hlist]
    rw [hlist] at hk
    exact recency_step_hit _ key C (recencyOf_nodup t) hk

/-- The keys ahead of `k` in the order of last access were all accessed after
the last access to `k`. -/
theorem recency_before_subset (k : K) (t : List K) (t2 : List K) :
    ∀ x ∈ (LRUCache.recencyOf (t2 ++ k :: t)).takeWhile (fun y => y ≠ k),
      x ∈ t2.filter (fun y => y ≠ k) := by
  induction t2 with
  | nil =>
    intro x hx
    rw [List.nil_append, LRUCache.recencyOf, takeWhile_ne_cons_self] at hx
    simp at hx
  | cons a rest ih =>
    intro x hx
    rw [List.cons_append, LRUCache.recencyOf] at hx
    by_cases ha : a = k
    · subst ha
      rw [takeWhile_ne_cons_self] at hx
      simp at hx
    · rw [takeWhile_ne_cons_of_ne _ _ _ ha, takeWhile_filter_comm k a (fun h => ha h.symm)] at hx
      rw [filter_ne_cons_of_ne _ _ _ ha]
      rcases List.mem_cons.1 hx with h | h
      · rw [h]; exact List.mem_cons_self _ _
      · exact List.mem_cons_of_mem _ (ih x (List.mem_filter.1 h).1)

end CacheHistory

/-! ### C7: a key just accessed survives `C - 1` other keys -/

/-- C7. In an `LRUCache` of capacity `C ≥ 1` built from the empty cache, let `k`
be accessed (by `putElement(k, _)`, or by `getElement(k)` while cached) and
let a sequence of accesses follow (calls of `putElement`, and of `getElement`
on cached keys) that touches at most `C - 1` distinct keys other than `k`.
Then `k` is cached at every point of that sequence: with `seen` the accesses
made so far and `later` the ones still to come (both most recent first), the
cache `c` reached after `seen` has `k` cached. -/
theorem C7_recent_key_survives {K V : Type} [DecidableEq K] [Inhabited V] (C : Nat)
    (hC : 1 ≤ C) (k : K) (t seen later : List K) (c : LRUCache K V)
    (hb : LRUCache.Built C (seen ++ k :: t) c)
    (hd : (((later ++ seen).filter (fun y => y ≠ k)).dedup).length ≤ C - 1) :
    c.isCached k = true := by
  obtain ⟨hwf, _, _, hlist⟩ := lru_built_spec C _ c hb
  rw [lru_isCached_iff, ← hwf.2.2 k, hlist]
  apply mem_take_of_takeWhile_length
  · rw [mem_recencyOf]; simp
  · have hnd : ((LRUCache.recencyOf (seen ++ k :: t)).takeWhile (fun y => y ≠ k)).Nodup :=
      (List.takeWhile_sublist _).nodup (recencyOf_nodup _)
    have hsub : (LRUCache.recencyOf (seen ++ k :: t)).takeWhile (fun y => y ≠ k)
        ⊆ ((later ++ seen).filter (fun y => y ≠ k)).dedup := by
      intro x hx
      have hx' := recency_before_subset k t seen x hx
      rw [List.mem_filter] at hx'
      exact List.mem_dedup.2 (List.mem_filter.2 ⟨List.mem_append_right _ hx'.1, hx'.2⟩)
    have := (List.subperm_of_subset hnd hsub).length_le
    omega

/-- Witness of C7: capacity 2; `put 1`, then `put 2` (the access to `k = 2`),
then `put 3`, which evicts key 1 and touches one key other than 2. -/
theorem C7_recent_key_survives_witness :
    LRUCache.isCached
      ({ cache_size_ := 2, cache_list_ := [3, 2], cache_map_ := [(3, "c"), (2, "b")] } :
        LRUCache Nat String) 2 = true :=
  C7_recent_key_survives 2 (by decide) 2 [1] [3] [] _
    (LRUCache.Built.put [2, 1]
      { cache_size_ := 2, cache_list_ := [2, 1], cache_map_ := [(2, "b"), (1, "a")] } _ 3 "c"
      (LRUCache.Built.put [1]
        { cache_size_ := 2, cache_list_ := [1], cache_map_ := [(1, "a")] } _ 2 "b"
        (LRUCache.Built.put [] (LRUCache.new 2) _ 1 "a" LRUCache.Built.empty (by decide))
        (by decide))
      (by decide))
    (by decide)

/-! ### Lookups after an update -/

section CacheLookup

variable {K V : Type} [DecidableEq K]

theorem assoc_find_filter_ne (m : List (K × V)) (b k' : K) (h : k' ≠ b) :
    (m.filter (fun p => p.1 ≠ b)).find? (fun p => p.1 = k') = m.find? (fun p => p.1 = k') := by
  induction m with
  | nil => rfl
  | cons p ps ih =>
    by_cases hp : p.1 = b
    · have hpk : ¬ p.1 = k' := fun h' => h (h'.symm.trans hp)
      rw [List.filter_cons, List.find?_cons]
      simp only [hp, ne_eq, not_true_eq_false, decide_False, Bool.false_eq_true, if_false]
      rw [ih]
      simp [← hp, hpk]
    · rw [List.filter_cons]
      simp only [hp, ne_eq, not_false_eq_true, decide_True, if_true]
      rw [List.find?_cons, List.find?_cons, ih]

theorem assoc_find_update_ne (m : List (K × V)) (k k' : K) (v : V) (h : k' ≠ k) :
    ((m.map (fun p => if p.1 = k then (p.1, v) else p)).find? (fun p => p.1 = k')).map Prod.snd
      = (m.find? (fun p => p.1 = k')).map Prod.snd := by
  induction m with
  | nil => rfl
  | cons p ps ih =>
    rw [List.map_cons, List.find?_cons, List.find?_cons]
    by_cases hp : p.1 = k
    · subst hp
      have hd : decide (p.1 = k') = false := decide_eq_false (fun e => h e.symm)
      simp only [if_true, hd]
      exact ih
    · simp only [hp, if_false]
      by_cases hpk : p.1 = k'
      · simp [hpk]
      · simp only [hpk, decide_False]
        exact ih

theorem assoc_find_update_self (m : List (K × V)) (k : K) (v : V)
    (h : k ∈ m.map Prod.fst) :
    ((m.map (fun p => if p.1 = k then (p.1, v) else p)).find? (fun p => p.1 = k)).map Prod.snd
      = some v := by
  induction m with
  | nil => simp at h
  | cons p ps ih =>
    rw [List.map_cons, List.find?_cons]
    by_cases hp : p.1 = k
    · simp [hp]
    · have hk : k ∈ ps.map Prod.fst := by
        rw [List.map_cons, List.mem_cons] at h
        rcases h with h | h
        · exact absurd h.symm hp
        · exact h
      simp only [hp, if_false, decide_False]
      exact ih hk

end CacheLookup

/-- The result of `putElement` of a key that is not cached: the key list and the new key's
element in both branches. -/
theorem lru_put_miss_list {K V : Type} [DecidableEq K] (c : LRUCache K V) (k : K) (v : V)
    (hwf : c.WellFormed) (hmiss : c.isCached k = false) :
    (c.cache_list_ ≠ [] → c.cache_map_.length ≥ c.cache_size_ →
      ∃ c', c.putElement k v = some c' ∧ c'.cache_list_ = k :: c.cache_list_.dropLast ∧
        c'.lookup k = some v) ∧
    (c.cache_map_.length < c.cache_size_ →
      ∃ c', c.putElement k v = some c' ∧ c'.cache_list_ = k :: c.cache_list_ ∧
        c'.lookup k = some v) := by
  have hknot := lru_not_mem_of_not_cached c k hwf hmiss
  constructor
  · intro hne hfull
    have hbmem : c.cache_list_.getLast?.getD k ∈ c.cache_list_ := by
      cases h : c.cache_list_.getLast? with
      | none => exact absurd (List.getLast?_eq_none_iff.1 h) hne
      | some b =>
        obtain ⟨ys, hys⟩ := List.getLast?_eq_some_iff.1 h
        rw [hys]; simp
    have hbk : c.cache_list_.getLast?.getD k ≠ k := fun h => hknot (h ▸ hbmem)
    refine ⟨_, lru_put_full c k v hmiss hfull, List.dropLast_cons_of_ne_nil hne, ?_⟩
    show ((((k, v) :: c.cache_map_).filter
      (fun p => p.1 ≠ c.cache_list_.getLast?.getD k)).find? (fun p => p.1 = k)).map Prod.snd
        = some v
    rw [assoc_find_filter_ne _ _ k (fun e => hbk e.symm), List.find?_cons]
    simp
  · intro hroom
    refine ⟨_, lru_put_room c k v hmiss hroom, rfl, ?_⟩
    show (((k, v) :: c.cache_map_).find? (fun p => p.1 = k)).map Prod.snd = some v
    rw [List.find?_cons]
    simp

/-! ### C8: `putElement` of a key that is not cached -/

/-- C8. On a well-formed `LRUCache` and a key `k` that is not cached:
with capacity `C ≥ 1` and exactly `C` keys, `putElement(k, v)` removes exactly
the key `back` at the back of the key list, keeps every other key with its
element, puts `k` with element `v` at the front, and the cache still holds
`C` keys; with fewer than `C` keys it puts `k` at the front and removes
nothing. For a cache built from the empty cache the key list is the history in
order of last access, so `back` is the cached key whose last `putElement` or
`getElement` is the oldest. -/
theorem C8_put_miss {K V : Type} [DecidableEq K] [Inhabited V] (c : LRUCache K V) (k : K)
    (v : V) (hwf : c.WellFormed) (hmiss : c.isCached k = false) :
    (1 ≤ c.cache_size_ → c.cache_map_.length = c.cache_size_ →
      ∃ c' back, c.cache_list_.getLast? = some back ∧
        c.putElement k v = some c' ∧
        c'.cache_list_ = k :: c.cache_list_.dropLast ∧
        c'.isCached back = false ∧
        (∀ k', k' ≠ k → k' ≠ back → c'.lookup k' = c.lookup k') ∧
        c'.lookup k = some v ∧
        c'.cache_map_.length = c.cache_size_) ∧
    (c.cache_map_.length < c.cache_size_ →
      ∃ c', c.putElement k v = some c' ∧
        c'.cache_list_ = k :: c.cache_list_ ∧
        (∀ k', k' ≠ k → c'.lookup k' = c.lookup k') ∧
        c'.lookup k = some v ∧
        c'.cache_map_.length = c.cache_map_.length + 1) ∧
    (∀ t, LRUCache.Built c.cache_size_ t c →
      c.cache_list_ = (LRUCache.recencyOf t).take c.cache_size_) := by
  have hknot := lru_not_mem_of_not_cached c k hwf hmiss
  refine ⟨?_, ?_, ?_⟩
  · intro hC hfull
    have hlen := lru_wf_length c hwf
    have hne : c.cache_list_ ≠ [] := by
      intro h
      rw [h] at hlen
      simp only [List.length_nil] at hlen
      omega
    obtain ⟨back, hback⟩ : ∃ back, c.cache_list_.getLast? = some back := by
      cases h : c.cache_list_.getLast? with
      | none => exact absurd (List.getLast?_eq_none_iff.1 h) hne
      | some b => exact ⟨b, rfl⟩
    have hbmem : back ∈ c.cache_list_ := by
      obtain ⟨ys, hys⟩ := List.getLast?_eq_some_iff.1 hback
      rw [hys]; simp
    have hbk : back ≠ k := fun h => hknot (h ▸ hbmem)
    have hput := lru_put_full c k v hmiss (by omega)
    rw [hback] at hput
    simp only [Option.getD_some] at hput
    obtain ⟨c1, h1, hwf1, _, _, _⟩ := lru_put_spec c k v hwf
    rw [hput] at h1
    cases h1
    refine ⟨_, back, hback, hput, List.dropLast_cons_of_ne_nil hne, ?_, ?_, ?_, ?_⟩
    · rw [← Bool.not_eq_true, lru_isCached_iff]
      show back ∉ (((k, v) :: c.cache_map_).filter (fun p => p.1 ≠ back)).map Prod.fst
      rw [map_fst_filter_ne]
      intro h
      have := (List.mem_filter.1 h).2
      simp at this
    · intro k' hk' hkb
      show ((((k, v) :: c.cache_map_).filter (fun p => p.1 ≠ back)).find?
        (fun p => p.1 = k')).map Prod.snd = c.lookup k'
      rw [assoc_find_filter_ne _ back k' hkb, List.find?_cons]
      have hd : decide (k = k') = false := decide_eq_false (fun e => hk' e.symm)
      simp only [hd]
      rfl
    · show ((((k, v) :: c.cache_map_).filter (fun p => p.1 ≠ back)).find?
        (fun p => p.1 = k)).map Prod.snd = some v
      rw [assoc_find_filter_ne _ back k (fun e => hbk e.symm), List.find?_cons]
      simp
    · have h2 := lru_wf_length _ hwf1
      dsimp only at h2 ⊢
      rw [List.length_dropLast, List.length_cons, Nat.add_sub_cancel] at h2
      omega
  · intro hroom
    refine ⟨_, lru_put_room c k v hmiss hroom, rfl, ?_, ?_, rfl⟩
    · intro k' hk'
      show (((k, v) :: c.cache_map_).find? (fun p => p.1 = k')).map Prod.snd = c.lookup k'
      rw [List.find?_cons]
      have hd : decide (k = k') = false := decide_eq_false (fun e => hk' e.symm)
      simp only [hd]
      rfl
    · show (((k, v) :: c.cache_map_).find? (fun p => p.1 = k)).map Prod.snd = some v
      rw [List.find?_cons]
      simp
  · intro t hb
    exact (lru_built_spec _ t c hb).2.2.2

theorem twoKeys_wellFormed : LRUCache.twoKeys.WellFormed :=
  ⟨by decide, by decide, by intro k; simp [LRUCache.twoKeys]⟩

/-- Witness of C8: the full cache `twoKeys` of capacity 2, holding keys 2
(front) and 1 (back), and the new key 3. -/
theorem C8_put_miss_witness :
    (1 ≤ LRUCache.twoKeys.cache_size_ →
      LRUCache.twoKeys.cache_map_.length = LRUCache.twoKeys.cache_size_ →
      ∃ c' back, LRUCache.twoKeys.cache_list_.getLast? = some back ∧
        LRUCache.twoKeys.putElement 3 "c" = some c' ∧
        c'.cache_list_ = 3 :: LRUCache.twoKeys.cache_list_.dropLast ∧
        c'.isCached back = false ∧
        (∀ k', k' ≠ 3 → k' ≠ back → c'.lookup k' = LRUCache.twoKeys.lookup k') ∧
        c'.lookup 3 = some "c" ∧
        c'.cache_map_.length = LRUCache.twoKeys.cache_size_) ∧
    LRUCache.twoKeys.putElement 3 "c"
      = some { cache_size_ := 2, cache_list_ := [3, 2], cache_map_ := [(3, "c"), (2, "b")] } :=
  ⟨(C8_put_miss LRUCache.twoKeys 3 "c" twoKeys_wellFormed (by decide)).1,
    by decide⟩

/-! ### C9: `putElement` makes its key the most recent one -/

/-- C9. On a well-formed `LRUCache` of capacity `C ≥ 1`, for every key `k` and
element `v`: `putElement(k, v)` returns; afterwards `isCached(k)` holds, `k`
is the front of the key list and `getElement(k)` returns `v` (leaving the
cache as it is). When `k` was already cached, every other key keeps its
element, the same keys are cached, the other keys keep their relative order
in the key list and the number of keys is unchanged. -/
theorem C9_put_then_get {K V : Type} [DecidableEq K] [Inhabited V] (c : LRUCache K V)
    (k : K) (v : V) (hwf : c.WellFormed) (hC : 1 ≤ c.cache_size_) :
    ∃ c', c.putElement k v = some c' ∧
      c'.isCached k = true ∧
      c'.cache_list_.head? = some k ∧
      c'.getElement k = some (v, c') ∧
      (c.isCached k = true →
        (∀ k', k' ≠ k → c'.lookup k' = c.lookup k') ∧
        (∀ k', c'.isCached k' = c.isCached k') ∧
        c'.cache_list_.filter (fun x => x ≠ k) = c.cache_list_.filter (fun x => x ≠ k) ∧
        c'.cache_map_.length = c.cache_map_.length) := by
  have hget : ∀ c' : LRUCache K V, c'.cache_list_.head? = some k → c'.lookup k = some v →
      c'.getElement k = some (v, c') := by
    intro c' hhead hlook
    unfold LRUCache.getElement LRUCache.moveToFront
    cases hl : c'.cache_list_ with
    | nil => rw [hl] at hhead; cases hhead
    | cons front tl =>
      rw [hl] at hhead
      simp only [List.head?_cons, Option.some.injEq] at hhead
      simp only [hhead, if_true, hlook]
  by_cases hc : c.isCached k = true
  · have hkeys : k ∈ c.cache_map_.map Prod.fst := (lru_isCached_iff c k).1 hc
    have hlook : LRUCache.lookup
        { c with
          cache_list_ := k :: c.cache_list_.filter (fun x => x ≠ k)
          cache_map_ := c.cache_map_.map (fun p => if p.1 = k then (p.1, v) else p) } k
        = some v := assoc_find_update_self c.cache_map_ k v hkeys
    have hcached : ∀ k', LRUCache.isCached
        { c with
          cache_list_ := k :: c.cache_list_.filter (fun x => x ≠ k)
          cache_map_ := c.cache_map_.map (fun p => if p.1 = k then (p.1, v) else p) } k'
        = c.isCached k' := by
      intro k'
      rw [Bool.eq_iff_iff, lru_isCached_iff, lru_isCached_iff]
      show k' ∈ (c.cache_map_.map (fun p => if p.1 = k then (p.1, v) else p)).map Prod.fst ↔ _
      rw [lru_map_update_keys]
    refine ⟨_, lru_put_hit c k v hwf hc, by rw [hcached k, hc], rfl, hget _ rfl hlook, ?_⟩
    intro _
    refine ⟨fun k' hk' => assoc_find_update_ne c.cache_map_ k k' v hk', hcached, ?_, ?_⟩
    · show (k :: c.cache_list_.filter (fun x => x ≠ k)).filter (fun x => x ≠ k)
        = c.cache_list_.filter (fun x => x ≠ k)
      rw [filter_ne_cons_self, List.filter_filter]
      simp
    · show (c.cache_map_.map (fun p => if p.1 = k then (p.1, v) else p)).length = _
      rw [List.length_map]
  · have hmiss : c.isCached k = false := by simpa using hc
    have h8 := lru_put_miss_list c k v hwf hmiss
    by_cases hfull : c.cache_map_.length ≥ c.cache_size_
    · have hlen := lru_wf_length c hwf
      have hne : c.cache_list_ ≠ [] := by
        intro h
        rw [h] at hlen
        simp only [List.length_nil] at hlen
        omega
      obtain ⟨c', hput, hlist, hlook⟩ := h8.1 hne hfull
      refine ⟨c', hput, ?_, by rw [hlist]; rfl, hget c' (by rw [hlist]; rfl) hlook, ?_⟩
      · cases h : c'.isCached k with
        | true => rfl
        | false => rw [(lru_lookup_none_iff c' k).2 h] at hlook; cases hlook
      · intro h; exact absurd h hc
    · obtain ⟨c', hput, hlist, hlook⟩ := h8.2 (by omega)
      refine ⟨c', hput, ?_, by rw [hlist]; rfl, hget c' (by rw [hlist]; rfl) hlook, ?_⟩
      · cases h : c'.isCached k with
        | true => rfl
        | false => rw [(lru_lookup_none_iff c' k).2 h] at hlook; cases hlook
      · intro h; exact absurd h hc

/-- Witness of C9: `putElement(1, "z")` on the cache `twoKeys`, where key 1 is
cached at the back. -/
theorem C9_put_then_get_witness :
    ∃ c', LRUCache.twoKeys.putElement 1 "z" = some c' ∧
      c'.isCached 1 = true ∧
      c'.cache_list_.head? = some 1 ∧
      c'.getElement 1 = some ("z", c') ∧
      (LRUCache.twoKeys.isCached 1 = true →
        (∀ k', k' ≠ 1 → c'.lookup k' = LRUCache.twoKeys.lookup k') ∧
        (∀ k', c'.isCached k' = LRUCache.twoKeys.isCached k') ∧
        c'.cache_list_.filter (fun x => x ≠ 1)
          = LRUCache.twoKeys.cache_list_.filter (fun x => x ≠ 1) ∧
        c'.cache_map_.length = LRUCache.twoKeys.cache_map_.length) :=
  C9_put_then_get LRUCache.twoKeys 1 "z" twoKeys_wellFormed (by decide)

/-! ### C10: `getElement` of a key that is not cached -/

/-- C10 (as stated, refuted). Key 3 is not cached in `twoKeys` (capacity 2, keys
2 and 1), yet `getElement(3)` returns an element, the empty (value-initialised)
one, and leaves a different cache: key 3 is at the front of the key list and
in the map, and the cache holds 3 keys, one more than its capacity. -/
theorem C10_get_miss_changes_cache :
    LRUCache.twoKeys.isCached 3 = false ∧
    LRUCache.twoKeys.getElement 3
      = some ("", { cache_size_ := 2, cache_list_ := [3, 2, 1],
                    cache_map_ := [(3, ""), (2, "b"), (1, "a")] }) := by
  decide

/-- The first step of `getElement` on a key that is not cached: `moveToFront`
puts the key at the front of a non-empty key list. -/
theorem lru_moveToFront_miss {K V : Type} [DecidableEq K] (c : LRUCache K V)
    (k : K) (hwf : c.WellFormed) (hmiss : c.isCached k = false) (hne : c.cache_list_ ≠ []) :
    c.moveToFront k = some { c with cache_list_ := k :: c.cache_list_ } := by
  have hknot := lru_not_mem_of_not_cached c k hwf hmiss
  unfold LRUCache.moveToFront
  cases hl : c.cache_list_ with
  | nil => exact absurd hl hne
  | cons front tl =>
    have hfk : front ≠ k := by
      intro h
      apply hknot
      rw [hl, h]
      exact List.mem_cons_self _ _
    have hfilter : (front :: tl).filter (fun x => x ≠ k) = front :: tl := by
      rw [← hl]
      exact filter_ne_of_not_mem _ k hknot
    simp only [if_neg hfk, hfilter]

/-- Every call of `getElement` with a defined result leaves a well-formed cache
well-formed (with `lru_put_spec`: the invariant holds in every cache the
operations of the class can reach). -/
theorem lru_getElement_wf {K V : Type} [DecidableEq K] [Inhabited V] (c c' : LRUCache K V)
    (k : K) (v : V) (hwf : c.WellFormed) (h : c.getElement k = some (v, c')) :
    c'.WellFormed := by
  by_cases hc : c.isCached k = true
  · obtain ⟨v', _, hg⟩ := lru_get_hit c k hwf hc
    rw [hg] at h
    simp only [Option.some.injEq, Prod.mk.injEq] at h
    rw [← h.2]
    exact lru_front_wf c k c.cache_map_ hwf
      ((hwf.2.2 k).2 ((lru_isCached_iff c k).1 hc)) rfl
  · have hmiss : c.isCached k = false := by simpa using hc
    have hknot := lru_not_mem_of_not_cached c k hwf hmiss
    unfold LRUCache.getElement at h
    by_cases hne : c.cache_list_ = []
    · unfold LRUCache.moveToFront at h
      rw [hne] at h
      cases h
    · rw [lru_moveToFront_miss c k hwf hmiss hne] at h
      have hlook : LRUCache.lookup { c with cache_list_ := k :: c.cache_list_ } k = none :=
        (lru_lookup_none_iff _ k).2 hmiss
      simp only [hlook, Option.some.injEq, Prod.mk.injEq] at h
      rw [← h.2]
      refine ⟨List.nodup_cons.2 ⟨hknot, hwf.1⟩, ?_, ?_⟩
      · show (((k, default) :: c.cache_map_).map Prod.fst).Nodup
        rw [List.map_cons]
        exact List.nodup_cons.2 ⟨fun h' => hknot ((hwf.2.2 k).2 h'), hwf.2.1⟩
      · intro x
        show x ∈ k :: c.cache_list_ ↔ x ∈ ((k, default) :: c.cache_map_).map Prod.fst
        rw [List.map_cons, List.mem_cons, List.mem_cons, hwf.2.2 x]

/-- C10 (amended). `getElement(k)` on a key `k` that is not cached does not
fail and does not leave the cache as it was: on a well-formed cache that
holds at least one key it returns a value-initialised element, after putting
`k` at the front of the key list and inserting `k` with that element into the
map, so the cache holds one key more, whatever its capacity; on an empty
cache `cache_list_.front()` is undefined and the call has no defined result. -/
theorem C10_get_miss_amended {K V : Type} [DecidableEq K] [Inhabited V] (c : LRUCache K V)
    (k : K) (hwf : c.WellFormed) (hmiss : c.isCached k = false) :
    (c.cache_list_ ≠ [] →
      c.getElement k
        = some (default,
            { cache_size_ := c.cache_size_
              cache_list_ := k :: c.cache_list_
              cache_map_ := (k, default) :: c.cache_map_ }) ∧
      ((k, (default : V)) :: c.cache_map_).length = c.cache_map_.length + 1) ∧
    (c.cache_list_ = [] → c.getElement k = none) := by
  constructor
  · intro hne
    refine ⟨?_, List.length_cons _ _⟩
    unfold LRUCache.getElement
    rw [lru_moveToFront_miss c k hwf hmiss hne]
    have hlook : LRUCache.lookup { c with cache_list_ := k :: c.cache_list_ } k = none :=
      (lru_lookup_none_iff _ k).2 hmiss
    simp only [hlook]
  · intro hnil
    unfold LRUCache.getElement LRUCache.moveToFront
    rw [hnil]

/-- Witness of the amended C10: key 3 on the cache `twoKeys`. -/
theorem C10_get_miss_amended_witness :
    (LRUCache.twoKeys.cache_list_ ≠ [] →
      LRUCache.twoKeys.getElement 3
        = some (default,
            { cache_size_ := LRUCache.twoKeys.cache_size_
              cache_list_ := 3 :: LRUCache.twoKeys.cache_list_
              cache_map_ := (3, default) :: LRUCache.twoKeys.cache_map_ }) ∧
      ((3, (default : String)) :: LRUCache.twoKeys.cache_map_).length
        = LRUCache.twoKeys.cache_map_.length + 1) ∧
    (LRUCache.twoKeys.cache_list_ = [] → LRUCache.twoKeys.getElement 3 = none) :=
  C10_get_miss_amended LRUCache.twoKeys 3 twoKeys_wellFormed (by decide)

/-! ### C11: a key set that fits the cache -/

section CacheSmall

variable {K V : Type} [DecidableEq K]

/-- When every key of the history lies in a set of at most `C` keys, the cache
holds exactly the keys of the history. -/
theorem lru_built_small_cached [Inhabited V] (C : Nat) (S : Finset K) (hS : S.card ≤ C)
    (t : List K) (c : LRUCache K V) (hb : LRUCache.Built C t c) (ht : ∀ k ∈ t, k ∈ S) (k : K) :
    c.isCached k = true ↔ k ∈ t := by
  obtain ⟨hwf, _, _, hlist⟩ := lru_built_spec C t c hb
  have hlen : (LRUCache.recencyOf t).length ≤ C := by
    have hsub : (LRUCache.recencyOf t).toFinset ⊆ S := by
      intro x hx
      rw [List.mem_toFinset, mem_recencyOf] at hx
      exact ht x hx
    have := Finset.card_le_card hsub
    rw [List.toFinset_card_of_nodup (recencyOf_nodup t)] at this
    omega
  rw [lru_isCached_iff, ← hwf.2.2 k, hlist, List.take_of_length_le hlen, mem_recencyOf]

end CacheSmall

/-- C11. Let an `LRUCache` of capacity `C` be built from the empty cache by calls
of `putElement` and of `getElement` on cached keys (history `t`, most recent
first), all of whose keys lie in a set `S` of at most `C` keys. Then every key
of the history is cached now, and a further `putElement` of a key of `S`
returns, leaves that key cached and evicts nothing: every key cached before
it is cached after it. -/
theorem C11_small_key_set_never_evicts {K V : Type} [DecidableEq K] [Inhabited V] (C : Nat)
    (S : Finset K) (hS : S.card ≤ C) (t : List K) (c : LRUCache K V)
    (hb : LRUCache.Built C t c) (ht : ∀ k ∈ t, k ∈ S) :
    (∀ k ∈ t, c.isCached k = true) ∧
    (∀ key element, key ∈ S → ∃ c', c.putElement key element = some c' ∧
      c'.isCached key = true ∧ ∀ k, c.isCached k = true → c'.isCached k = true) := by
  refine ⟨fun k hk => (lru_built_small_cached C S hS t c hb ht k).2 hk, ?_⟩
  intro key element hkey
  obtain ⟨hwf, _⟩ := lru_built_spec C t c hb
  obtain ⟨c', hput, _⟩ := lru_put_spec c key element hwf
  have hb' : LRUCache.Built C (key :: t) c' := LRUCache.Built.put t c c' key element hb hput
  have ht' : ∀ k ∈ key :: t, k ∈ S := by
    intro k hk
    rcases List.mem_cons.1 hk with h | h
    · rw [h]; exact hkey
    · exact ht k h
  refine ⟨c', hput, (lru_built_small_cached C S hS _ c' hb' ht' key).2 (List.mem_cons_self _ _), ?_⟩
  intro k hk
  exact (lru_built_small_cached C S hS _ c' hb' ht' k).2
    (List.mem_cons_of_mem _ ((lru_built_small_cached C S hS t c hb ht k).1 hk))

/-- Witness of C11: capacity 2, key set `{1, 2}`; after `putElement(1, "a")` and
`putElement(2, "b")` key 1 is still cached. -/
theorem C11_small_key_set_never_evicts_witness :
    LRUCache.isCached LRUCache.twoKeys 1 = true :=
  (C11_small_key_set_never_evicts 2 ({1, 2} : Finset Nat) (by decide) [2, 1] LRUCache.twoKeys
    (LRUCache.Built.put [1]
      { cache_size_ := 2, cache_list_ := [1], cache_map_ := [(1, "a")] } _ 2 "b"
      (LRUCache.Built.put [] (LRUCache.new 2) _ 1 "a" LRUCache.Built.empty (by decide))
      (by decide))
    (by decide)).1 1 (by decide)

/-! ### C12: Weighted Round Robin picks the first largest spare load -/

/-- The inner loop of `SchedWRR::selectServer` returns the first server of
`it :: rest` whose `max_load - cur_load` is largest. -/
theorem SchedWRR_inner_first_max (it : Int × RealServer) (rest : List (Int × RealServer)) :
    ∃ pre post, it :: rest = pre ++ SchedWRR.inner it rest :: post ∧
      (∀ v ∈ pre, v.2.max_load - v.2.cur_load <
        (SchedWRR.inner it rest).2.max_load - (SchedWRR.inner it rest).2.cur_load) ∧
      (∀ v ∈ post, v.2.max_load - v.2.cur_load ≤
        (SchedWRR.inner it rest).2.max_load - (SchedWRR.inner it rest).2.cur_load) ∧
      it.2.max_load - it.2.cur_load ≤
        (SchedWRR.inner it rest).2.max_load - (SchedWRR.inner it rest).2.cur_load := by
  induction rest generalizing it with
  | nil =>
    refine ⟨[], [], ?_, ?_, ?_, ?_⟩ <;> simp [SchedWRR.inner]
  | cons it2 rest ih =>
    by_cases h : it2.2.max_load - it2.2.cur_load > it.2.max_load - it.2.cur_load
    · have e : SchedWRR.inner it (it2 :: rest) = SchedWRR.inner it2 rest := by
        rw [SchedWRR.inner, if_pos h]
      rw [e]
      obtain ⟨pre, post, heq, hpre, hpost, hit⟩ := ih it2
      refine ⟨it :: pre, post, by rw [heq]; rfl, ?_, hpost, by omega⟩
      intro v hv
      rcases List.mem_cons.1 hv with hv | hv
      · subst hv; omega
      · exact hpre v hv
    · have e : SchedWRR.inner it (it2 :: rest) = SchedWRR.inner it rest := by
        rw [SchedWRR.inner, if_neg h]
      rw [e]
      obtain ⟨pre, post, heq, hpre, hpost, hit⟩ := ih it
      cases pre with
      | nil =>
        have hr : it = SchedWRR.inner it rest := (List.cons.inj heq).1
        have hp : rest = post := (List.cons.inj heq).2
        refine ⟨[], it2 :: post, by rw [← hr, hp]; rfl, by simp, ?_, hit⟩
        intro v hv
        rcases List.mem_cons.1 hv with hv | hv
        · subst hv; rw [← hr]; omega
        · exact hpost v hv
      | cons p pre =>
        have hp : it = p := (List.cons.inj heq).1
        have hrest : rest = pre ++ SchedWRR.inner it rest :: post := (List.cons.inj heq).2
        subst hp
        refine ⟨it :: it2 :: pre, post, ?_, ?_, hpost, hit⟩
        · rw [List.cons_append, List.cons_append, ← hrest]
        · intro v hv
          have hlt := hpre it (List.mem_cons_self _ _)
          rcases List.mem_cons.1 hv with hv | hv
          · subst hv; exact hlt
          · rcases List.mem_cons.1 hv with hv | hv
            · subst hv; omega
            · exact hpre v (List.mem_cons_of_mem _ hv)

/-- C12. For a pool in which some worker has capacity, `SchedWRR::selectServer`
returns the id of a worker `w` of the pool that has capacity and whose
`max_load - cur_load` is at least that of every worker with capacity; every
worker with capacity that comes before `w` in the iteration order has a
strictly smaller `max_load - cur_load`, so `w` is the first to attain the
maximum. -/
theorem C12_wrr_first_largest_spare (pool : SchedMap) (hcap : anyCapacity pool) :
    ∃ pre w post, pool = pre ++ w :: post ∧ SchedWRR.selectServer pool = w.1 ∧
      hasCapacity w.2 ∧
      (∀ v ∈ pool, hasCapacity v.2 →
        v.2.max_load - v.2.cur_load ≤ w.2.max_load - w.2.cur_load) ∧
      (∀ v ∈ pre, hasCapacity v.2 →
        v.2.max_load - v.2.cur_load < w.2.max_load - w.2.cur_load) := by
  induction pool with
  | nil =>
    obtain ⟨p, hp, _⟩ := hcap
    simp at hp
  | cons it rest ih =>
    rw [SchedWRR.selectServer]
    by_cases hl : lacksCapacity it.2 = true
    · rw [if_pos hl]
      have hno : ¬ hasCapacity it.2 := (lacks_iff_not_has it.2).1 hl
      have hrest : anyCapacity rest := by
        obtain ⟨p, hp, hc⟩ := hcap
        rcases List.mem_cons.1 hp with h | h
        · subst h; exact absurd hc hno
        · exact ⟨p, h, hc⟩
      obtain ⟨pre, w, post, heq, hsel, hw, hall, hpre⟩ := ih hrest
      refine ⟨it :: pre, w, post, by rw [heq]; rfl, hsel, hw, ?_, ?_⟩
      · intro v hv hc
        rcases List.mem_cons.1 hv with h | h
        · subst h; exact absurd hc hno
        · exact hall v h hc
      · intro v hv hc
        rcases List.mem_cons.1 hv with h | h
        · subst h; exact absurd hc hno
        · exact hpre v h hc
    · rw [if_neg hl]
      have hhas : hasCapacity it.2 := by
        by_contra hc
        exact hl ((lacks_iff_not_has it.2).2 hc)
      obtain ⟨pre, post, heq, hpre, hpost, _⟩ := SchedWRR_inner_first_max it rest
      refine ⟨pre, SchedWRR.inner it rest, post, heq, rfl,
        SchedWRR_inner_capacity it rest hhas, ?_, fun v hv _ => hpre v hv⟩
      intro v hv _
      rw [heq] at hv
      rcases List.mem_append.1 hv with h | h
      · exact le_of_lt (hpre v h)
      · rcases List.mem_cons.1 h with h | h
        · rw [h]
        · exact hpost v h

/-- Witness of C12: workers 4 (spare load 3), 5 (spare load 7) and 6 (spare
load 7); the answer is 5, the first of the two with the largest spare load. -/
theorem C12_wrr_first_largest_spare_witness :
    ∃ pre w post, spareLoadPool = pre ++ w :: post ∧ w.1 = 5 :=
  let ⟨pre, w, post, heq, hsel, _⟩ := C12_wrr_first_largest_spare spareLoadPool
    ⟨(4, ⟨"127.0.0.2", "50000", 5, 2⟩), by decide, by decide⟩
  ⟨pre, w, post, heq, hsel.symm.trans (by decide)⟩

/-! ### C13: Weighted Least Connection picks a smallest load ratio -/

/-- The inner loop of `SchedWLC::selectServer`, started on a server `it` with
`max_load > 0` over servers with non-negative loads, ends on a server whose
ratio `cur_load / max_load` is at most that of every server of `it :: rest`. -/
theorem SchedWLC_inner_min_ratio (it : Int × RealServer) (rest : List (Int × RealServer))
    (hmax : 0 < it.2.max_load) (hcur : 0 ≤ it.2.cur_load)
    (hrest : ∀ v ∈ rest, 0 ≤ v.2.cur_load) (hfit : productsFit (it :: rest)) :
    0 < (SchedWLC.inner it rest).2.max_load ∧ 0 ≤ (SchedWLC.inner it rest).2.cur_load ∧
      ∀ v ∈ it :: rest,
        (SchedWLC.inner it rest).2.cur_load * v.2.max_load
          ≤ v.2.cur_load * (SchedWLC.inner it rest).2.max_load := by
  induction rest generalizing it with
  | nil =>
    refine ⟨by simpa [SchedWLC.inner] using hmax, by simpa [SchedWLC.inner] using hcur, ?_⟩
    intro v hv
    rw [List.mem_singleton] at hv
    subst hv
    simp [SchedWLC.inner]
  | cons it2 rest ih =>
    have hcur2 : 0 ≤ it2.2.cur_load := hrest it2 (List.mem_cons_self _ _)
    have hrest2 : ∀ v ∈ rest, 0 ≤ v.2.cur_load := fun v hv => hrest v (List.mem_cons_of_mem _ hv)
    have hfit2 : productsFit (it2 :: rest) :=
      productsFit_subset _ _ hfit (fun p hp => List.mem_cons_of_mem _ hp)
    have hfit1 : productsFit (it :: rest) :=
      productsFit_subset _ _ hfit (fun p hp => by
        rcases List.mem_cons.1 hp with rfl | hp
        · exact List.mem_cons_self _ _
        · exact List.mem_cons_of_mem _ (List.mem_cons_of_mem _ hp))
    by_cases h : it2.2.max_load * it.2.cur_load > it2.2.cur_load * it.2.max_load
    · have e : SchedWLC.inner it (it2 :: rest) = SchedWLC.inner it2 rest := by
        rw [SchedWLC_inner_cons it it2 rest hfit, if_pos h]
      rw [e]
      have hmax2 : 0 < it2.2.max_load := by
        by_contra hle
        have h1 : it2.2.max_load * it.2.cur_load ≤ 0 :=
          Int.mul_nonpos_of_nonpos_of_nonneg (by omega) hcur
        have h2 : 0 ≤ it2.2.cur_load * it.2.max_load := Int.mul_nonneg hcur2 (le_of_lt hmax)
        omega
      obtain ⟨hrmax, hrcur, hall⟩ := ih it2 hmax2 hcur2 hrest2 hfit2
      refine ⟨hrmax, hrcur, ?_⟩
      intro v hv
      rcases List.mem_cons.1 hv with hv | hv
      · subst hv
        have E1 := hall it2 (List.mem_cons_self _ _)
        have h1 := mul_le_mul_of_nonneg_right E1 (le_of_lt hmax)
        have h2 := mul_le_mul_of_nonneg_right (le_of_lt h) (le_of_lt hrmax)
        have h3 : (SchedWLC.inner it2 rest).2.cur_load * v.2.max_load * it2.2.max_load
            ≤ v.2.cur_load * (SchedWLC.inner it2 rest).2.max_load * it2.2.max_load := by
          linarith
        exact le_of_mul_le_mul_right h3 hmax2
      · exact hall v hv
    · have e : SchedWLC.inner it (it2 :: rest) = SchedWLC.inner it rest := by
        rw [SchedWLC_inner_cons it it2 rest hfit, if_neg h]
      rw [e]
      obtain ⟨hrmax, hrcur, hall⟩ := ih it hmax hcur hrest2 hfit1
      refine ⟨hrmax, hrcur, ?_⟩
      intro v hv
      rcases List.mem_cons.1 hv with hv | hv
      · exact hall v (by rw [hv]; exact List.mem_cons_self _ _)
      · rcases List.mem_cons.1 hv with hv | hv
        · subst hv
          by_cases hv0 : 0 < v.2.max_load
          · have E1 := hall it (List.mem_cons_self _ _)
            have h1 := mul_le_mul_of_nonneg_right E1 (le_of_lt hv0)
            have h2 := mul_le_mul_of_nonneg_right (not_lt.1 h) (le_of_lt hrmax)
            have h3 : (SchedWLC.inner it rest).2.cur_load * v.2.max_load * it.2.max_load
                ≤ v.2.cur_load * (SchedWLC.inner it rest).2.max_load * it.2.max_load := by
              linarith
            exact le_of_mul_le_mul_right h3 hmax
          · have h1 : (SchedWLC.inner it rest).2.cur_load * v.2.max_load ≤ 0 :=
              Int.mul_nonpos_of_nonneg_of_nonpos hrcur (by omega)
            have h2 : 0 ≤ v.2.cur_load * (SchedWLC.inner it rest).2.max_load :=
              Int.mul_nonneg hcur2 (le_of_lt hrmax)
            omega
        · exact hall v (List.mem_cons_of_mem _ hv)

/-- C13 (as stated, refuted). Workers 4 (load 40000 of 70000) and 5 (load 30000
of 70000): all loads are non-negative and both workers have capacity. The
comparison of `SchedWLC::selectServer` is `70000 * 40000 > 30000 * 70000` in
`int`; the left product is 2800000000 and wraps to -1494967296, so the loop
stays on worker 4 and returns it, while worker 5 has the smaller ratio:
`40000 * 70000 > 30000 * 70000` as exact integers. -/
theorem C13_wlc_wrapping_product :
    (∀ v ∈ wrapPool, 0 ≤ v.2.cur_load) ∧ (∀ v ∈ wrapPool, hasCapacity v.2) ∧
    SchedWLC.selectServer wrapPool = some 4 ∧
    intMul 70000 40000 = -1494967296 ∧
    ¬ ∃ w ∈ wrapPool, SchedWLC.selectServer wrapPool = some w.1 ∧
      ∀ v ∈ wrapPool, hasCapacity v.2 →
        w.2.cur_load * v.2.max_load ≤ v.2.cur_load * w.2.max_load := by
  decide

/-- C13 (amended). For a pool whose workers all have `cur_load ≥ 0`, in which
some worker has capacity and whose products fit (every `max_load * cur_load`
of two workers of the pool lies in the range of `int`, as it does when all
loads are at most 46340), `SchedWLC::selectServer` returns the id of a worker
`w` of the pool with `w.cur_load * v.max_load ≤ v.cur_load * w.max_load` for
every worker `v` with capacity (products of exact integers). -/
theorem C13_wlc_minimal_ratio_amended (pool : SchedMap)
    (hcur : ∀ v ∈ pool, 0 ≤ v.2.cur_load) (hcap : anyCapacity pool)
    (hfit : productsFit pool) :
    ∃ w ∈ pool, SchedWLC.selectServer pool = some w.1 ∧
      ∀ v ∈ pool, hasCapacity v.2 →
        w.2.cur_load * v.2.max_load ≤ v.2.cur_load * w.2.max_load := by
  have hsel : SchedWLC.selectServer pool = some (SchedWLC.outer pool) := by
    cases pool with
    | nil =>
      obtain ⟨p, hp, _⟩ := hcap
      simp at hp
    | cons it rest => rfl
  rw [hsel]
  simp only [Option.some.injEq]
  clear hsel
  induction pool with
  | nil =>
    obtain ⟨p, hp, _⟩ := hcap
    simp at hp
  | cons it rest ih =>
    have hcur_it : 0 ≤ it.2.cur_load := hcur it (List.mem_cons_self _ _)
    have hcur_rest : ∀ v ∈ rest, 0 ≤ v.2.cur_load :=
      fun v hv => hcur v (List.mem_cons_of_mem _ hv)
    rw [SchedWLC.outer]
    by_cases hl : lacksCapacity it.2 = true
    · rw [if_pos hl]
      have hno : ¬ hasCapacity it.2 := (lacks_iff_not_has it.2).1 hl
      have hrest : anyCapacity rest := by
        obtain ⟨p, hp, hc⟩ := hcap
        rcases List.mem_cons.1 hp with h | h
        · subst h; exact absurd hc hno
        · exact ⟨p, h, hc⟩
      obtain ⟨w, hw, hsel, hall⟩ := ih hcur_rest hrest
        (productsFit_subset _ _ hfit (fun p hp => List.mem_cons_of_mem _ hp))
      refine ⟨w, List.mem_cons_of_mem _ hw, hsel, ?_⟩
      intro v hv hc
      rcases List.mem_cons.1 hv with h | h
      · subst h; exact absurd hc hno
      · exact hall v h hc
    · rw [if_neg hl]
      have hhas : hasCapacity it.2 := by
        by_contra hc
        exact hl ((lacks_iff_not_has it.2).2 hc)
      have hmax : 0 < it.2.max_load := by
        unfold hasCapacity RESERVED_CAPACITY at hhas
        omega
      obtain ⟨_, _, hall⟩ := SchedWLC_inner_min_ratio it rest hmax hcur_it hcur_rest hfit
      exact ⟨SchedWLC.inner it rest, SchedWLC_inner_mem it rest, rfl, fun v hv _ => hall v hv⟩

/-- Witness of C13: workers 4 (load 3 of 10) and 5 (load 1 of 5); the answer is
5, whose ratio 1/5 is below 3/10. -/
theorem C13_wlc_minimal_ratio_amended_witness : ∃ w ∈ ratioPool, w.1 = 5 :=
  let ⟨w, hw, hsel, _⟩ := C13_wlc_minimal_ratio_amended ratioPool (by decide)
    ⟨(4, ⟨"127.0.0.2", "50000", 10, 3⟩), by decide, by decide⟩ (by decide)
  have e : SchedWLC.selectServer ratioPool = some 5 := by decide
  ⟨w, hw, Option.some.inj (hsel.symm.trans e)⟩

/-! ### C14: Round Robin visits every worker in `N` calls -/

/-- On a pool whose workers all have capacity a call of `SchedRR::selectServer`
returns the id at position `count mod N` and adds one to the counter. -/
theorem SchedRR_selectServer_all_capacity (m : SchedMap) (hne : m ≠ []) (count : Nat)
    (hcap : ∀ p ∈ m, hasCapacity p.2) :
    SchedRR.selectServer m count
      = some (((m.map Prod.fst).getD (count % m.length) 0), count + 1) := by
  have hn : 0 < m.length := List.length_pos.2 hne
  have hlt : count % m.length < m.length := Nat.mod_lt _ hn
  have hget : m.get? (count % m.length) = some (m[count % m.length]) := by
    rw [List.get?_eq_getElem?, List.getElem?_eq_getElem hlt]
  have hl : ¬ lacksCapacity (m[count % m.length]).2 = true := by
    rw [lacks_iff_not_has]
    exact not_not.2 (hcap _ (List.getElem_mem _))
  unfold SchedRR.selectServer
  rw [if_neg (by omega)]
  simp only
  rw [SchedRR.loop, hget]
  simp only
  rw [if_neg hl, List.getD_eq_getElem?_getD, List.getElem?_map, List.getElem?_eq_getElem hlt]
  rfl

/-- The ids returned by `n` successive calls on pools with the same keys `keys`,
all of whose workers have capacity. -/
theorem SchedRR_calls_all_capacity (keys : List Int) (hne : keys ≠ [])
    (pools : Nat → SchedMap) (hkeys : ∀ j, (pools j).map Prod.fst = keys)
    (hcap : ∀ j, ∀ p ∈ pools j, hasCapacity p.2) :
    ∀ n j count, SchedRR.calls pools n j count
      = some ((List.range n).map (fun i => keys.getD ((count + i) % keys.length) 0)) := by
  intro n
  induction n with
  | zero => intro j count; rfl
  | succ n ih =>
    intro j count
    have hlen : (pools j).length = keys.length := by rw [← hkeys j, List.length_map]
    have hne' : pools j ≠ [] := by
      intro h
      rw [h] at hlen
      exact hne (List.length_eq_zero.1 hlen.symm)
    rw [SchedRR.calls, SchedRR_selectServer_all_capacity (pools j) hne' count (hcap j)]
    simp only
    rw [ih (j + 1) (count + 1), hkeys j, hlen, List.range_succ_eq_map, List.map_cons,
      List.map_map]
    simp only [Nat.add_zero]
    congr 2
    apply List.map_congr_left
    intro i _
    simp only [Function.comp, Nat.succ_eq_add_one]
    congr 2
    omega

/-- C14. Let the pool hold `N ≥ 1` workers under the pairwise distinct ids
`keys`, and let `N` successive calls of `SchedRR::selectServer` be made, each
on a pool with these ids in this order all of whose workers have capacity
(the loads may change between the calls), from any value `count` of the call
counter. The calls all return, the `N` ids returned are pairwise distinct, and
they are the ids of the pool: each worker is returned exactly once. -/
theorem C14_rr_visits_every_worker (keys : List Int) (hnodup : keys.Nodup)
    (hN : 1 ≤ keys.length) (pools : Nat → SchedMap)
    (hkeys : ∀ j, (pools j).map Prod.fst = keys)
    (hcap : ∀ j, ∀ p ∈ pools j, hasCapacity p.2) (count : Nat) :
    ∃ ids, SchedRR.calls pools keys.length 0 count = some ids ∧ ids.length = keys.length ∧
      ids.Nodup ∧ ids.Perm keys := by
  have hne : keys ≠ [] := by
    intro h
    rw [h] at hN
    simp at hN
  refine ⟨_, SchedRR_calls_all_capacity keys hne pools hkeys hcap keys.length 0 count, ?_⟩
  have hpos : ∀ i, (count + i) % keys.length < keys.length := fun i => Nat.mod_lt _ (by omega)
  have hval : ∀ i, keys.getD ((count + i) % keys.length) 0
      = keys.get ⟨(count + i) % keys.length, hpos i⟩ := by
    intro i
    rw [List.getD_eq_getElem?_getD, List.getElem?_eq_getElem (hpos i)]
    rfl
  have hnd : ((List.range keys.length).map
      (fun i => keys.getD ((count + i) % keys.length) 0)).Nodup := by
    apply List.Nodup.map_on _ (List.nodup_range _)
    intro x hx y hy hxy
    rw [List.mem_range] at hx hy
    rw [hval x, hval y] at hxy
    have hidx : (count + x) % keys.length = (count + y) % keys.length :=
      Fin.mk.inj ((List.Nodup.get_inj_iff hnodup).1 hxy)
    have h2 : x % keys.length = y % keys.length := Nat.ModEq.add_left_cancel' count hidx
    rwa [Nat.mod_eq_of_lt hx, Nat.mod_eq_of_lt hy] at h2
  have hlen : ((List.range keys.length).map
      (fun i => keys.getD ((count + i) % keys.length) 0)).length = keys.length := by
    rw [List.length_map, List.length_range]
  refine ⟨hlen, hnd, ?_⟩
  apply List.Subperm.perm_of_length_le
  · apply List.subperm_of_subset hnd
    intro x hx
    obtain ⟨i, _, hi⟩ := List.mem_map.1 hx
    rw [← hi, hval i]
    exact List.get_mem _ _ _
  · rw [hlen]

/-- Witness of C14: two workers 4 and 5 with capacity, counter 1; the two calls
return 5 and then 4. -/
theorem C14_rr_visits_every_worker_witness :
    ∃ ids, SchedRR.calls (fun _ => ratioPool) 2 0 1 = some ids ∧ ids.length = 2 ∧
      ids.Nodup ∧ ids.Perm [4, 5] :=
  C14_rr_visits_every_worker [4, 5] (by decide) (by decide) (fun _ => ratioPool)
    (fun _ => (by decide : ratioPool.map Prod.fst = [4, 5]))
    (fun _ => (by decide : ∀ p ∈ ratioPool, hasCapacity p.2)) 1

/-! ### C15: Source Hashing against its reference description -/

/-- The hash keeps the low twelve bits of the product; reducing the product
modulo `2^32` first does not change them. -/
theorem SchedSH_hashkey_eq (ip : Nat) : SchedSH.hashkey ip = (ip * 2654435761) &&& 4095 := by
  have h1 : ∀ x : Nat, x &&& 4095 = x % 2 ^ 12 := fun x => Nat.and_pow_two_sub_one_eq_mod x 12
  show ((ip * 2654435761) % 2 ^ 32) &&& 4095 = (ip * 2654435761) &&& 4095
  rw [h1, h1, Nat.mod_mod_of_dvd _ (by norm_num : 2 ^ 12 ∣ 2 ^ 32)]

/-- The loop of `SchedSH::selectServer`, entered at `k` steps after position `s`,
returns the first worker with capacity among those from there to the end of
the cyclic walk that starts at `s`, and -1 when there is none. -/
theorem SchedSH_loop_first (m : SchedMap) (s : Nat) (hs : s < m.length) :
    ∀ fuel k, k < m.length → m.length ≤ fuel + k →
      SchedSH.loop m s fuel ((s + k) % m.length)
        = some (match ((m.rotate s).drop k).find?
            (fun p => decide (p.2.cur_load < p.2.max_load - 1)) with
          | some p => p.1
          | none => -1) := by
  intro fuel
  induction fuel with
  | zero => intro k hk hf; omega
  | succ f ih =>
    intro k hk hf
    have hn : 0 < m.length := by omega
    have hlt : (s + k) % m.length < m.length := Nat.mod_lt _ hn
    have hget : m.get? ((s + k) % m.length) = some (m.get ⟨(s + k) % m.length, hlt⟩) := by
      rw [List.get?_eq_getElem?, List.getElem?_eq_getElem hlt]
      rfl
    have hstep : (if (s + k) % m.length + 1 = m.length then 0 else (s + k) % m.length + 1)
        = (s + k + 1) % m.length := by
      rw [cyc_wrap _ _ hlt, Nat.add_mod, Nat.mod_mod, ← Nat.add_mod]
    have hk' : k < (m.rotate s).length := by rw [List.length_rotate]; exact hk
    have hd : (m.rotate s).drop k
        = m.get ⟨(s + k) % m.length, hlt⟩ :: (m.rotate s).drop (k + 1) := by
      rw [List.drop_eq_getElem_cons hk', List.getElem_rotate]
      simp only [Nat.add_comm k s]
      rfl
    rw [SchedSH.loop, hget, hd]
    simp only
    rw [hstep]
    by_cases hl : lacksCapacity (m.get ⟨(s + k) % m.length, hlt⟩).2 = true
    · rw [if_pos hl]
      have hno : ¬ hasCapacity (m.get ⟨(s + k) % m.length, hlt⟩).2 :=
        (lacks_iff_not_has _).1 hl
      rw [List.find?_cons_of_neg _ (by simpa [hasCapacity, RESERVED_CAPACITY] using hno)]
      by_cases hb : (s + k + 1) % m.length = s
      · rw [if_pos hb]
        have hkn : k + 1 = m.length :=
          cyc_return m.length s k (by omega) (by rw [hb, Nat.mod_eq_of_lt hs])
        rw [List.drop_of_length_le (by rw [List.length_rotate]; omega)]
        rfl
      · rw [if_neg hb]
        have hk1 : k + 1 < m.length := by
          by_contra hge
          have : k + 1 = m.length := by omega
          apply hb
          rw [Nat.add_assoc, this, Nat.add_mod_right, Nat.mod_eq_of_lt hs]
        exact ih (k + 1) hk1 (by omega)
    · rw [if_neg hl]
      have hhas : hasCapacity (m.get ⟨(s + k) % m.length, hlt⟩).2 := by
        by_contra hc
        exact hl ((lacks_iff_not_has _).2 hc)
      rw [List.find?_cons_of_pos _ (by simpa [hasCapacity, RESERVED_CAPACITY] using hhas)]

/-- C15. Over a pool of `N ≥ 1` workers `SchedSH::selectServer` returns, and its
result is that of the reference description `SchedSH.reference`: 0 for an
address that is not a well-formed dotted quad, otherwise the first worker
with `cur_load < max_load - 1` on the cyclic walk from position
`((ip * 2654435761) & 4095) mod N`, or -1 when there is none. The result is a
function of the address and the pool alone. -/
theorem C15_sh_equals_reference (pool : SchedMap) (hN : 1 ≤ pool.length) (address : String) :
    SchedSH.selectServer pool address = some (SchedSH.reference pool address) := by
  unfold SchedSH.selectServer SchedSH.reference
  cases inet_pton address with
  | none => rfl
  | some ip =>
    simp only
    rw [if_neg (by omega), SchedSH_hashkey_eq]
    have hs : ((ip * 2654435761) &&& 4095) % pool.length < pool.length :=
      Nat.mod_lt _ (by omega)
    have := SchedSH_loop_first pool _ hs (pool.length + 1) 0 (by omega) (by omega)
    simp only [Nat.add_zero, Nat.mod_mod, List.drop_zero] at this
    exact this

/-- Witness of C15: the address 10.0.0.2 hashes to position 0 of a pool of two
workers, both with capacity; the answer is worker 4. -/
theorem C15_sh_equals_reference_witness :
    SchedSH.selectServer ratioPool "10.0.0.2" = some (SchedSH.reference ratioPool "10.0.0.2") :=
  C15_sh_equals_reference ratioPool (by decide) "10.0.0.2"

/-! ### Searching a header in a message -/

theorem afterFirst_skip (target pre tail : List Char) (h : occursWithin target pre tail = false) :
    afterFirst target (pre ++ tail) = afterFirst target tail := by
  induction pre with
  | nil => rfl
  | cons c cs ih =>
    rw [occursWithin, Bool.or_eq_false_iff] at h
    rw [List.cons_append, afterFirst, if_neg (by rw [← List.cons_append, h.1]; simp)]
    exact ih h.2

theorem afterFirst_here (target rest : List Char) (hne : target ≠ []) :
    afterFirst target (target ++ rest) = some rest := by
  cases target with
  | nil => exact absurd rfl hne
  | cons t ts =>
    have hp : (t :: ts).isPrefixOf (t :: (ts ++ rest)) = true := by
      rw [List.isPrefixOf_iff_prefix, ← List.cons_append]
      exact List.prefix_append _ _
    rw [List.cons_append, afterFirst, if_pos hp, ← List.cons_append, List.drop_left]

theorem lineBefore_line (v rest : List Char) (hv : '\r' ∉ v) :
    lineBefore (v ++ '\r' :: '\n' :: rest) = some v := by
  induction v with
  | nil => simp [lineBefore]
  | cons c v ih =>
    have hc : c ≠ '\r' := fun h => hv (by rw [h]; exact List.mem_cons_self _ _)
    have hv' : '\r' ∉ v := fun h => hv (List.mem_cons_of_mem _ h)
    have ih' := ih hv'
    cases v with
    | nil =>
      rw [List.cons_append, List.nil_append, lineBefore]
      simp only [hc, false_and, if_false]
      rw [List.nil_append] at ih'
      rw [ih']
      rfl
    | cons d v' =>
      rw [List.cons_append, List.cons_append, lineBefore]
      simp only [hc, false_and, if_false]
      rw [List.cons_append] at ih'
      rw [ih']
      rfl

/-- When the first occurrence of `target` in a message is followed by `value` and
a line end, `getHeaderInfo` returns `value`. -/
theorem getHeaderInfo_line (pre target value rest content : String) (hne : target ≠ "")
    (hfirst : occursWithin target.toList pre.toList
      (target ++ value ++ "\r\n" ++ rest).toList = false)
    (hv : '\r' ∉ value.toList) :
    getHeaderInfo (pre ++ (target ++ value ++ "\r\n" ++ rest)) content target = value := by
  have hne' : target.toList ≠ [] := by
    intro h
    apply hne
    apply String.ext
    exact h
  have e1 : (pre ++ (target ++ value ++ "\r\n" ++ rest)).toList
      = pre.toList ++ (target ++ value ++ "\r\n" ++ rest).toList := String.data_append _ _
  have e2 : (target ++ value ++ "\r\n" ++ rest).toList
      = target.toList ++ (value.toList ++ '\r' :: '\n' :: rest.toList) := by
    simp [String.toList, String.data_append]
  unfold getHeaderInfo
  rw [e1, afterFirst_skip _ _ _ hfirst, e2, afterFirst_here _ _ hne']
  simp only
  rw [lineBefore_line _ _ hv]
  rfl

/-! ### C4: routing of a worker response -/

/-- The value `getHeaderInfo` finds for a header text that has a first value in
the message, whatever the reference parameter held. -/
theorem getHeaderInfo_firstHeaderValue (msg name value content : String) (hne : name ≠ "")
    (h : firstHeaderValue msg name value) : getHeaderInfo msg content name = value := by
  obtain ⟨hcr, before, rest, hmsg, hocc⟩ := h
  rw [hmsg]
  exact getHeaderInfo_line before name value rest content hne hocc hcr

/-- C4 (as stated, refuted). Under Weighted Least Connection with two workers:
the client `127.0.0.1:40000` is dispatched to worker 6 and answered, which
leaves that pair in the members `target_ip_` and `target_port_`; the client
connects again from the same address and port and is dispatched to worker 6.
Then a message without the headers `Target-IP` and `Target-Port` arrives from
worker 6: `getTargetIP` and `getTargetPort` find nothing and leave the members
as they are, the pending entry matches the old pair, the message is written
to client descriptor 9, the entry is erased, the result is `SUCCESS` and the
load of worker 6 drops from 1 to 0. No pending entry equals a target pair of
that message, for it has none, and yet it is forwarded.
A corner of the same routine: a client whose connection is descriptor 0 is
dispatched to worker 6; the answer of worker 6 holds its target pair and the
pending entry matches, but `target_fd == 0` is the routine's sign for no
match: the entry is erased, nothing is written, the result is `MINOR_ERROR`
and the load of worker 6 stays 1. -/
theorem C4_stale_target_pair :
    Reach true wlcBalancer wlcRedispatched
      (Outstanding.sent (Outstanding.answered (Outstanding.sent (fun _ => 0) 6) 6) 6) ∧
    wlcRedispatched.request_map_
      = [("40000", { client_addr := "127.0.0.1", client_fd := 9 })] ∧
    wlcRedispatched.target_ip_ = "127.0.0.1" ∧ wlcRedispatched.target_port_ = "40000" ∧
    afterFirst "Target-IP: ".toList (aBareMessage 6).http_msg.toList = none ∧
    afterFirst "Target-Port: ".toList (aBareMessage 6).http_msg.toList = none ∧
    (handleResultFromServer wlcRedispatched (aBareMessage 6)).2
      = (Status.SUCCESS, [IOAction.write 9 (aBareMessage 6).http_msg, IOAction.close 9]) ∧
    (handleResultFromServer wlcRedispatched (aBareMessage 6)).1.request_map_ = [] ∧
    poolFind wlcRedispatched.server_pool_ 6
      = some { address := "127.0.0.3", port_num := "50000", max_load := 5, cur_load := 1 } ∧
    poolFind (handleResultFromServer wlcRedispatched (aBareMessage 6)).1.server_pool_ 6
      = some { address := "127.0.0.3", port_num := "50000", max_load := 5, cur_load := 0 } ∧
    handleRequestFromClient wlcBalancer aClientOnZero
      = some (wlcDispatchedOnZero, Status.SUCCESS, [IOAction.write 6 aClientOnZero.http_msg]) ∧
    wlcDispatchedOnZero.request_map_
      = [("40000", { client_addr := "127.0.0.1", client_fd := 0 })] ∧
    (handleResultFromServer wlcDispatchedOnZero (anAnswer 6)).2 = (Status.MINOR_ERROR, []) ∧
    (handleResultFromServer wlcDispatchedOnZero (anAnswer 6)).1.request_map_ = [] ∧
    poolFind (handleResultFromServer wlcDispatchedOnZero (anAnswer 6)).1.server_pool_ 6
      = some { address := "127.0.0.3", port_num := "50000", max_load := 5, cur_load := 1 } := by
  refine ⟨?_, by decide, by decide, by decide, by decide, by decide, by decide, by decide,
    by decide, by decide, by decide, by decide, by decide, by decide, by decide⟩
  have h1 : Reach true wlcBalancer wlcDispatched (Outstanding.sent (fun _ => 0) 6) :=
    Reach.client_forwarded wlcBalancer wlcDispatched (fun _ => 0) aClient 6
      aClient.http_msg Reach.start (by decide)
  have h2 : Reach true wlcBalancer wlcAnswered
      (Outstanding.answered (Outstanding.sent (fun _ => 0) 6) 6) :=
    Reach.server_message wlcDispatched (Outstanding.sent (fun _ => 0) 6) (anAnswer 6) h1
      (by decide) (by decide) (by intro _; decide)
  exact Reach.client_forwarded wlcAnswered wlcRedispatched _ aClient 6 aClient.http_msg h2
    (by decide)

/-- C4 (amended). `handleResultFromServer` on a message that was read successfully
and that holds both target headers: the first occurrence of `Target-IP: ` in
it is followed by `ip` and a line end, the first occurrence of
`Target-Port: ` by `port` and a line end (`ip`, `port` free of CR).
If some pending entry has key `port` and address `ip`, no pending client
descriptor is 0 and the write succeeds: the map
splits at the first such entry `e`, the payload is written to `e.client_fd`,
the map afterwards is the map without `e` (every other entry in place); when
the close succeeds too, the result is `SUCCESS` and the responding worker's
`cur_load` is one less, the other workers unchanged; and when the pending
`(key, address)` pairs are pairwise distinct, `e` is the only entry with the
target pair.
If no entry matches: nothing is written, the result is `MINOR_ERROR`, and the
request map and the pool are unchanged. -/
theorem C4_response_routing_amended (lb : LoadBalancer) (ev : ServerEvent) (ip port : String)
    (hread : 0 < ev.num_read)
    (hip : firstHeaderValue ev.http_msg "Target-IP: " ip)
    (hport : firstHeaderValue ev.http_msg "Target-Port: " port) :
    ((∃ x ∈ lb.request_map_, x.1 = port ∧ x.2.client_addr = ip) →
      (∀ x ∈ lb.request_map_, x.2.client_fd ≠ 0) →
      ev.write_ok = true →
      ∃ pre e post,
        lb.request_map_ = pre ++ e :: post ∧
        (∀ x ∈ pre, ¬ (x.1 = port ∧ x.2.client_addr = ip)) ∧
        e.1 = port ∧ e.2.client_addr = ip ∧
        (handleResultFromServer lb ev).2.2.head?
          = some (IOAction.write e.2.client_fd ev.http_msg) ∧
        (handleResultFromServer lb ev).1.request_map_ = pre ++ post ∧
        (ev.close_ok = true →
          (handleResultFromServer lb ev).2.1 = Status.SUCCESS ∧
          (handleResultFromServer lb ev).2.2
            = [IOAction.write e.2.client_fd ev.http_msg, IOAction.close e.2.client_fd] ∧
          ∀ ppre s ppost, lb.server_pool_ = ppre ++ (ev.trigger_fd, s) :: ppost →
            (lb.server_pool_.map Prod.fst).Nodup →
            (handleResultFromServer lb ev).1.server_pool_
              = ppre ++ (ev.trigger_fd, { s with cur_load := s.cur_load - 1 }) :: ppost) ∧
        (lb.request_map_.Pairwise
            (fun a b => ¬ (a.1 = b.1 ∧ a.2.client_addr = b.2.client_addr)) →
          ∀ x ∈ pre ++ post, ¬ (x.1 = e.1 ∧ x.2.client_addr = e.2.client_addr))) ∧
    ((∀ x ∈ lb.request_map_, ¬ (x.1 = port ∧ x.2.client_addr = ip)) →
      (handleResultFromServer lb ev).2.2 = [] ∧
      (handleResultFromServer lb ev).2.1 = Status.MINOR_ERROR ∧
      (handleResultFromServer lb ev).1.request_map_ = lb.request_map_ ∧
      (handleResultFromServer lb ev).1.server_pool_ = lb.server_pool_) := by
  have e1 : getTargetIP ev.http_msg lb.target_ip_ = ip :=
    getHeaderInfo_firstHeaderValue _ _ _ _ (by decide) hip
  have e2 : getTargetPort ev.http_msg lb.target_port_ = port :=
    getHeaderInfo_firstHeaderValue _ _ _ _ (by decide) hport
  have h := handleResultFromServer_routing lb ev hread
  rw [e1, e2] at h
  exact h

/-- Witness of the amended C4: the balancer after one dispatch (client
`127.0.0.1:40000` on descriptor 9, sent to worker 6) and the answer of worker
6, which holds both headers of that pair: the pending entry matches and the
result is `SUCCESS`. -/
theorem C4_response_routing_amended_witness :
    0 < (anAnswer 6).num_read ∧
    firstHeaderValue (anAnswer 6).http_msg "Target-IP: " "127.0.0.1" ∧
    firstHeaderValue (anAnswer 6).http_msg "Target-Port: " "40000" ∧
    (handleResultFromServer wlcDispatched (anAnswer 6)).2.1 = Status.SUCCESS := by
  have hip : firstHeaderValue (anAnswer 6).http_msg "Target-IP: " "127.0.0.1" :=
    ⟨by decide, "HTTP/1.1 200 OK \r\nContent-Length: 0\r\n", "Target-Port: 40000\r\n\r\n",
      by decide, by decide⟩
  have hport : firstHeaderValue (anAnswer 6).http_msg "Target-Port: " "40000" :=
    ⟨by decide, "HTTP/1.1 200 OK \r\nContent-Length: 0\r\nTarget-IP: 127.0.0.1\r\n", "\r\n",
      by decide, by decide⟩
  have hex : ∃ x ∈ wlcDispatched.request_map_, x.1 = "40000" ∧ x.2.client_addr = "127.0.0.1" :=
    ⟨("40000", { client_addr := "127.0.0.1", client_fd := 9 }), by decide, by decide, by decide⟩
  obtain ⟨_, _, _, _, _, _, _, _, _, hclose, _⟩ :=
    (C4_response_routing_amended wlcDispatched (anAnswer 6) "127.0.0.1" "40000" (by decide)
      hip hport).1 hex (by decide) rfl
  exact ⟨by decide, hip, hport, (hclose rfl).1⟩

/-! ### The supervisor of a worker: list lemmas -/

theorem updateAt_length (f : ChildInfo → ChildInfo) (i : Nat) (l : List ChildInfo) :
    (Server.updateAt f i l).length = l.length := by
  induction l generalizing i with
  | nil => cases i <;> rfl
  | cons x rest ih =>
    cases i with
    | zero => rfl
    | succ i => simp [Server.updateAt, ih]

theorem updateAt_map {β : Type} (g : ChildInfo → β) (f : ChildInfo → ChildInfo)
    (hf : ∀ c, g (f c) = g c) (i : Nat) (l : List ChildInfo) :
    (Server.updateAt f i l).map g = l.map g := by
  induction l generalizing i with
  | nil => cases i <;> rfl
  | cons x rest ih =>
    cases i with
    | zero => simp [Server.updateAt, hf]
    | succ i => simp [Server.updateAt, ih]

theorem updateAt_take_index (f : ChildInfo → ChildInfo)
    (hf : ∀ c, (f c).child_index = c.child_index) (i n : Nat) (l : List ChildInfo) :
    ((Server.updateAt f i l).take n).map (fun c => c.child_index)
      = (l.take n).map (fun c => c.child_index) := by
  rw [List.map_take, List.map_take, updateAt_map (fun c => c.child_index) f hf]

/-- The result of `updateAt` at a position inside the list. -/
theorem updateAt_split (f : ChildInfo → ChildInfo) (pre : List ChildInfo) (c : ChildInfo)
    (post : List ChildInfo) :
    Server.updateAt f pre.length (pre ++ c :: post) = pre ++ f c :: post := by
  induction pre with
  | nil => rfl
  | cons x rest ih => simp [Server.updateAt, ih]

theorem extractFirst_spec (p : ChildInfo → Bool) (l : List ChildInfo) (it : ChildInfo)
    (rest : List ChildInfo) (h : Server.extractFirst p l = some (it, rest)) :
    ∃ pre post, l = pre ++ it :: post ∧ rest = pre ++ post ∧ p it = true ∧
      ∀ x ∈ pre, p x = false := by
  induction l generalizing rest with
  | nil => simp [Server.extractFirst] at h
  | cons x xs ih =>
    rw [Server.extractFirst] at h
    by_cases hp : p x = true
    · rw [if_pos hp] at h
      cases h
      exact ⟨[], xs, rfl, rfl, hp, by simp⟩
    · rw [if_neg hp] at h
      cases hx : Server.extractFirst p xs with
      | none => rw [hx] at h; simp at h
      | some r =>
        rw [hx] at h
        simp only [Option.map_some', Option.some.injEq, Prod.mk.injEq] at h
        obtain ⟨h1, h2⟩ := h
        obtain ⟨pre, post, hl, hr, hpit, hpre⟩ := ih r.2 (by rw [hx, ← h1])
        refine ⟨x :: pre, post, by rw [hl]; rfl, by rw [← h2, hr]; rfl, hpit, ?_⟩
        intro y hy
        rcases List.mem_cons.1 hy with h | h
        · rw [h]; simpa using hp
        · exact hpre y h

theorem extractFirst_none (p : ChildInfo → Bool) (l : List ChildInfo)
    (h : Server.extractFirst p l = none) : ∀ x ∈ l, p x = false := by
  induction l with
  | nil => simp
  | cons x xs ih =>
    rw [Server.extractFirst] at h
    by_cases hp : p x = true
    · rw [if_pos hp] at h; simp at h
    · rw [if_neg hp] at h
      intro y hy
      rcases List.mem_cons.1 hy with h1 | h1
      · rw [h1]; simpa using hp
      · exact ih (by simpa using h) y h1

/-- The first five records of a supervisor that keeps the invariant. -/
theorem invariant_length (s : Server) (h : s.Invariant) :
    PREFORKED_CHILDREN ≤ s.child_pool_.length := by
  have := congrArg List.length h.2.2
  simp only [List.length_map, List.length_take, PREFORKED_CHILDREN] at this ⊢
  simp at this
  omega

/-! ### The supervisor of a worker: each handler keeps the invariant -/

theorem request_invariant (s s' : Server) (ev : Server.RequestEvent) (status : Status)
    (acts : List ServerAction) (hinv : s.Invariant)
    (h : s.handleRequestFromClient ev = some (s', status, acts))
    (hst : status ≠ Status.FATAL_ERROR) :
    s'.Invariant ∧ s'.max_children_ = s.max_children_ := by
  have hlen := invariant_length s hinv
  obtain ⟨hexist, hmax, hidx⟩ := hinv
  unfold Server.handleRequestFromClient at h
  simp only at h
  split at h
  · cases h; exact absurd rfl hst
  split at h
  · cases h; exact absurd rfl hst
  split at h
  · split at h
    · cases h
    · split at h
      · cases h; exact absurd rfl hst
      · cases h
        refine ⟨⟨?_, hmax, ?_⟩, rfl⟩
        · show s.children_exist_ = ((Server.updateAt _ _ s.child_pool_).length : Int)
          rw [updateAt_length]; exact hexist
        · refine Eq.trans (updateAt_take_index _ ?_ _ _ _) hidx
          intro c; rfl
  · split at h
    · next hlt =>
      cases hf : ev.fork with
      | none =>
        simp only [hf, Server.forkChild, if_true] at h
        cases h; exact absurd rfl hst
      | some fk =>
        simp only [hf, Server.forkChild, Server.addTimer] at h
        split at h
        · cases h; exact absurd rfl hst
        · split at h
          · cases h
          · next timed ht =>
            split at ht
            · cases ht; rw [if_pos rfl] at h; cases h; exact absurd rfl hst
            · split at ht
              · cases ht; rw [if_pos rfl] at h; cases h; exact absurd rfl hst
              · split at ht
                · cases ht
                  simp only [reduceCtorEq, if_false] at h
                  split at h
                  · cases h
                  · split at h
                    · cases h; exact absurd rfl hst
                    · cases h
                      refine ⟨⟨?_, by show s.children_exist_ + 1 ≤ s.max_children_; omega, ?_⟩, rfl⟩
                      · show s.children_exist_ + 1
                          = ((Server.updateAt _ _ (Server.updateAt _ _ _)).length : Int)
                        rw [updateAt_length, updateAt_length, List.length_append]
                        simp only [List.length_singleton, Nat.cast_add, Nat.cast_one]
                        omega
                      · refine Eq.trans (updateAt_take_index _ ?_ _ _ _) ?_
                        · intro c; rfl
                        refine Eq.trans (updateAt_take_index _ ?_ _ _ _) ?_
                        · intro c; rfl
                        rw [List.take_append_of_le_length hlen]
                        exact hidx
                · cases ht
    · split at h
      · cases h; exact absurd rfl hst
      · cases h
        exact ⟨⟨hexist, hmax, hidx⟩, rfl⟩

theorem child_invariant (s s' : Server) (ev : Server.ChildEvent) (status : Status)
    (acts : List ServerAction) (hinv : s.Invariant)
    (h : s.handleResponseFromChild ev = some (s', status, acts))
    (hst : status ≠ Status.FATAL_ERROR) :
    s'.Invariant ∧ s'.max_children_ = s.max_children_ := by
  obtain ⟨hexist, hmax, hidx⟩ := hinv
  have hfree : ∀ i, (⟨s.max_children_, s.children_exist_, s.children_free_, s.client_fd_,
      s.timer_fd_, s.timer_fds_, s.server_stop_,
      Server.updateAt (fun x => { x with child_status := ChildStatus.FREE }) i s.child_pool_⟩ :
        Server).Invariant := by
    intro i
    refine ⟨?_, hmax, ?_⟩
    · show s.children_exist_ = ((Server.updateAt _ _ s.child_pool_).length : Int)
      rw [updateAt_length]; exact hexist
    · refine Eq.trans (updateAt_take_index _ ?_ _ _ _) hidx
      intro c; rfl
  unfold Server.handleResponseFromChild at h
  simp only at h
  split at h
  · cases h; exact absurd rfl hst
  split at h
  · cases h
    refine ⟨⟨?_, hmax, ?_⟩, rfl⟩
    · show s.children_exist_ = ((s.child_pool_.map _).length : Int)
      rw [List.length_map]; exact hexist
    · show ((s.child_pool_.map _).take PREFORKED_CHILDREN).map _ = _
      rw [← List.map_take, List.map_map, ← hidx]
      apply List.map_congr_left
      intro c _
      simp only [Function.comp]
      split <;> rfl
  split at h
  · split at h
    · split at h
      · split at h
        · cases h; exact absurd rfl hst
        · cases h; exact ⟨hfree _, rfl⟩
      · cases h; exact ⟨hfree _, rfl⟩
    · cases h
  · cases h; exact ⟨⟨hexist, hmax, hidx⟩, rfl⟩

theorem timeout_invariant (s s' : Server) (trigger_fd : Int) (status : Status)
    (acts : List ServerAction) (hinv : s.Invariant)
    (h : s.handleChildTimeOut trigger_fd = some (s', status, acts)) :
    s'.Invariant ∧ s'.max_children_ = s.max_children_ := by
  have hlen := invariant_length s hinv
  obtain ⟨hexist, hmax, hidx⟩ := hinv
  unfold Server.handleChildTimeOut at h
  split at h
  · cases h
  split at h
  · cases h; exact ⟨⟨hexist, hmax, hidx⟩, rfl⟩
  · next it rest hx =>
    cases h
    obtain ⟨pre, post, hl, hr, _, _⟩ := extractFirst_spec _ _ _ _ hx
    have hdrop := congrArg List.length hl
    rw [List.length_drop, List.length_append, List.length_cons] at hdrop
    have hrl : rest.length = pre.length + post.length := by rw [hr, List.length_append]
    have htake : (s.child_pool_.take PREFORKED_CHILDREN).length = PREFORKED_CHILDREN := by
      rw [List.length_take]; omega
    refine ⟨⟨?_, ?_, ?_⟩, rfl⟩
    · show s.children_exist_ - 1 = ((s.child_pool_.take PREFORKED_CHILDREN ++ rest).length : Int)
      rw [List.length_append, htake, hrl]
      push_cast
      omega
    · show s.children_exist_ - 1 ≤ s.max_children_
      omega
    · show ((s.child_pool_.take PREFORKED_CHILDREN ++ rest).take PREFORKED_CHILDREN).map _ = _
      rw [List.take_append_of_le_length (by omega), List.take_take, Nat.min_self]
      exact hidx

/-- Under the invariant a record at a position below `PREFORKED_CHILDREN` carries
its position as index. -/
theorem index_of_position (pool pre post : List ChildInfo) (it : ChildInfo)
    (hl : pool = pre ++ it :: post)
    (hidx : (pool.take PREFORKED_CHILDREN).map (fun c => c.child_index) = [0, 1, 2, 3, 4])
    (hk : pre.length < PREFORKED_CHILDREN) : it.child_index = pre.length := by
  have h1 : ((pool.take PREFORKED_CHILDREN).map (fun c => c.child_index))[pre.length]?
      = some it.child_index := by
    rw [List.getElem?_map, List.getElem?_take_of_lt hk, hl,
      List.getElem?_append_right (le_refl _), Nat.sub_self]
    simp
  have h2 : ∀ k : Nat, k < 5 → ([0, 1, 2, 3, 4] : List Int)[k]? = some (k : Int) := by decide
  rw [hidx, h2 _ hk] at h1
  exact (Option.some.inj h1).symm

theorem signal_invariant (s s' : Server) (ev : Server.SignalEvent) (status : Status)
    (acts : List ServerAction) (hinv : s.Invariant)
    (h : s.serverSigHandler ev = some (s', status, acts))
    (hst : status ≠ Status.FATAL_ERROR) :
    s'.Invariant ∧ s'.max_children_ = s.max_children_ := by
  have hlen := invariant_length s hinv
  obtain ⟨hexist, hmax, hidx⟩ := hinv
  unfold Server.serverSigHandler at h
  split at h
  · cases h; exact absurd rfl hst
  split at h
  · split at h
    · cases h; exact ⟨⟨hexist, hmax, hidx⟩, rfl⟩
    · next it rest hx =>
      obtain ⟨pre, post, hl, hr, _, _⟩ := extractFirst_spec _ _ _ _ hx
      split at h
      · unfold Server.updateChild at h
        simp only at h
        split at h
        · cases h
        · next updated hu =>
          split at hu
          · split at hu
            · cases hu; rw [if_pos rfl] at h; cases h; exact absurd rfl hst
            · split at hu
              · cases hu; rw [if_pos rfl] at h; cases h; exact absurd rfl hst
              · cases hu
                simp only [reduceCtorEq, if_false] at h
                cases h
                refine ⟨⟨?_, hmax, ?_⟩, rfl⟩
                · show s.children_exist_ = ((Server.updateAt _ _
                    (Server.updateAt _ _ (Server.updateAt _ _ s.child_pool_))).length : Int)
                  rw [updateAt_length, updateAt_length, updateAt_length]; exact hexist
                · refine Eq.trans (updateAt_take_index _ ?_ _ _ _) ?_
                  · intro c; rfl
                  refine Eq.trans (updateAt_take_index _ ?_ _ _ _) ?_
                  · intro c; rfl
                  refine Eq.trans (updateAt_take_index _ ?_ _ _ _) hidx
                  intro c; rfl
          · cases hu
      · next hge =>
        cases h
        have hpre : PREFORKED_CHILDREN ≤ pre.length := by
          by_contra hlt
          have := index_of_position _ pre post it hl hidx (by omega)
          apply hge
          rw [this]
          exact_mod_cast (by omega : pre.length < PREFORKED_CHILDREN)
        have hpl : s.child_pool_.length = pre.length + post.length + 1 := by
          rw [hl, List.length_append, List.length_cons]; omega
        refine ⟨⟨?_, ?_, ?_⟩, rfl⟩
        · show s.children_exist_ - 1 = (rest.length : Int)
          rw [hr, List.length_append]
          push_cast
          omega
        · show s.children_exist_ - 1 ≤ s.max_children_
          omega
        · show (rest.take PREFORKED_CHILDREN).map _ = _
          rw [hr, List.take_append_of_le_length hpre, ← hidx, hl,
            List.take_append_of_le_length hpre]
  · split at h
    · cases h; exact ⟨⟨hexist, hmax, hidx⟩, rfl⟩
    · cases h; exact ⟨⟨hexist, hmax, hidx⟩, rfl⟩

/-- Every state the supervisor reaches from a state with the invariant has
the invariant, and `max_children_` never changes. -/
theorem reach_invariant (s0 s : Server) (h0 : s0.Invariant) (hr : Server.Reach s0 s) :
    s.Invariant ∧ s.max_children_ = s0.max_children_ := by
  induction hr with
  | start => exact ⟨h0, rfl⟩
  | request s s' ev status acts _ h hst ih =>
    have := request_invariant s s' ev status acts ih.1 h hst
    exact ⟨this.1, this.2.trans ih.2⟩
  | child s s' ev status acts _ h hst ih =>
    have := child_invariant s s' ev status acts ih.1 h hst
    exact ⟨this.1, this.2.trans ih.2⟩
  | timeout s s' fd status acts _ h _ ih =>
    have := timeout_invariant s s' fd status acts ih.1 h
    exact ⟨this.1, this.2.trans ih.2⟩
  | signal s s' ev status acts _ h hst ih =>
    have := signal_invariant s s' ev status acts ih.1 h hst
    exact ⟨this.1, this.2.trans ih.2⟩

/-- The supervisor that enters the loop of `Server::start` has the invariant. -/
theorem started_invariant (max_children client_fd : Int) (forks : Nat → Int × Int)
    (hmax : (PREFORKED_CHILDREN : Int) ≤ max_children) :
    (Server.started max_children client_fd forks).Invariant :=
  ⟨rfl, hmax, rfl⟩

/-! ### C16: the number of children -/

/-- C16. Let a worker be started with `max_children ≥ PREFORKED_CHILDREN = 5`, and let
`s` be a state its supervisor reaches from the state after the five
pre-forks (five `FREE` records, `children_exist_ = 5`) by calls of
`handleRequestFromClient`, `handleResponseFromChild` (completion message or end of
file), `handleChildTimeOut` and `serverSigHandler` that have a defined result and do
not return `FATAL_ERROR`. Then `PREFORKED_CHILDREN ≤ children_exist_ ≤ max_children_`,
`max_children_` is still `max_children`, and `children_exist_` is the number of
records of `child_pool_`. -/
theorem C16_children_count_invariant (max_children client_fd : Int) (forks : Nat → Int × Int)
    (hmax : (PREFORKED_CHILDREN : Int) ≤ max_children) (s : Server)
    (hr : Server.Reach (Server.started max_children client_fd forks) s) :
    (PREFORKED_CHILDREN : Int) ≤ s.children_exist_ ∧ s.children_exist_ ≤ s.max_children_ ∧
      s.max_children_ = max_children ∧ s.children_exist_ = s.child_pool_.length := by
  obtain ⟨hinv, hm⟩ := reach_invariant _ s (started_invariant max_children client_fd forks hmax) hr
  have hlen := invariant_length s hinv
  refine ⟨?_, hinv.2.1, hm, hinv.1⟩
  rw [hinv.1]
  exact_mod_cast hlen

/-- Witness of C16: capacity 6; the state after the first request was handed
to child 0. -/
theorem C16_children_count_invariant_witness :
    (PREFORKED_CHILDREN : Int) ≤ (Server.example6.afterRequest Server.aRequest).children_exist_ ∧
      (Server.example6.afterRequest Server.aRequest).children_exist_
        ≤ (Server.example6.afterRequest Server.aRequest).max_children_ ∧
      (Server.example6.afterRequest Server.aRequest).max_children_ = 6 ∧
      (Server.example6.afterRequest Server.aRequest).children_exist_
        = (Server.example6.afterRequest Server.aRequest).child_pool_.length :=
  C16_children_count_invariant 6 4 (fun index => (11 + index, 101 + index)) (by decide) _
    (Server.Reach.request Server.example6 _ Server.aRequest Status.SUCCESS
      [ServerAction.writeChild 0 11 Server.aRequest.http_msg] Server.Reach.start
      (by decide) (by decide))

/-! ### C17: a request goes to the first `FREE` record -/

theorem status_busy_of_not_free (c : ChildInfo) (h : ¬ c.child_status = ChildStatus.FREE) :
    c.child_status = ChildStatus.BUSY := by
  cases hc : c.child_status with
  | FREE => exact absurd hc h
  | BUSY => rfl

theorem scanFree_busy (l : List ChildInfo) (hall : ∀ x ∈ l, x.child_status = ChildStatus.BUSY)
    (i : Nat) (cf : Int) (ff : Nat) : Server.scanFree l i cf ff = (cf, ff) := by
  induction l generalizing i with
  | nil => rfl
  | cons x rest ih =>
    have hx : ¬ x.child_status = ChildStatus.FREE := by
      rw [hall x (List.mem_cons_self _ _)]; decide
    rw [Server.scanFree, if_neg hx]
    exact ih (fun y hy => hall y (List.mem_cons_of_mem _ hy)) (i + 1)

theorem scanFree_positive (l : List ChildInfo) (i : Nat) (cf : Int) (ff : Nat) (hcf : 0 < cf) :
    (Server.scanFree l i cf ff).2 = ff ∧ 0 < (Server.scanFree l i cf ff).1 := by
  induction l generalizing i cf with
  | nil => exact ⟨rfl, hcf⟩
  | cons x rest ih =>
    rw [Server.scanFree]
    split
    · rw [if_neg (by omega)]
      exact ih (i + 1) (cf + 1) (by omega)
    · exact ih (i + 1) cf hcf

theorem scanFree_first (pre post : List ChildInfo) (c : ChildInfo)
    (hpre : ∀ x ∈ pre, x.child_status = ChildStatus.BUSY)
    (hc : c.child_status = ChildStatus.FREE) (i ff : Nat) :
    (Server.scanFree (pre ++ c :: post) i 0 ff).2 = i + pre.length ∧
      0 < (Server.scanFree (pre ++ c :: post) i 0 ff).1 := by
  induction pre generalizing i with
  | nil =>
    rw [List.nil_append, Server.scanFree, if_pos hc, if_pos rfl]
    exact scanFree_positive post (i + 1) (0 + 1) i (by omega)
  | cons x rest ih =>
    have hx : ¬ x.child_status = ChildStatus.FREE := by
      rw [hpre x (List.mem_cons_self _ _)]; decide
    rw [List.cons_append, Server.scanFree, if_neg hx]
    have := ih (fun y hy => hpre y (List.mem_cons_of_mem _ hy)) (i + 1)
    rw [List.length_cons]
    constructor
    · rw [this.1]; omega
    · exact this.2

theorem first_free_split (l : List ChildInfo)
    (h : ∃ c ∈ l, c.child_status = ChildStatus.FREE) :
    ∃ pre c post, l = pre ++ c :: post ∧ (∀ x ∈ pre, x.child_status = ChildStatus.BUSY) ∧
      c.child_status = ChildStatus.FREE := by
  induction l with
  | nil => obtain ⟨c, hc, _⟩ := h; simp at hc
  | cons x rest ih =>
    by_cases hx : x.child_status = ChildStatus.FREE
    · exact ⟨[], x, rest, rfl, by simp, hx⟩
    · have hrest : ∃ c ∈ rest, c.child_status = ChildStatus.FREE := by
        obtain ⟨c, hc, hf⟩ := h
        rcases List.mem_cons.1 hc with h1 | h1
        · rw [h1] at hf; exact absurd hf hx
        · exact ⟨c, h1, hf⟩
      obtain ⟨pre, c, post, hl, hpre, hc⟩ := ih hrest
      refine ⟨x :: pre, c, post, by rw [hl]; rfl, ?_, hc⟩
      intro y hy
      rcases List.mem_cons.1 hy with h1 | h1
      · rw [h1]; exact status_busy_of_not_free x hx
      · exact hpre y h1

theorem get?_split (pre post : List ChildInfo) (c : ChildInfo) :
    (pre ++ c :: post).get? pre.length = some c := by
  rw [List.get?_eq_getElem?, List.getElem?_append_right (le_refl _), Nat.sub_self]
  simp

/-- C17. `Server::handleRequestFromClient` on a request that was read.
When some record is `FREE`, the pool splits at the first `FREE` record `c`
(every record before it is `BUSY`), the only write is the request to `c`, and
`children_exist_` is unchanged; when the write succeeds the result is
`SUCCESS` and the pool afterwards is the same pool with `c` marked `BUSY`
(when it fails the result is `FATAL_ERROR` and the pool is unchanged).
In a state where `children_exist_` is the number of records (every reachable
state), whatever the path: a write to a record carries the request and goes
either to a record that was `FREE`, or to position `child_pool_.size()`, the
child forked in this call, when every record was `BUSY`. -/
theorem C17_request_goes_to_first_free (s : Server) (ev : Server.RequestEvent)
    (hread : ev.num_read ≠ -1 ∧ ev.num_read ≠ 0) :
    ((∃ c ∈ s.child_pool_, c.child_status = ChildStatus.FREE) →
      ∃ pre c post s' status,
        s.child_pool_ = pre ++ c :: post ∧
        (∀ x ∈ pre, x.child_status = ChildStatus.BUSY) ∧ c.child_status = ChildStatus.FREE ∧
        s.handleRequestFromClient ev
          = some (s', status, [ServerAction.writeChild pre.length c.child_spipe_fd ev.http_msg]) ∧
        s'.children_exist_ = s.children_exist_ ∧
        (ev.write_ok = true → status = Status.SUCCESS ∧
          s'.child_pool_ = pre ++ { c with child_status := ChildStatus.BUSY } :: post) ∧
        (ev.write_ok = false → status = Status.FATAL_ERROR ∧
          s'.child_pool_ = s.child_pool_)) ∧
    (s.children_exist_ = s.child_pool_.length →
      ∀ s' status acts, s.handleRequestFromClient ev = some (s', status, acts) →
        ∀ pos fd msg, ServerAction.writeChild pos fd msg ∈ acts →
          msg = ev.http_msg ∧
          ((∃ c, s.child_pool_.get? pos = some c ∧ c.child_status = ChildStatus.FREE ∧
              c.child_spipe_fd = fd) ∨
            (pos = s.child_pool_.length ∧
              (∀ x ∈ s.child_pool_, x.child_status = ChildStatus.BUSY) ∧
              ∃ child_pid, ev.fork = some (fd, child_pid)))) := by
  obtain ⟨hr1, hr2⟩ := hread
  constructor
  · intro hfree
    obtain ⟨pre, c, post, hl, hpre, hc⟩ := first_free_split _ hfree
    obtain ⟨hpos, hcount⟩ := scanFree_first pre post c hpre hc 0 0
    rw [Nat.zero_add] at hpos
    have hget := get?_split pre post c
    rw [← hl] at hpos hcount hget
    have hupd := updateAt_split (fun x => { x with child_status := ChildStatus.BUSY }) pre c post
    rw [← hl] at hupd
    cases hw : ev.write_ok with
    | false =>
      refine ⟨pre, c, post, { s with children_free_ := (Server.scanFree s.child_pool_ 0 0 0).1 },
        Status.FATAL_ERROR, hl, hpre, hc, ?_, rfl, ?_, fun _ => ⟨rfl, rfl⟩⟩
      · unfold Server.handleRequestFromClient
        simp only
        rw [if_neg hr1, if_neg hr2, if_pos hcount, hpos, hget]
        simp [hw]
      · intro h; cases h
    | true =>
      refine ⟨pre, c, post,
        { s with
          children_free_ := (Server.scanFree s.child_pool_ 0 0 0).1
          child_pool_ := Server.updateAt (fun x => { x with child_status := ChildStatus.BUSY })
            pre.length s.child_pool_ },
        Status.SUCCESS, hl, hpre, hc, ?_, rfl, fun _ => ⟨rfl, hupd⟩, ?_⟩
      · unfold Server.handleRequestFromClient
        simp only
        rw [if_neg hr1, if_neg hr2, if_pos hcount, hpos, hget]
        simp [hw]
      · intro h; cases h
  · intro hexist s' status acts h pos fd msg hmem
    unfold Server.handleRequestFromClient at h
    simp only at h
    rw [if_neg hr1, if_neg hr2] at h
    split at h
    · next hcount =>
      have hfree : ∃ c ∈ s.child_pool_, c.child_status = ChildStatus.FREE := by
        by_contra hno
        have hall : ∀ x ∈ s.child_pool_, x.child_status = ChildStatus.BUSY :=
          fun x hx => status_busy_of_not_free x (fun hf => hno ⟨x, hx, hf⟩)
        rw [scanFree_busy _ hall] at hcount
        exact absurd hcount (by decide)
      obtain ⟨pre, c, post, hl, hpre, hc⟩ := first_free_split _ hfree
      obtain ⟨hpos, _⟩ := scanFree_first pre post c hpre hc 0 0
      rw [Nat.zero_add] at hpos
      have hget := get?_split pre post c
      rw [hl, hpos, hget] at h
      simp only at h
      split at h
      all_goals
        cases h
        simp only [List.mem_singleton, ServerAction.writeChild.injEq] at hmem
        obtain ⟨h1, h2, h3⟩ := hmem
        refine ⟨h3, Or.inl ⟨c, ?_, hc, h2.symm⟩⟩
        rw [h1, hl]; exact hget
    · next hcount =>
      have hall : ∀ x ∈ s.child_pool_, x.child_status = ChildStatus.BUSY := by
        intro x hx
        apply status_busy_of_not_free
        intro hf
        obtain ⟨pre, c, post, hl, hpre, hc⟩ := first_free_split _ ⟨x, hx, hf⟩
        have := (scanFree_first pre post c hpre hc 0 0).2
        rw [← hl] at this
        exact hcount this
      split at h
      · cases hf : ev.fork with
        | none =>
          simp only [hf, Server.forkChild, if_true] at h
          cases h
          simp at hmem
        | some fk =>
          simp only [hf, Server.forkChild, Server.addTimer, reduceCtorEq, if_false] at h
          split at h
          · cases h
          · next timed ht =>
            split at ht
            · cases ht; rw [if_pos rfl] at h; cases h; simp at hmem
            · split at ht
              · cases ht; rw [if_pos rfl] at h; cases h; simp at hmem
              · split at ht
                · cases ht
                  simp only [reduceCtorEq, if_false] at h
                  have hi : s.children_exist_.toNat = s.child_pool_.length := by
                    rw [hexist]; simp
                  have hg : (Server.updateAt
                      (fun c => { c with child_timer_fd := ev.timer_create })
                      s.children_exist_.toNat
                      (s.child_pool_ ++
                        [⟨fk.2, ChildStatus.FREE, s.children_exist_, fk.1, 0⟩])).get?
                        s.children_exist_.toNat
                      = some ⟨fk.2, ChildStatus.FREE, s.children_exist_, fk.1,
                        ev.timer_create⟩ := by
                    rw [hi, updateAt_split, get?_split]
                  rw [hg] at h
                  simp only at h
                  split at h
                  all_goals
                    cases h
                    simp only [List.mem_singleton, ServerAction.writeChild.injEq] at hmem
                    obtain ⟨h1, h2, h3⟩ := hmem
                    refine ⟨h3, Or.inr ⟨by rw [h1, hi], hall, fk.2, ?_⟩⟩
                    rw [h2]
                · cases ht
      · split at h
        all_goals
          cases h
          simp at hmem

/-- Witness of C17: the first request goes to child 0 of the five pre-forked
children. -/
theorem C17_request_goes_to_first_free_witness :
    ∃ pre c post s' status, Server.example6.child_pool_ = pre ++ c :: post ∧
      Server.example6.handleRequestFromClient Server.aRequest
        = some (s', status,
          [ServerAction.writeChild pre.length c.child_spipe_fd Server.aRequest.http_msg]) ∧
      status = Status.SUCCESS :=
  let ⟨pre, c, post, s', status, hl, _, _, hh, _, hok, _⟩ :=
    (C17_request_goes_to_first_free Server.example6 Server.aRequest (by decide)).1 (by decide)
  ⟨pre, c, post, s', status, hl, hh, (hok rfl).1⟩

/-! ### C18: the answer of a supervisor at its ceiling -/

/-- A read error or end of file in `handleResultFromServer` returns `FATAL_ERROR`
exactly when the removal leaves the pool empty, and `MINOR_ERROR` otherwise. -/
theorem handleResultFromServer_lost_status (lb : LoadBalancer) (ev : ServerEvent)
    (h : ev.num_read = -1 ∨ ev.num_read = 0) :
    (handleResultFromServer lb ev).1.server_pool_ = poolErase lb.server_pool_ ev.trigger_fd ∧
    ((handleResultFromServer lb ev).1.server_pool_ = [] →
      (handleResultFromServer lb ev).2.1 = Status.FATAL_ERROR) ∧
    ((handleResultFromServer lb ev).1.server_pool_ ≠ [] →
      (handleResultFromServer lb ev).2.1 = Status.MINOR_ERROR) := by
  unfold handleResultFromServer
  rw [if_pos h]
  refine ⟨rfl, ?_, ?_⟩
  · intro hp
    simp only at hp ⊢
    rw [hp]; rfl
  · intro hp
    simp only at hp ⊢
    rw [if_neg]
    intro hle
    exact hp (List.length_eq_zero.1 (by omega))

/-- A failed write to the selected worker in `handleRequestFromClient` removes that
worker and returns `MINOR_ERROR`, whatever is left of the pool. -/
theorem handleRequestFromClient_failed_write (lb : LoadBalancer) (ev : ClientEvent)
    (host service : String) (handle_fd : Int) (count' : Nat)
    (hacc : ev.cfd ≠ -1) (hread : 0 < ev.num_read)
    (hsrc : getSourceInfo ev.nameinfo = some (host, service))
    (hpool : lb.server_pool_ ≠ [])
    (hsel : AlgorithmSelector.selectServer lb.sched_algo_ lb.server_pool_ lb.count lb.handle_ip_
      = some (handle_fd, count'))
    (hfd : handle_fd ≠ -1 ∧ handle_fd ≠ 0) (hw : ev.write_ok = false) :
    handleRequestFromClient lb ev
      = some ({ lb with count := count', server_pool_ := poolErase lb.server_pool_ handle_fd },
          Status.MINOR_ERROR, [IOAction.close handle_fd]) := by
  have hlen : lb.server_pool_.length > 0 := List.length_pos.2 hpool
  unfold handleRequestFromClient
  rw [if_neg hacc, if_neg (by omega), if_neg (by omega), hsrc]
  simp only [if_pos hlen, hsel]
  rw [if_neg (by rintro (h | h); exact hfd.1 h; exact hfd.2 h)]
  simp [hw]

/-- C19 (the code departs from the claim). With one worker in the pool, on
descriptor 5: a failed write of a client's request to that worker in
`handleRequestFromClient` leaves the pool empty and returns `MINOR_ERROR`, not
`FATAL_ERROR`; end of file on descriptor 5 in `handleResultFromServer` and a
failed probe in `healthCheck` leave the pool empty and return `FATAL_ERROR`. -/
theorem C19_failed_write_last_worker_is_minor :
    (handleRequestFromClient (oneWorker SchedAlgorithm.Round_Robin) aFailedWrite).map
        (fun r => (r.1.server_pool_, r.2.1, r.2.2))
      = some ([], Status.MINOR_ERROR, [IOAction.close 5]) ∧
    ((handleResultFromServer (oneWorker SchedAlgorithm.Round_Robin) (anEndOfFile 5)).1.server_pool_,
        (handleResultFromServer (oneWorker SchedAlgorithm.Round_Robin) (anEndOfFile 5)).2.1)
      = ([], Status.FATAL_ERROR) ∧
    ((healthCheck (oneWorker SchedAlgorithm.Round_Robin) (fun _ => (false, false))).1.server_pool_,
        (healthCheck (oneWorker SchedAlgorithm.Round_Robin) (fun _ => (false, false))).2.1)
      = ([], Status.FATAL_ERROR) := by
  refine ⟨?_, ?_, ?_⟩
  · decide
  · decide
  · decide

/-! ### Decimal text and `convertStringToInt` -/

/-- C28, the first selection. On a fresh counter the first of six selections
over the two workers 4 and 5 of `ratioPool`, which both have capacity, is
worker 5, the second worker of the pool, not the first. -/
theorem C28_rr_first_selection_is_second_worker :
    SchedRR.calls (fun _ => ratioPool) 6 0 SchedRR.initialCount = some [5, 4, 5, 4, 5, 4] ∧
      (ratioPool.map Prod.fst).head? = some 4 := by
  refine ⟨?_, ?_⟩
  · decide
  · decide

theorem rr_six_of_two (a b : Int) :
    (List.range 6).map (fun i => [a, b].getD ((SchedRR.initialCount + i) % [a, b].length) 0)
      = [b, a, b, a, b, a] := by
  simp [List.range, List.range.loop, SchedRR.initialCount]

/-- C28, amended. With Round Robin on a fresh call counter (the static counter
starts at 1) and a pool of two workers `a` and `b`, in this iteration order,
that both have capacity at each call, six consecutive selections alternate
between the two workers, each worker is selected exactly three times, and the
first selection is the second worker of the pool (position 1). -/
theorem C28_rr_two_workers_amended (a b : Int) (hab : a ≠ b) (pools : Nat → SchedMap)
    (hkeys : ∀ j, (pools j).map Prod.fst = [a, b])
    (hcap : ∀ j, ∀ p ∈ pools j, hasCapacity p.2) :
    ∃ ids, SchedRR.calls pools 6 0 SchedRR.initialCount = some ids ∧
      ids = [b, a, b, a, b, a] ∧ ids.count a = 3 ∧ ids.count b = 3 ∧
      ids.head? = [a, b].get? 1 := by
  refine ⟨_, SchedRR_calls_all_capacity [a, b] (by simp) pools hkeys hcap 6 0
    SchedRR.initialCount, ?_, ?_, ?_, ?_⟩
  · exact rr_six_of_two a b
  · rw [rr_six_of_two]
    simp [List.count_cons, hab, Ne.symm hab]
  · rw [rr_six_of_two]
    simp [List.count_cons, hab, Ne.symm hab]
  · rw [rr_six_of_two]
    rfl

theorem C28_rr_two_workers_amended_witness :
    ∃ ids, SchedRR.calls (fun _ => ratioPool) 6 0 SchedRR.initialCount = some ids ∧
      ids = [5, 4, 5, 4, 5, 4] ∧ ids.count 4 = 3 ∧ ids.count 5 = 3 ∧
      ids.head? = [4, 5].get? 1 :=
  C28_rr_two_workers_amended 4 5 (by decide) (fun _ => ratioPool)
    (fun _ => (by decide : ratioPool.map Prod.fst = [4, 5]))
    (fun _ => (by decide : ∀ p ∈ ratioPool, hasCapacity p.2))

/-! ### C23: the constructor of the selector -/

/-- The constructor does not use its parameter: the selector reports the value
its storage held before, and `selectAlgorithm` creates the policy of that
value, or none. -/
theorem AlgorithmSelector_new_ignores_type (t u : SchedAlgorithm) (indeterminate : Int) :
    AlgorithmSelector.new t indeterminate = AlgorithmSelector.new u indeterminate := rfl

/-- After `setSchedType(t)` the selector reports `t` and `selectAlgorithm` creates the
policy object of type `t`, to which `selectServer` delegates. -/
theorem AlgorithmSelector_setSchedType_selects (s : AlgorithmSelector) (t : SchedAlgorithm)
    (sched_map_ : SchedMap) (count : Nat) (handle_ip : String) :
    (s.setSchedType t).getSchedType = t.toInt ∧
      AlgorithmSelector.delegate (s.setSchedType t).selectAlgorithm sched_map_ count handle_ip
        = AlgorithmSelector.selectServer t sched_map_ count handle_ip := by
  cases t <;> exact ⟨rfl, rfl⟩

/-- C23. An `AlgorithmSelector` constructed with the type `t` reports as
`getSchedType()` the value its storage held before the constructor ran, whatever `t` is; constructed
with `Round_Robin` over storage holding 5 it reports `Source_Hashing` and
`selectAlgorithm` creates the Source Hashing policy; over storage holding 7,
`selectAlgorithm` creates no policy and `selectServer` has no defined result. -/
theorem C23_constructor_ignores_sched_type :
    (∀ (t : SchedAlgorithm) (indeterminate : Int),
      (AlgorithmSelector.new t indeterminate).getSchedType = indeterminate) ∧
    (AlgorithmSelector.new .Round_Robin 5).getSchedType = SchedAlgorithm.Source_Hashing.toInt ∧
    (AlgorithmSelector.new .Round_Robin 5).getSchedType ≠ SchedAlgorithm.Round_Robin.toInt ∧
    (AlgorithmSelector.new .Round_Robin 5).selectAlgorithm.sched_algo_
      = some SchedAlgorithm.Source_Hashing ∧
    (∀ (sched_map_ : SchedMap) (count : Nat) (handle_ip : String),
      AlgorithmSelector.delegate (AlgorithmSelector.new .Round_Robin 7).selectAlgorithm
        sched_map_ count handle_ip = none) := by
  refine ⟨fun _ _ => rfl, ?_, ?_, ?_, fun _ _ _ => rfl⟩
  · decide
  · decide
  · decide

/-! ### C24: the handle address of the hashing policies -/

/-- No call of `handleRequestFromClient` changes the address the hashing policy
holds. -/
theorem handleRequestFromClient_keeps_handle_ip (lb lb' : LoadBalancer) (ev : ClientEvent)
    (st : Status) (acts : List IOAction)
    (h : handleRequestFromClient lb ev = some (lb', st, acts)) :
    lb'.handle_ip_ = lb.handle_ip_ := by
  unfold handleRequestFromClient at h
  repeat' split at h
  all_goals first
    | (cases h; rfl)
    | exact absurd h (by simp)

/-- Under Source Hashing with the address member still empty, every client whose
request was read and whose address resolves is answered with 500 as long as
the pool is not empty. -/
theorem handleRequestFromClient_sh_answers_500 (lb : LoadBalancer) (ev : ClientEvent)
    (host service : String) (hsh : lb.sched_algo_ = SchedAlgorithm.Source_Hashing)
    (hip : lb.handle_ip_ = "") (hpool : lb.server_pool_.length > 0) (hfd : ev.cfd ≠ -1)
    (hr1 : ev.num_read ≠ -1) (hr0 : ev.num_read ≠ 0)
    (hname : getSourceInfo ev.nameinfo = some (host, service)) :
    handleRequestFromClient lb ev
      = some (lb, Status.MINOR_ERROR,
          [IOAction.write ev.cfd
            (ResponseMessage.mk4 "HTTP/1.1" HEAD500 host service).constructHTTPMsg]) := by
  have hsel : AlgorithmSelector.selectServer lb.sched_algo_ lb.server_pool_ lb.count
      lb.handle_ip_ = some (0, lb.count) := by
    rw [hsh, hip]
    rfl
  unfold handleRequestFromClient
  rw [if_neg hfd, if_neg hr1, if_neg hr0, hname]
  simp only
  rw [if_pos hpool, hsel]
  simp

/-- C24. Under Source Hashing, on the balancer `shBalancer` whose two workers 6 and 5
are idle with capacity 5, the client `anIPv4Client` with the well-formed address
`192.168.1.10` is answered with 500 and no worker gets the request, although
Source Hashing on that address selects worker 6: the address the policy hashes
is still the empty string, before and after the dispatch. -/
theorem C24_sh_client_answered_500 :
    handleRequestFromClient shBalancer anIPv4Client
      = some (shBalancer, Status.MINOR_ERROR,
          [IOAction.write 9
            (ResponseMessage.mk4 "HTTP/1.1" HEAD500 "192.168.1.10" "40000").constructHTTPMsg]) ∧
    shBalancer.handle_ip_ = "" ∧
    SchedSH.selectServer shBalancer.server_pool_ "192.168.1.10" = some 6 ∧
    anyCapacity shBalancer.server_pool_ := by
  refine ⟨?_, ?_, ?_, ?_⟩
  · decide
  · decide
  · decide
  · exact ⟨(6, ⟨"127.0.0.3", "50000", 5, 0⟩), by decide, by decide⟩

/-! ### C25: the health check against its reference description -/

theorem healthCheckLoop_filter (probe : Int → Bool × Bool) (pool : SchedMap) :
    (healthCheckLoop probe pool).1
      = pool.filter (fun w => (probe w.1).1 && (probe w.1).2) := by
  induction pool with
  | nil => rfl
  | cons it rest ih =>
    rw [healthCheckLoop, List.filter_cons]
    cases h1 : (probe it.1).1 <;> cases h2 : (probe it.1).2 <;> simp [ih]

/-- C25. The pool and the status `healthCheck` leaves are those of its reference
description; the pending-request map is unchanged in every case; with a
non-empty pending-request map nothing is written; and every worker kept is
kept with its record (`max_load`, `cur_load`) unchanged. -/
theorem C25_health_check_equals_reference (lb : LoadBalancer) (probe : Int → Bool × Bool) :
    ((healthCheck lb probe).1, (healthCheck lb probe).2.1) = healthCheck.reference lb probe ∧
    (healthCheck lb probe).1.request_map_ = lb.request_map_ ∧
    (lb.request_map_ ≠ [] → (healthCheck lb probe).2.2 = []) ∧
    (∀ w, w ∈ (healthCheck lb probe).1.server_pool_ → w ∈ lb.server_pool_) := by
  unfold healthCheck healthCheck.reference
  by_cases hm : lb.request_map_ = []
  · have h0 : ¬ lb.request_map_.length > 0 := by rw [hm]; simp
    rw [if_neg h0, if_neg (not_not.2 hm)]
    refine ⟨?_, rfl, fun h => absurd hm h, ?_⟩
    · show (({ lb with server_pool_ := (healthCheckLoop probe lb.server_pool_).1 } : LoadBalancer),
          (if (healthCheckLoop probe lb.server_pool_).1.length ≤ 0 then Status.FATAL_ERROR
            else Status.SUCCESS)) = _
      rw [healthCheckLoop_filter]
      by_cases hk : lb.server_pool_.filter (fun w => (probe w.1).1 && (probe w.1).2) = []
      · rw [hk]
        rfl
      · have hpos : ¬ (lb.server_pool_.filter
            (fun w => (probe w.1).1 && (probe w.1).2)).length ≤ 0 := by
          intro h
          exact hk (List.length_eq_zero.1 (Nat.le_zero.1 h))
        simp only [if_neg hpos, if_neg hk]
    · intro w hw
      have hw' : w ∈ (healthCheckLoop probe lb.server_pool_).1 := hw
      rw [healthCheckLoop_filter] at hw'
      exact (List.mem_filter.1 hw').1
  · have h0 : lb.request_map_.length > 0 := List.length_pos.2 hm
    rw [if_pos h0, if_pos hm]
    refine ⟨?_, ?_, ?_, ?_⟩
    · rfl
    · rfl
    · intro _
      rfl
    · intro w hw
      exact hw

/-! ### C26: `SIGCHLD` in the supervisor -/

theorem extractFirst_split (p : ChildInfo → Bool) (pre post : List ChildInfo) (it : ChildInfo)
    (hpre : ∀ x ∈ pre, p x = false) (hit : p it = true) :
    Server.extractFirst p (pre ++ it :: post) = some (it, pre ++ post) := by
  induction pre with
  | nil => rw [List.nil_append, Server.extractFirst, if_pos hit]; rfl
  | cons x rest ih =>
    have hx : ¬ p x = true := by rw [hpre x (List.mem_cons_self _ _)]; decide
    rw [List.cons_append, Server.extractFirst, if_neg hx,
      ih (fun y hy => hpre y (List.mem_cons_of_mem _ hy))]
    rfl

theorem extractFirst_none_of (p : ChildInfo → Bool) (l : List ChildInfo)
    (h : ∀ x ∈ l, p x = false) : Server.extractFirst p l = none := by
  induction l with
  | nil => rfl
  | cons x rest ih =>
    have hx : ¬ p x = true := by rw [h x (List.mem_cons_self _ _)]; decide
    rw [Server.extractFirst, if_neg hx, ih (fun y hy => h y (List.mem_cons_of_mem _ hy))]
    rfl

theorem updateAt_get?_ne (f : ChildInfo → ChildInfo) (i j : Nat) (l : List ChildInfo)
    (h : j ≠ i) : (Server.updateAt f i l).get? j = l.get? j := by
  induction l generalizing i j with
  | nil => cases i <;> rfl
  | cons x rest ih =>
    cases i with
    | zero =>
      cases j with
      | zero => exact absurd rfl h
      | succ j => rfl
    | succ i =>
      cases j with
      | zero => rfl
      | succ j =>
        rw [Server.updateAt, List.get?_cons_succ, List.get?_cons_succ]
        exact ih i j (fun e => h (by rw [e]))

theorem updateAt_get?_self (f : ChildInfo → ChildInfo) (i : Nat) (l : List ChildInfo)
    (c : ChildInfo) (h : l.get? i = some c) : (Server.updateAt f i l).get? i = some (f c) := by
  induction l generalizing i with
  | nil => simp at h
  | cons x rest ih =>
    cases i with
    | zero =>
      simp only [List.get?_cons_zero, Option.some.injEq] at h
      rw [Server.updateAt, List.get?_cons_zero, h]
    | succ i =>
      rw [List.get?_cons_succ] at h
      rw [Server.updateAt, List.get?_cons_succ]
      exact ih i h

/-- C26. `Server::serverSigHandler` on `SIGCHLD` for the pid `ssi_pid`, with `it` the first
record of the pool that has this pid (the pool is `pre ++ it :: post`).
If `it.child_index < PREFORKED_CHILDREN` is the position `k` of a record `c` of the pool and
`socketpair` and `fork` succeed, the handler returns `SUCCESS`, the pool length
and `children_exist_` are unchanged, every record at another position is
unchanged, and the record at position `k` is `c` made `FREE`, with
`child_timer_fd = 0`, the new stream pipe and the pid of the new child.
If `it.child_index ≥ PREFORKED_CHILDREN`, the handler returns `SUCCESS`, the pool is
`pre ++ post` and `children_exist_` is one less.
If no record has the pid, the handler returns `SUCCESS` and the state is unchanged. -/
theorem C26_sigchld_cases (s : Server) (ev : Server.SignalEvent) (hread : ev.read_ok = true)
    (hsig : ev.ssi_signo = SIGCHLD) :
    (∀ (pre : List ChildInfo) (it : ChildInfo) (post : List ChildInfo),
      s.child_pool_ = pre ++ it :: post →
      (∀ x ∈ pre, x.child_pid ≠ ev.ssi_pid) → it.child_pid = ev.ssi_pid →
      (it.child_index < (PREFORKED_CHILDREN : Int) →
        ∀ (k : Nat) (c : ChildInfo) (spipe child_pid : Int), it.child_index = k →
          s.child_pool_.get? k = some c → ev.socketpair = some spipe →
          ev.fork = some child_pid →
          ∃ s' acts, s.serverSigHandler ev = some (s', Status.SUCCESS, acts) ∧
            s'.child_pool_.length = s.child_pool_.length ∧
            s'.children_exist_ = s.children_exist_ ∧
            (∀ j, j ≠ k → s'.child_pool_.get? j = s.child_pool_.get? j) ∧
            s'.child_pool_.get? k = some { c with
              child_status := ChildStatus.FREE, child_timer_fd := 0,
              child_spipe_fd := spipe, child_pid := child_pid }) ∧
      ((PREFORKED_CHILDREN : Int) ≤ it.child_index →
        ∃ s' acts, s.serverSigHandler ev = some (s', Status.SUCCESS, acts) ∧
          s'.child_pool_ = pre ++ post ∧ s'.children_exist_ = s.children_exist_ - 1)) ∧
    ((∀ x ∈ s.child_pool_, x.child_pid ≠ ev.ssi_pid) →
      s.serverSigHandler ev = some (s, Status.SUCCESS, [])) := by
  have hr : ¬ (!ev.read_ok) = true := by rw [hread]; decide
  constructor
  · intro pre it post hl hpre hit
    have hex : Server.extractFirst (fun it => decide (it.child_pid = ev.ssi_pid)) s.child_pool_
        = some (it, pre ++ post) := by
      rw [hl]
      exact extractFirst_split _ _ _ _ (fun x hx => decide_eq_false (hpre x hx))
        (decide_eq_true hit)
    constructor
    · intro hlt k c spipe child_pid hk hc hsp hfk
      have hklen : k < s.child_pool_.length := by
        rw [List.get?_eq_getElem?] at hc
        exact (List.getElem?_eq_some_iff.1 hc).1
      have hrange : 0 ≤ it.child_index ∧ it.child_index.toNat < s.child_pool_.length := by
        rw [hk]
        exact ⟨Int.natCast_nonneg k, by simpa using hklen⟩
      have htoNat : it.child_index.toNat = k := by rw [hk]; simp
      unfold Server.serverSigHandler
      rw [if_neg hr, if_pos hsig, hex]
      simp only
      rw [if_pos hlt]
      unfold Server.updateChild
      rw [if_pos hrange, hsp, hfk, htoNat]
      simp only [reduceCtorEq, if_false]
      refine ⟨_, _, rfl, ?_, rfl, ?_, ?_⟩
      · simp only [updateAt_length]
      · intro j hj
        simp only [updateAt_get?_ne _ _ _ _ hj]
      · rw [updateAt_get?_self _ _ _ _ (updateAt_get?_self _ _ _ _ (updateAt_get?_self _ _ _ _ hc))]
    · intro hge
      have hnlt : ¬ it.child_index < PREFORKED_CHILDREN := by omega
      unfold Server.serverSigHandler
      rw [if_neg hr, if_pos hsig, hex]
      simp only
      rw [if_neg hnlt]
      exact ⟨_, _, rfl, rfl, rfl⟩
  · intro hall
    unfold Server.serverSigHandler
    rw [if_neg hr, if_pos hsig,
      extractFirst_none_of _ _ (fun x hx => decide_eq_false (hall x hx))]

/-- Witness of C26: the pre-forked child 103 of `example6` exits; the record at
position 2 gets the pid 203 of the new child, the new pipe 31 and no timer. -/
theorem C26_sigchld_cases_witness :
    ∃ s' acts, Server.example6.serverSigHandler Server.aChildExit
        = some (s', Status.SUCCESS, acts) ∧
      s'.child_pool_.length = Server.example6.child_pool_.length ∧
      s'.children_exist_ = Server.example6.children_exist_ ∧
      s'.child_pool_.get? 2 = some ⟨203, ChildStatus.FREE, 2, 31, 0⟩ :=
  let ⟨s', acts, h, hlen, hex, _, hrec⟩ :=
    ((C26_sigchld_cases Server.example6 Server.aChildExit (by decide) (by decide)).1
      [⟨101, ChildStatus.FREE, 0, 11, 0⟩, ⟨102, ChildStatus.FREE, 1, 12, 0⟩]
      ⟨103, ChildStatus.FREE, 2, 13, 0⟩
      [⟨104, ChildStatus.FREE, 3, 14, 0⟩, ⟨105, ChildStatus.FREE, 4, 15, 0⟩]
      (by decide) (by decide) (by decide)).1 (by decide) 2 ⟨103, ChildStatus.FREE, 2, 13, 0⟩
      31 203 (by decide) (by decide) (by decide) (by decide)
  ⟨s', acts, h, hlen, hex, hrec⟩

/-! ### C27: the index a record stores and its position -/

theorem reach_afterRequest (s0 s : Server) (ev : Server.RequestEvent)
    (hr : Server.Reach s0 s)
    (h : (s.handleRequestFromClient ev).map (fun r => r.2.1) = some Status.SUCCESS) :
    Server.Reach s0 (s.afterRequest ev) := by
  unfold Server.afterRequest
  cases hres : s.handleRequestFromClient ev with
  | none => rw [hres] at h; cases h
  | some r =>
    rw [hres] at h
    obtain ⟨s', status, acts⟩ := r
    simp only [Option.map_some', Option.some.injEq] at h
    exact Server.Reach.request s s' ev status acts hr hres (by rw [h]; decide)

theorem reach_afterTimeOut (s0 s : Server) (trigger_fd : Int) (hr : Server.Reach s0 s)
    (h : (s.handleChildTimeOut trigger_fd).map (fun r => r.2.1) = some Status.SUCCESS) :
    Server.Reach s0 (s.afterTimeOut trigger_fd) := by
  unfold Server.afterTimeOut
  cases hres : s.handleChildTimeOut trigger_fd with
  | none => rw [hres] at h; cases h
  | some r =>
    rw [hres] at h
    obtain ⟨s', status, acts⟩ := r
    simp only [Option.map_some', Option.some.injEq] at h
    exact Server.Reach.timeout s s' trigger_fd status acts hr hres (by rw [h]; decide)

theorem reach_afterCompletion (s0 s : Server) (ev : Server.ChildEvent) (hr : Server.Reach s0 s)
    (h : (s.handleResponseFromChild ev).map (fun r => r.2.1) = some Status.SUCCESS) :
    Server.Reach s0 (s.afterCompletion ev) := by
  unfold Server.afterCompletion
  cases hres : s.handleResponseFromChild ev with
  | none => rw [hres] at h; cases h
  | some r =>
    rw [hres] at h
    obtain ⟨s', status, acts⟩ := r
    simp only [Option.map_some', Option.some.injEq] at h
    exact Server.Reach.child s s' ev status acts hr hres (by rw [h]; decide)

/-- The supervisor `busy7` is reached by seven request dispatches. -/
theorem reach_busy7 : Server.Reach Server.example7 Server.busy7 := by
  unfold Server.busy7
  apply reach_afterRequest _ _ _ _ (by decide)
  apply reach_afterRequest _ _ _ _ (by decide)
  apply reach_afterRequest _ _ _ _ (by decide)
  apply reach_afterRequest _ _ _ _ (by decide)
  apply reach_afterRequest _ _ _ _ (by decide)
  apply reach_afterRequest _ _ _ _ (by decide)
  apply reach_afterRequest _ _ _ _ (by decide)
  exact Server.Reach.start

/-- The supervisor `shifted7` is reached from `busy7` by the completion of child 106
and the expiry of its timer 26. -/
theorem reach_shifted7 : Server.Reach Server.example7 Server.shifted7 :=
  reach_afterTimeOut _ _ _ (reach_afterCompletion _ _ _ reach_busy7 (by decide)) (by decide)

/-- C27. A worker started with `max_children = 7` dispatches seven requests (children
106 and 107 are forked with the indices 5 and 6), then child 106 completes and
its idle timer expires: in the state reached the record at position 5 holds the index 6,
and the completion message of child 107, which carries `child_index = 6`, makes
the handler index the pool of 6 records at position 6, which has no defined
result. After one more request, for which child 108 is forked with the index
6 as well, the same completion message of child 107 sets `FREE` the record of
child 108 and leaves the record of child 107 `BUSY`. -/
theorem C27_index_differs_from_position :
    Server.Reach Server.example7 Server.shifted7 ∧
    Server.shifted7.child_pool_.map (fun c => c.child_index) = [0, 1, 2, 3, 4, 6] ∧
    Server.shifted7.handleResponseFromChild (Server.aCompletion 107 6 17 27) = none ∧
    Server.Reach Server.example7 Server.refilled7 ∧
    Server.refilled7.child_pool_.map (fun c => (c.child_pid, c.child_index, c.child_status))
      = [(101, 0, ChildStatus.BUSY), (102, 1, ChildStatus.BUSY), (103, 2, ChildStatus.BUSY),
        (104, 3, ChildStatus.BUSY), (105, 4, ChildStatus.BUSY), (107, 6, ChildStatus.BUSY),
        (108, 6, ChildStatus.BUSY)] ∧
    (Server.refilled7.handleResponseFromChild (Server.aCompletion 107 6 17 27)).map
        (fun r => (r.2.1, r.1.child_pool_.map (fun c => (c.child_pid, c.child_status))))
      = some (Status.SUCCESS,
        [(101, ChildStatus.BUSY), (102, ChildStatus.BUSY), (103, ChildStatus.BUSY),
          (104, ChildStatus.BUSY), (105, ChildStatus.BUSY), (107, ChildStatus.BUSY),
          (108, ChildStatus.FREE)]) := by
  refine ⟨reach_shifted7, ?_, ?_, ?_, ?_, ?_⟩
  · decide
  · decide
  · exact reach_afterRequest _ _ _ reach_shifted7 (by decide)
  · decide
  · decide

/-! ### C29: the hits of the client generator -/

/-- C29, as stated, refuted. Fifty clients whose options cycle through 0, 1, ..., 6
against the empty cache of capacity 3 yield no hit at all, with and without
the `DEBUG` print of the cached element: each option has been evicted by the
three options that followed it when it comes again. -/
theorem C29_cyclic_options_never_hit :
    ClientManager.cyclicOptions.length = 50 ∧
    (∀ r ∈ ClientManager.cyclicOptions, r.1 < 7) ∧
    (ClientManager.run false ClientManager.cyclicOptions
      (LRUCache.new ClientManager.CACHE_SIZE) 0).map Prod.snd = some 0 ∧
    (ClientManager.run true ClientManager.cyclicOptions
      (LRUCache.new ClientManager.CACHE_SIZE) 0).map Prod.snd = some 0 := by
  refine ⟨?_, ?_, ?_, ?_⟩
  · decide
  · decide
  · decide
  · decide

/-- The run of the generator on options that all lie in a set of at most `C`
options, from a cache of capacity `C` built by cache calls on options of that
set: the run returns, and the hits and the options met for the first time
add up to the number of clients. -/
theorem run_small_option_set (debug : Bool) (C : Nat) (S : Finset Nat) (hS : S.card ≤ C) :
    ∀ (requests : List (Nat × String)) (t : List Nat) (c : LRUCache Nat String) (hits : Nat),
      LRUCache.Built C t c → (∀ k ∈ t, k ∈ S) → (∀ r ∈ requests, r.1 ∈ S) →
      ∃ c' hits', ClientManager.run debug requests c hits = some (c', hits') ∧
        hits' + (t.toFinset ∪ (requests.map Prod.fst).toFinset).card
          = hits + requests.length + t.toFinset.card := by
  intro requests
  induction requests with
  | nil =>
    intro t c hits _ _ _
    exact ⟨c, hits, rfl, by simp⟩
  | cons r rest ih =>
    intro t c hits hb ht hr
    obtain ⟨k, m⟩ := r
    have hk : k ∈ S := hr (k, m) (List.mem_cons_self _ _)
    have hrest : ∀ r ∈ rest, r.1 ∈ S := fun r h => hr r (List.mem_cons_of_mem _ h)
    have hwf := (lru_built_spec C t c hb).1
    have hcached := lru_built_small_cached C S hS t c hb ht k
    by_cases hc : c.isCached k = true
    · have hkt : k ∈ t := hcached.1 hc
      have hunion : t.toFinset ∪ (((k, m) :: rest).map Prod.fst).toFinset
          = t.toFinset ∪ (rest.map Prod.fst).toFinset := by
        rw [List.map_cons, List.toFinset_cons, Finset.union_insert,
          Finset.insert_eq_of_mem (Finset.mem_union_left _ (List.mem_toFinset.2 hkt))]
      cases debug with
      | false =>
        obtain ⟨c', hits', hrun, hcount⟩ := ih t c (hits + 1) hb ht hrest
        refine ⟨c', hits', ?_, ?_⟩
        · rw [ClientManager.run, ClientManager.createClient, if_pos hc]
          exact hrun
        · rw [hunion, hcount, List.length_cons]
          omega
      | true =>
        obtain ⟨v, _, hget⟩ := lru_get_hit c k hwf hc
        have hb1 := LRUCache.Built.get t c _ k v hb hc hget
        have ht1 : ∀ x ∈ k :: t, x ∈ S := by
          intro x hx
          rcases List.mem_cons.1 hx with h | h
          · rw [h]; exact hk
          · exact ht x h
        obtain ⟨c', hits', hrun, hcount⟩ := ih (k :: t) _ (hits + 1) hb1 ht1 hrest
        have hfin : (k :: t).toFinset = t.toFinset := by
          rw [List.toFinset_cons, Finset.insert_eq_of_mem (List.mem_toFinset.2 hkt)]
        refine ⟨c', hits', ?_, ?_⟩
        · rw [ClientManager.run, ClientManager.createClient, if_pos hc, hget]
          exact hrun
        · rw [hfin] at hcount
          rw [hunion, hcount, List.length_cons]
          omega
    · have hkt : k ∉ t := fun h => hc (hcached.2 h)
      obtain ⟨c1, hput, _⟩ := lru_put_spec c k m hwf
      have hb1 := LRUCache.Built.put t c c1 k m hb hput
      have ht1 : ∀ x ∈ k :: t, x ∈ S := by
        intro x hx
        rcases List.mem_cons.1 hx with h | h
        · rw [h]; exact hk
        · exact ht x h
      obtain ⟨c', hits', hrun, hcount⟩ := ih (k :: t) c1 hits hb1 ht1 hrest
      have hunion : t.toFinset ∪ (((k, m) :: rest).map Prod.fst).toFinset
          = (k :: t).toFinset ∪ (rest.map Prod.fst).toFinset := by
        rw [List.map_cons, List.toFinset_cons, List.toFinset_cons, Finset.union_insert,
          Finset.insert_union]
      have hcard : (k :: t).toFinset.card = t.toFinset.card + 1 := by
        rw [List.toFinset_cons, Finset.card_insert_of_not_mem (by simpa using hkt)]
      refine ⟨c', hits', ?_, ?_⟩
      · rw [ClientManager.run, ClientManager.createClient, if_neg hc, hput]
        exact hrun
      · rw [hunion, hcount, hcard, List.length_cons]
        omega

/-- C29, amended. Processing any sequence of 50 request kinds one after another
against the initially empty cache of capacity 3, the way the client generator
does, yields exactly 50 minus the number of distinct kinds hits, hence at
least 47, when the sequence draws at most 3 distinct kinds (all its kinds lie
in a set `S` of at most 3 kinds, for instance 3 of the kinds 0 to 6). -/
theorem C29_hits_of_three_kinds (debug : Bool) (requests : List (Nat × String))
    (hlen : requests.length = 50) (S : Finset Nat)
    (hS : S.card ≤ ClientManager.CACHE_SIZE) (hin : ∀ r ∈ requests, r.1 ∈ S) :
    ∃ c hits, ClientManager.run debug requests (LRUCache.new ClientManager.CACHE_SIZE) 0
        = some (c, hits) ∧
      hits + (requests.map Prod.fst).toFinset.card = 50 ∧ 47 ≤ hits := by
  obtain ⟨c, hits, hrun, hcount⟩ := run_small_option_set debug ClientManager.CACHE_SIZE S hS
    requests [] (LRUCache.new ClientManager.CACHE_SIZE) 0 LRUCache.Built.empty (by simp) hin
  have hsub : (requests.map Prod.fst).toFinset ⊆ S := by
    intro x hx
    obtain ⟨r, hr, rfl⟩ := List.mem_map.1 (List.mem_toFinset.1 hx)
    exact hin r hr
  have hle := Finset.card_le_card hsub
  have h3 : S.card ≤ 3 := hS
  simp only [List.toFinset_nil, Finset.empty_union, Finset.card_empty, Nat.add_zero,
    Nat.zero_add, hlen] at hcount
  exact ⟨c, hits, hrun, hcount, by omega⟩

theorem C29_hits_of_three_kinds_witness :
    ∃ c hits, ClientManager.run false ClientManager.threeOptions
        (LRUCache.new ClientManager.CACHE_SIZE) 0 = some (c, hits) ∧
      hits + (ClientManager.threeOptions.map Prod.fst).toFinset.card = 50 ∧ 47 ≤ hits :=
  C29_hits_of_three_kinds false ClientManager.threeOptions (by decide)
    ({0, 1, 2} : Finset Nat) (by decide) (by decide)

/-! ### C30: a failed write to the client leaves the load one too high -/

theorem findTarget_length (m m' : RequestMap) (port ip : String) (fd : Int)
    (h : findTarget m port ip = some (fd, m')) : m'.length + 1 = m.length := by
  induction m generalizing m' with
  | nil => simp [findTarget] at h
  | cons e rest ih =>
    rw [findTarget] at h
    split at h
    · cases h
      rfl
    · cases hrest : findTarget rest port ip with
      | none => rw [hrest] at h; cases h
      | some r =>
        rw [hrest] at h
        cases h
        rw [List.length_cons, List.length_cons, ih r.2 (by rw [hrest])]

/-- Along every run in which workers only answer, the amount by which the
`cur_load` of worker `fd` exceeds its unanswered requests does not shrink while
the worker stays in the pool. -/
theorem later_surplus (lb0 : LoadBalancer) (out0 : Outstanding) (fd : Int) (k : Int)
    (hk0 : (lb0.server_pool_.map Prod.fst).Nodup)
    (h0 : ∀ p ∈ lb0.server_pool_, p.1 = fd → (out0 fd : Int) + k ≤ p.2.cur_load)
    (lb : LoadBalancer) (out : Outstanding) (hr : Later lb0 out0 lb out) :
    (lb.server_pool_.map Prod.fst).Nodup ∧
      ∀ p ∈ lb.server_pool_, p.1 = fd → (out fd : Int) + k ≤ p.2.cur_load := by
  induction hr with
  | start => exact ⟨hk0, h0⟩
  | client_forwarded lb lb' out ev fd' msg _ hstep ih =>
    rcases handleRequestFromClient_cases lb lb' ev _ _ hstep with
      ⟨hne, _⟩ | ⟨_, id, hacts, hpool, s, hs, _⟩
    · exact absurd rfl hne
    · have hfd : fd' = id := by
        simp only [List.cons.injEq, IOAction.write.injEq, and_true] at hacts
        exact hacts.1
      subst hfd
      have hkey : fd' ∈ lb.server_pool_.map Prod.fst := List.mem_map_of_mem Prod.fst hs
      refine ⟨by rw [hpool, poolAddLoad_keys _ _ _ hkey]; exact ih.1, ?_⟩
      intro p' hp' hp'fd
      rw [hpool] at hp'
      obtain ⟨p, hp, hk1, _, hcase⟩ := poolAddLoad_mem _ _ _ hkey p' hp'
      have hpfd : p.1 = fd := by rw [← hk1]; exact hp'fd
      have hih := ih.2 p hp hpfd
      rcases hcase with ⟨hpf, hcur⟩ | ⟨hpf, rfl⟩
      · have e : fd = fd' := by rw [← hpfd, hpf]
        simp only [Outstanding.sent, e, if_true]
        rw [hcur]
        rw [e] at hih
        push_cast
        omega
      · have e : ¬ fd = fd' := by rw [← hpfd]; exact hpf
        simp only [Outstanding.sent, if_neg e]
        exact hih
  | client_other lb lb' out ev st acts _ hstep hst ih =>
    rcases handleRequestFromClient_cases lb lb' ev _ _ hstep with ⟨_, hsub⟩ | ⟨hs, _⟩
    · exact ⟨(hsub.map Prod.fst).nodup ih.1, fun p hp => ih.2 p (hsub.subset hp)⟩
    · exact absurd hs hst
  | server_message lb out ev _ hkey hread hans ih =>
    rcases handleResultFromServer_cases lb ev hread with hp | hp
    · refine ⟨by rw [hp]; exact ih.1, ?_⟩
      intro p hpm hpfd
      rw [hp] at hpm
      have hih := ih.2 p hpm hpfd
      simp only [Outstanding.answered]
      split
      · omega
      · exact hih
    · refine ⟨by rw [hp, poolAddLoad_keys _ _ _ hkey]; exact ih.1, ?_⟩
      intro p' hp' hp'fd
      rw [hp] at hp'
      obtain ⟨p, hpm, hk1, _, hcase⟩ := poolAddLoad_mem _ _ _ hkey p' hp'
      have hpfd : p.1 = fd := by rw [← hk1]; exact hp'fd
      have hih := ih.2 p hpm hpfd
      rcases hcase with ⟨hpf, hcur⟩ | ⟨hpf, rfl⟩
      · have e : fd = ev.trigger_fd := by rw [← hpfd, hpf]
        rw [← e] at hans
        simp only [Outstanding.answered, e, if_true]
        rw [hcur]
        rw [e] at hih hans
        omega
      · have e : ¬ fd = ev.trigger_fd := by rw [← hpfd]; exact hpf
        simp only [Outstanding.answered, if_neg e]
        exact hih
  | server_lost lb out ev _ _ hlost ih =>
    have hsub : (handleResultFromServer lb ev).1.server_pool_.Sublist lb.server_pool_ := by
      rw [handleResultFromServer_lost lb ev hlost]
      exact poolErase_sublist _ _
    exact ⟨(hsub.map Prod.fst).nodup ih.1, fun p hp => ih.2 p (hsub.subset hp)⟩
  | health lb out probe _ ih =>
    have hsub := healthCheck_sublist lb probe
    exact ⟨(hsub.map Prod.fst).nodup ih.1, fun p hp => ih.2 p (hsub.subset hp)⟩

/-- C30. Let `handleResultFromServer` read a message of worker `trigger_fd` that is matched to
a pending request (`findTarget` finds the client `target_fd ≠ 0` and leaves the map
`request_map_` without that entry), and let the write to that client or the close
of its connection fail. Then the function returns `MINOR_ERROR`, the pending
entry is erased (the map is `request_map_`, one entry shorter) and the pool is
unchanged, so the worker's `cur_load` is not decremented. If the worker's
`cur_load` was its number of unanswered requests before, it is that number plus
one afterwards; and in every state the balancer reaches from there, while
workers only answer, the `cur_load` of that worker, as long as it is in the
pool, exceeds its number of unanswered requests by at least one. -/
theorem C30_failed_client_write_leaks_load (lb : LoadBalancer) (ev : ServerEvent)
    (target_fd : Int) (request_map_ : RequestMap) (hread : 0 < ev.num_read)
    (hmatch : findTarget lb.request_map_ (getTargetPort ev.http_msg lb.target_port_)
      (getTargetIP ev.http_msg lb.target_ip_) = some (target_fd, request_map_))
    (hfd : target_fd ≠ 0) (hfail : ev.write_ok = false ∨ ev.close_ok = false) :
    (handleResultFromServer lb ev).2.1 = Status.MINOR_ERROR ∧
    (handleResultFromServer lb ev).1.request_map_ = request_map_ ∧
    request_map_.length + 1 = lb.request_map_.length ∧
    (handleResultFromServer lb ev).1.server_pool_ = lb.server_pool_ ∧
    ∀ (out : Outstanding) (w : RealServer), (lb.server_pool_.map Prod.fst).Nodup →
      (ev.trigger_fd, w) ∈ lb.server_pool_ → 0 < out ev.trigger_fd →
      w.cur_load = out ev.trigger_fd →
      w.cur_load = ((out.answered ev.trigger_fd) ev.trigger_fd : Int) + 1 ∧
      ∀ (lb2 : LoadBalancer) (out2 : Outstanding),
        Later (handleResultFromServer lb ev).1 (out.answered ev.trigger_fd) lb2 out2 →
        ∀ w2, (ev.trigger_fd, w2) ∈ lb2.server_pool_ →
          (out2 ev.trigger_fd : Int) + 1 ≤ w2.cur_load := by
  have hnr : ¬ (ev.num_read = -1 ∨ ev.num_read = 0) := by omega
  have hres : (handleResultFromServer lb ev).2.1 = Status.MINOR_ERROR ∧
      (handleResultFromServer lb ev).1.request_map_ = request_map_ ∧
      (handleResultFromServer lb ev).1.server_pool_ = lb.server_pool_ := by
    unfold handleResultFromServer
    rw [if_neg hnr]
    simp only
    rw [hmatch]
    simp only
    rw [if_neg hfd]
    cases hw : ev.write_ok with
    | false => exact ⟨rfl, rfl, rfl⟩
    | true =>
      cases hc : ev.close_ok with
      | false => exact ⟨rfl, rfl, rfl⟩
      | true =>
        rw [hw, hc] at hfail
        rcases hfail with h | h <;> cases h
  obtain ⟨hst, hmap, hpool⟩ := hres
  refine ⟨hst, hmap, findTarget_length _ _ _ _ _ hmatch, hpool, ?_⟩
  intro out w hnodup hw hpos hcur
  have hnow : w.cur_load = ((out.answered ev.trigger_fd) ev.trigger_fd : Int) + 1 := by
    simp only [Outstanding.answered, if_true]
    omega
  refine ⟨hnow, ?_⟩
  intro lb2 out2 hlater w2 hw2
  have h0 : ∀ p ∈ (handleResultFromServer lb ev).1.server_pool_, p.1 = ev.trigger_fd →
      ((out.answered ev.trigger_fd) ev.trigger_fd : Int) + 1 ≤ p.2.cur_load := by
    intro p hp hpfd
    rw [hpool] at hp
    have := pool_key_unique _ hnodup p (ev.trigger_fd, w) hp hw hpfd
    rw [this]
    exact le_of_eq hnow.symm
  exact (later_surplus _ _ ev.trigger_fd 1 (by rw [hpool]; exact hnodup) h0 lb2 out2 hlater).2
    (ev.trigger_fd, w2) hw2 rfl

/-- Witness of C30: the answer of worker 6 to the one request under way is
matched to client 9, the write to the client fails, and worker 6 keeps
`cur_load = 1` with no request unanswered. -/
theorem C30_failed_client_write_leaks_load_witness :
    (handleResultFromServer wlcDispatched aLostAnswer).2.1 = Status.MINOR_ERROR ∧
    (handleResultFromServer wlcDispatched aLostAnswer).1.request_map_ = [] ∧
    (handleResultFromServer wlcDispatched aLostAnswer).1.server_pool_
      = wlcDispatched.server_pool_ ∧
    ((1 : Int) = ((oneAtSix.answered 6) 6 : Int) + 1) :=
  have h := C30_failed_client_write_leaks_load wlcDispatched aLostAnswer 9 [] (by decide)
    (by decide) (by decide) (Or.inl (by decide))
  ⟨h.1, h.2.1, h.2.2.2.1,
    (h.2.2.2.2 oneAtSix ⟨"127.0.0.3", "50000", 5, 1⟩ (by decide) (by decide) (by decide)
      (by decide)).1⟩

/-! ### C22: the status of the reader's error responses -/

